import Mathlib

/-!
# SOCKS5 session handler of `nxdp/s5` (`main.go`)

A shallow embedding of the session handler `handle` of `main.go`, from its first
statement up to the point where the two relay goroutines are started
(lines 58-175), together with the Go standard-library functions it calls
(`io.ReadFull`, `net.IP.String`, `net.JoinHostPort`, `fmt.Sprintf("%d", _)`).

* A Go `string` / `[]byte` is a `List Byte`.
* The client transport is the list of bytes the client delivers before its
  stream ends (EOF, reset or expired deadline): a read that asks for more than
  what is left fails.
* The handler is a state-passing function; everything it does to the outside
  world is appended, in program order, to a trace of `Event`s.
-/

namespace S5

/-- A Go `byte`. -/
abbrev Byte := Fin 256

/-- The bytes of an ASCII string literal. -/
def ascii (s : String) : List Byte :=
  s.toList.map fun c => Fin.ofNat c.toNat

/-! ## Configuration and environment -/

/-- The command-line flags the handler reads (`*username`, `*password`, `*bufsize`). -/
structure Config where
  username : List Byte
  password : List Byte
  bufsize : Int

/-- What the handler cannot control: whether `net.DialTimeout` succeeds for an
address, and the bytes found in the pooled buffer when it is acquired. -/
structure Env where
  dial : List Byte → Bool
  stale : Nat → Byte

/-! ## Observable events -/

/-- One externally visible action of the handler. -/
inductive Event where
  /-- Event `atomic.AddInt64(&activeConns, d)`. -/
  | counterAdd (d : Int)
  /-- Event `bufPool.Get()`, numbered in acquisition order. -/
  | poolGet (k : Nat)
  /-- Event `bufPool.Put(_)` of the buffer acquired by `poolGet k`. -/
  | poolPut (k : Nat)
  /-- Event `conn.SetDeadline(time.Now().Add(*timeout))`. -/
  | setDeadline
  /-- Event `conn.SetDeadline(time.Time{})`. -/
  | clearDeadline
  /-- One `io.ReadFull(conn, _)` call and the bytes it took from the client. -/
  | read (got : List Byte)
  /-- One `conn.Write(bs)` call. -/
  | write (bs : List Byte)
  /-- One `net.DialTimeout("tcp", addr, _)` call and whether it succeeded. -/
  | dial (addr : List Byte) (ok : Bool)
  /-- Event `conn.Close()`. -/
  | close
  deriving DecidableEq, Repr

/-- How the modelled part of the handler ends. -/
inductive Outcome where
  /-- The handler executed `return` during the handshake. -/
  | returned
  /-- The handler reached line 175: the relay goroutines are about to start. -/
  | established
  /-- A run-time panic (slice bounds out of range, negative `make` length). -/
  | panicked
  deriving DecidableEq, Repr

/-- The handler state: unread client bytes, contents of `buf`, the trace so
far and the stack of deferred calls (most recent first). -/
structure St where
  input : List Byte
  buf : Nat → Byte
  trace : List Event
  defers : List Event

/-- What a run leaves behind. `pending` holds the deferred calls that have not
run yet (non-empty only when the session is established). -/
structure Result where
  outcome : Outcome
  trace : List Event
  rest : List Byte
  pending : List Event
  deriving DecidableEq, Repr

/-! ## Primitive steps -/

/-- Append an event to the trace. -/
def St.log (s : St) (e : Event) : St :=
  { s with trace := s.trace ++ [e] }

/-- A `defer` statement: push the call on the defer stack. -/
def St.defer (s : St) (e : Event) : St :=
  { s with defers := e :: s.defers }

/-- Statement `return`: the deferred calls run, last registered first. -/
def doReturn (s : St) : Result :=
  { outcome := .returned, trace := s.trace ++ s.defers, rest := s.input, pending := [] }

/-- A run-time panic: the deferred calls run while the goroutine unwinds. -/
def doPanic (s : St) : Result :=
  { outcome := .panicked, trace := s.trace ++ s.defers, rest := s.input, pending := [] }

/-- Control reaches line 175 with the deferred calls still pending. -/
def doEstablished (s : St) : Result :=
  { outcome := .established, trace := s.trace, rest := s.input, pending := s.defers }

/-- Overwrite the first `bs.length` cells of a buffer with `bs`. -/
def store (bs : List Byte) (buf : Nat → Byte) : Nat → Byte :=
  fun i => bs.getD i (buf i)

/-- The slice `buf[:n]` as a byte string. -/
def slice (buf : Nat → Byte) (n : Nat) : List Byte :=
  (List.range n).map buf

/-- Result of `io.ReadFull(conn, buf[:n])`. -/
inductive ReadRes where
  /-- All `n` bytes were read (`err == nil`). -/
  | ok (s : St)
  /-- The stream ended first (`err != nil`). -/
  | err (s : St)
  /-- The slice expression `buf[:n]` is out of range. -/
  | oob (s : St)

/-- Statement `io.ReadFull(conn, buf[:n])` on a buffer of capacity `*bufsize`.
The slice expression is evaluated first; then bytes are read until `n` are in
the buffer or the stream ends (for `n = 0` nothing is read and there is no
error). -/
def readFull (cfg : Config) (s : St) (n : Nat) : ReadRes :=
  if cfg.bufsize.toNat < n then .oob s
  else if n ≤ s.input.length then
    .ok { s with input := s.input.drop n,
                 buf := store (s.input.take n) s.buf,
                 trace := s.trace ++ [.read (s.input.take n)] }
  else
    .err { s with input := [],
                  buf := store s.input s.buf,
                  trace := s.trace ++ [.read s.input] }

/-! ## Go standard library: address formatting -/

/-- Lower-case hexadecimal digit table of package `netip`. -/
def digits : List Byte := ascii "0123456789abcdef"

/-- Table lookup `digits[n]`. -/
def digit (n : Nat) : Byte := digits.getD n 0

/-- Function `netip.appendDecimal`: a `uint8` in decimal. -/
def appendDecimal (x : Nat) : List Byte :=
  (if x ≥ 100 then [digit (x / 100)] else []) ++
  (if x ≥ 10 then [digit (x / 10 % 10)] else []) ++
  [digit (x % 10)]

/-- Function `netip.appendHex`: a `uint16` in hexadecimal without leading zeros. -/
def appendHex (x : Nat) : List Byte :=
  (if x ≥ 0x1000 then [digit (x >>> 12)] else []) ++
  (if x ≥ 0x100 then [digit (x >>> 8 &&& 0xf)] else []) ++
  (if x ≥ 0x10 then [digit (x >>> 4 &&& 0xf)] else []) ++
  [digit (x &&& 0xf)]

/-- Function `net.hexString`: two hexadecimal digits per byte. -/
def hexString (b : List Byte) : List Byte :=
  b.flatMap fun x => [digit (x.val >>> 4), digit (x.val &&& 0xf)]

/-- Method `Addr.string4`: dotted decimal of four bytes. -/
def string4 (p : List Byte) : List Byte :=
  appendDecimal (p.getD 0 0).val ++ ascii "." ++
  appendDecimal (p.getD 1 0).val ++ ascii "." ++
  appendDecimal (p.getD 2 0).val ++ ascii "." ++
  appendDecimal (p.getD 3 0).val

/-- Method `Addr.v6u16`: the `i`-th 16-bit group of a 16-byte address. -/
def v6u16 (ip : List Byte) (i : Nat) : Nat :=
  (ip.getD (2 * i) 0).val <<< 8 ||| (ip.getD (2 * i + 1) 0).val

/-- Inner loop of `appendTo6`: advance `j` while `j < 8` and group `j` is zero. -/
def zeroRunEnd (ip : List Byte) : Nat → Nat → Nat
  | 0, j => j
  | fuel + 1, j => if j < 8 ∧ v6u16 ip j = 0 then zeroRunEnd ip fuel (j + 1) else j

/-- First loop of `appendTo6`: the longest run of at least two zero groups,
as `(zeroStart, zeroEnd)`, starting from `(255, 255)`. -/
def findZeros (ip : List Byte) : Nat × Nat :=
  (List.range 8).foldl
    (fun z i =>
      let j := zeroRunEnd ip 8 i
      if j - i ≥ 2 ∧ j - i > z.2 - z.1 then (i, j) else z)
    (255, 255)

/-- Second loop of `appendTo6`, from group `i` on. -/
def emit6 (ip : List Byte) (zeroStart zeroEnd : Nat) : Nat → Nat → List Byte
  | 0, _ => []
  | fuel + 1, i =>
    if i ≥ 8 then []
    else if i = zeroStart then
      if zeroEnd ≥ 8 then ascii "::"
      else ascii "::" ++ appendHex (v6u16 ip zeroEnd) ++ emit6 ip zeroStart zeroEnd fuel (zeroEnd + 1)
    else
      (if i > 0 then ascii ":" else []) ++ appendHex (v6u16 ip i) ++
        emit6 ip zeroStart zeroEnd fuel (i + 1)

/-- Method `Addr.string6` for an address without zone. -/
def string6 (ip : List Byte) : List Byte :=
  emit6 ip (findZeros ip).1 (findZeros ip).2 9 0

/-- Method `IP.To4`: the 4-byte form of an IPv4 or IPv4-mapped address. -/
def to4 (ip : List Byte) : Option (List Byte) :=
  if ip.length = 4 then some ip
  else if ip.length = 16 ∧ (ip.take 10).all (fun b => b = 0) ∧
      ip.getD 10 0 = 0xff ∧ ip.getD 11 0 = 0xff then some (ip.drop 12)
  else none

/-- Method `net.IP.String`. -/
def ipString (ip : List Byte) : List Byte :=
  if ip.length = 0 then ascii "<nil>"
  else if ip.length ≠ 4 ∧ ip.length ≠ 16 then ascii "?" ++ hexString ip
  else
    match to4 ip with
    | some p4 => string4 p4
    | none => string6 ip

/-- Expression `fmt.Sprintf("%d", n)` for a non-negative `int`. -/
def decimal (n : Nat) : List Byte :=
  (Nat.toDigits 10 n).map fun c => Fin.ofNat c.toNat

/-- Function `net.JoinHostPort`: brackets around a host that contains a colon. -/
def joinHostPort (host port : List Byte) : List Byte :=
  if (58 : Byte) ∈ host then ascii "[" ++ host ++ ascii "]:" ++ port
  else host ++ ascii ":" ++ port

/-! ## The handler, lines 58-175 -/

/-- Statement `conn.Write(bs)`; the handler ignores its result. -/
def connWrite (s : St) (bs : List Byte) : St := s.log (.write bs)

/-- Statement `conn.Close()`. -/
def connClose (s : St) : St := s.log .close

/-- The success reply written at line 167. -/
def replySuccess : List Byte := [0x05, 0x00, 0x00, 0x01, 0, 0, 0, 0, 0, 0]

/-- The general-failure reply written at line 162. -/
def replyFailure : List Byte := [0x05, 0x05, 0x00, 0x01, 0, 0, 0, 0, 0, 0]

/-- Expression `int(buf[0])<<8 | int(buf[1])`. -/
def portOf (h l : Byte) : Nat := h.val <<< 8 ||| l.val

/-- Lines 153-175: read the port, dial, reply, acquire the second buffer. -/
def connect (cfg : Config) (env : Env) (s : St) (target : List Byte) : Result :=
  match readFull cfg s 2 with
  | .oob s => doPanic s
  | .err s => doReturn (connClose s)
  | .ok s =>
    let port := portOf (s.buf 0) (s.buf 1)
    let addr := joinHostPort target (decimal port)
    if env.dial addr then
      let s := s.log (.dial addr true)
      let s := connWrite s replySuccess
      let s := s.log .clearDeadline
      let s := (s.log (.poolGet 2)).defer (.poolPut 2)
      doEstablished s
    else
      let s := s.log (.dial addr false)
      let s := connWrite s replyFailure
      doReturn (connClose s)

/-- Lines 116-151: read the request header and the destination address. -/
def request (cfg : Config) (env : Env) (s : St) : Result :=
  match readFull cfg s 4 with
  | .oob s => doPanic s
  | .err s => doReturn (connClose s)
  | .ok s =>
    if s.buf 1 ≠ 0x01 then doReturn (connClose s)
    else if s.buf 3 = 0x01 then
      match readFull cfg s 4 with
      | .oob s => doPanic s
      | .err s => doReturn (connClose s)
      | .ok s => connect cfg env s (ipString (slice s.buf 4))
    else if s.buf 3 = 0x03 then
      match readFull cfg s 1 with
      | .oob s => doPanic s
      | .err s => doReturn (connClose s)
      | .ok s =>
        let dlen := s.buf 0
        match readFull cfg s dlen.val with
        | .oob s => doPanic s
        | .err s => doReturn (connClose s)
        | .ok s => connect cfg env s (slice s.buf dlen.val)
    else if s.buf 3 = 0x04 then
      match readFull cfg s 16 with
      | .oob s => doPanic s
      | .err s => doReturn (connClose s)
      | .ok s => connect cfg env s (ipString (slice s.buf 16))
    else connect cfg env s []

/-- Lines 86-114: username/password sub-negotiation. -/
def auth (cfg : Config) (env : Env) (s : St) : Result :=
  match readFull cfg s 2 with
  | .oob s => doPanic s
  | .err s => doReturn (connClose s)
  | .ok s =>
    let ulen := s.buf 1
    match readFull cfg s ulen.val with
    | .oob s => doPanic s
    | .err s => doReturn (connClose s)
    | .ok s =>
      let user := slice s.buf ulen.val
      match readFull cfg s 1 with
      | .oob s => doPanic s
      | .err s => doReturn (connClose s)
      | .ok s =>
        let plen := s.buf 0
        match readFull cfg s plen.val with
        | .oob s => doPanic s
        | .err s => doReturn (connClose s)
        | .ok s =>
          let pass := slice s.buf plen.val
          if user ≠ cfg.username ∨ pass ≠ cfg.password then
            doReturn (connClose (connWrite s [0x01, 0x01]))
          else
            request cfg env (connWrite s [0x01, 0x00])

/-- Lines 73-84: method negotiation. -/
def greeting (cfg : Config) (env : Env) (s : St) : Result :=
  match readFull cfg s 2 with
  | .oob s => doPanic s
  | .err s => doReturn (connClose s)
  | .ok s =>
    let nmethods := s.buf 1
    match readFull cfg s nmethods.val with
    | .oob s => doPanic s
    | .err s => doReturn (connClose s)
    | .ok s => auth cfg env (connWrite s [0x05, 0x02])

/-- Function `handle` from its first statement to line 175, run on a client
that delivers `input` and then ends its stream. -/
def handshake (cfg : Config) (env : Env) (input : List Byte) : Result :=
  let s : St := { input := input, buf := env.stale, trace := [.counterAdd 1], defers := [] }
  let s := s.defer (.counterAdd (-1))
  if cfg.bufsize < 0 then doPanic s
  else
    let s := (s.log (.poolGet 1)).defer (.poolPut 1)
    let s := s.log .setDeadline
    greeting cfg env s

/-! ## Observations on a trace -/

/-- All bytes passed to `conn.Write`, in order. -/
def written : List Event → List Byte
  | [] => []
  | .write bs :: t => bs ++ written t
  | _ :: t => written t

/-- All bytes taken from the client, in order. -/
def consumed : List Event → List Byte
  | [] => []
  | .read bs :: t => bs ++ consumed t
  | _ :: t => consumed t

/-- The addresses passed to `net.DialTimeout`, in order. -/
def dials : List Event → List (List Byte)
  | [] => []
  | .dial a _ :: t => a :: dials t
  | _ :: t => dials t



/-! ## Vocabulary of the claims -/

/-- The address field that a request of address type `atyp` must carry to be
complete: 4 bytes (IPv4), a length byte and that many name bytes (domain),
16 bytes (IPv6), nothing for any other address type. -/
def addrComplete (atyp : Byte) (field : List Byte) : Bool :=
  if atyp = 0x01 then field.length == 4
  else if atyp = 0x03 then
    match field with
    | [] => false
    | l :: name => name.length == l.val
  else if atyp = 0x04 then field.length == 16
  else field.isEmpty

/-- The host a complete address field denotes. -/
def targetOf (atyp : Byte) (field : List Byte) : List Byte :=
  if atyp = 0x01 then ipString field
  else if atyp = 0x03 then field.drop 1
  else if atyp = 0x04 then ipString field
  else []

/-- The reads that take a complete address field from the client. -/
def addrReads (atyp : Byte) (field : List Byte) : List Event :=
  if atyp = 0x01 then [.read field]
  else if atyp = 0x03 then [.read (field.take 1), .read (field.drop 1)]
  else if atyp = 0x04 then [.read field]
  else []


/-- The client greeting `[VER, NMETHODS, METHODS...]`. -/
def greetingMsg (v n : Byte) (methods : List Byte) : List Byte :=
  [v, n] ++ methods

/-- The client authentication message `[VER, ULEN, UNAME..., PLEN, PASSWD...]`. -/
def authMsg (av ul : Byte) (user : List Byte) (pl : Byte) (pass : List Byte) : List Byte :=
  [av, ul] ++ user ++ [pl] ++ pass

/-- The client request `[VER, CMD, RSV, ATYP, DST.ADDR..., DST.PORT]`. -/
def requestMsg (rv cmd rsv atyp : Byte) (field : List Byte) (ph pl : Byte) : List Byte :=
  [rv, cmd, rsv, atyp] ++ field ++ [ph, pl]


/-- The dotted-decimal text of four bytes. -/
def dottedQuad (a b c d : Byte) : List Byte :=
  ascii (toString a.val ++ "." ++ toString b.val ++ "." ++ toString c.val ++ "." ++
    toString d.val)

/-- The flag defaults of `main.go`: `-u admin -p admin -b 65536`. -/
def defaultCfg : Config :=
  { username := ascii "admin", password := ascii "admin", bufsize := 65536 }

/-- An environment whose dials all succeed (`ok = true`) or all fail, with a
zeroed buffer. -/
def envOf (ok : Bool) : Env :=
  { dial := fun _ => ok, stale := fun _ => 0 }

/-- The example client of the specification up to the request: greeting
`[0x05,0x01,0x00]`, credentials `admin`/`admin`, then `req`. -/
def adminSession (req : List Byte) : List Byte :=
  greetingMsg 0x05 0x01 [0x00] ++ authMsg 0x01 0x05 (ascii "admin") 0x05 (ascii "admin") ++ req


/-- Bytes a greeting requires: the two header bytes, plus the method count
once that byte has arrived. -/
def greetingNeed : List Byte → Nat
  | _ :: n :: _ => 2 + n.val
  | _ => 2

/-- Bytes an authentication message requires: two header bytes, ULEN name
bytes, the PLEN byte, and PLEN password bytes once that byte has arrived. -/
def authNeed : List Byte → Nat
  | _ :: ul :: tl =>
    match tl.drop ul.val with
    | pl :: _ => 2 + ul.val + 1 + pl.val
    | [] => 2 + ul.val + 1
  | _ => 2

/-- Bytes a request requires: the four header bytes and, for CMD `0x01`, the
address field of its address type followed by the two port bytes. -/
def requestNeed : List Byte → Nat
  | _ :: cmd :: _ :: atyp :: tl =>
    if cmd ≠ 0x01 then 4
    else if atyp = 0x01 then 4 + 4 + 2
    else if atyp = 0x03 then
      match tl with
      | l :: _ => 4 + 1 + l.val + 2
      | [] => 4 + 1 + 2
    else if atyp = 0x04 then 4 + 16 + 2
    else 4 + 2
  | _ => 4

/-- The run `r` ended, after trace `t`, by some reads followed by `conn.Close()`
and the deferred calls `df`, with the client stream used up. -/
def Aborted (t df : List Event) (r : Result) : Prop :=
  ∃ rd : List Event, (∀ e ∈ rd, ∃ bs, e = Event.read bs) ∧
    r = { outcome := .returned, trace := t ++ rd ++ .close :: df, rest := [], pending := [] }

/-- The IPv4-mapped form `::ffff:a.b.c.d` of a 16-byte address: ten zero bytes
followed by two bytes `0xff`. -/
def v4Mapped (ip : List Byte) : Bool :=
  (ip.take 10).all (fun b => b = 0) && ip.getD 10 0 == 0xff && ip.getD 11 0 == 0xff

/-- The number an unsigned decimal numeral denotes. -/
def parseDecimal (bs : List Byte) : Nat :=
  bs.foldl (fun acc b => acc * 10 + (b.val - 48)) 0

/-- What a client and the network can observe of a run: the bytes written to the
client, the addresses dialled, and how the run ended. -/
def observed (r : Result) : List Byte × List (List Byte) × Outcome :=
  (written r.trace, dials r.trace, r.outcome)

/-- A request in which the version byte and the reserved byte are replaced by
zero. -/
def eraseRequest : List Byte → List Byte
  | [] => []
  | [_] => [0]
  | [_, cmd] => [0, cmd]
  | _ :: cmd :: _ :: tl => 0 :: cmd :: 0 :: tl

/-- The password part of an authentication message (PLEN and the password
bytes, kept as they are) followed by the erased request. -/
def erasePass : List Byte → List Byte
  | [] => []
  | pl :: tl => pl :: (tl.take pl.val ++ eraseRequest (tl.drop pl.val))

/-- An authentication message, and what follows it, in which the
sub-negotiation version byte is replaced by zero and the request is erased by
`eraseRequest`; ULEN, the username, PLEN and the password are kept. -/
def eraseAuth : List Byte → List Byte
  | [] => []
  | [_] => [0]
  | _ :: ul :: tl => 0 :: ul :: (tl.take ul.val ++ erasePass (tl.drop ul.val))

/-- A client input in which every byte the claim calls unchecked is replaced by
zero: the greeting version byte, the method bytes, the authentication version
byte, the request version byte and the request reserved byte. Two inputs differ
only in those bytes exactly when their erasures are equal. -/
def eraseUnchecked : List Byte → List Byte
  | [] => []
  | [_] => [0]
  | _ :: n :: tl =>
    0 :: n :: ((tl.take n.val).map (fun _ => 0) ++ eraseAuth (tl.drop n.val))

/-- The pattern `if _, err := io.ReadFull(conn, buf[:n]); err != nil { conn.Close();
return }` followed by `k`. -/
def readThen (cfg : Config) (s : St) (n : Nat) (k : St → Result) : Result :=
  match readFull cfg s n with
  | .oob s => doPanic s
  | .err s => doReturn (connClose s)
  | .ok s => k s

/-- Two handler states whose traces show the same writes and dials and whose
deferred calls agree. -/
def SameObs (s s' : St) : Prop :=
  written s.trace = written s'.trace ∧ dials s.trace = dials s'.trace ∧ s.defers = s'.defers

/-! ## The acceptor, lines 33-56 -/

/-- One externally visible action of `main`. -/
inductive MainEvent where
  /-- A call of `log.Printf`. -/
  | log
  /-- Event `log.Fatal(err)`: the error is logged and the process exits. -/
  | fatal
  /-- Statement `go func() { ... }()` starting the status reporter. -/
  | spawnStatus
  /-- Statement `go handle(conn)` for the accepted connection `conn`. -/
  | spawn (conn : Nat)
  deriving DecidableEq, Repr

/-- The state of `main`: whether it is still executing, and what it did. -/
structure Acceptor where
  running : Bool
  events : List MainEvent
  deriving DecidableEq, Repr

/-- One iteration of the loop of lines 49-55 for one result of `ln.Accept()`:
`none` is an error (`continue`), `some conn` a connection (`go handle(conn)`). -/
def acceptStep (a : Acceptor) (res : Option Nat) : Acceptor :=
  if a.running then
    match res with
    | none => a
    | some conn => { a with events := a.events ++ [.spawn conn] }
  else a

/-- Function `main` run on the result of `net.Listen` and on the results of
the successive calls of `ln.Accept()`. -/
def mainRun (listenOk : Bool) (accepts : List (Option Nat)) : Acceptor :=
  if listenOk then
    accepts.foldl acceptStep { running := true, events := [.log, .spawnStatus] }
  else
    { running := false, events := [.fatal] }

/-- The handlers started by `main`, in order. -/
def spawned : List MainEvent → List Nat
  | [] => []
  | .spawn c :: t => c :: spawned t
  | _ :: t => spawned t

/-- The number of `log.Printf` calls made by `main` itself. -/
def logCount : List MainEvent → Nat
  | [] => 0
  | .log :: t => logCount t + 1
  | _ :: t => logCount t

/-! ## The connection counter shared by the sessions -/

/-- The value an `int64` holds after an addition: wrap-around modulo `2^64`. -/
def wrap64 (x : Int) : Int :=
  (x + 9223372036854775808) % 18446744073709551616 - 9223372036854775808

/-- A session entering its handler (line 60) or leaving it (the deferred call
of line 63). -/
inductive SessEvent where
  | start (i : Nat)
  | finish (i : Nat)
  deriving DecidableEq, Repr

/-- The shared counter `activeConns` together with the sessions that are inside
their handler and those that have left it. -/
structure Server where
  counter : Int
  inside : List Nat
  finished : List Nat
  deriving DecidableEq, Repr

/-- One atomic counter update. A session starts at most once and finishes only
after it started, as each run of `handle` adds 1 first and -1 on return. -/
def serverStep (s : Server) (e : SessEvent) : Server :=
  match e with
  | .start i =>
    if i ∈ s.inside ∨ i ∈ s.finished then s
    else { s with counter := wrap64 (s.counter + 1), inside := i :: s.inside }
  | .finish i =>
    if i ∈ s.inside then
      { counter := wrap64 (s.counter + (-1)), inside := s.inside.erase i,
        finished := i :: s.finished }
    else s

/-- The server after an interleaving of session starts and ends, from counter 0. -/
def serverRun (evs : List SessEvent) : Server :=
  evs.foldl serverStep { counter := 0, inside := [], finished := [] }

/-! ## The relay, lines 177-197 -/

/-- The two copy loops of the relay. -/
inductive Dir where
  /-- Loop `io.CopyBuffer(dst, conn, buf)`: client to destination. -/
  | up
  /-- Loop `io.CopyBuffer(conn, dst, buf2)`: destination to client. -/
  | down
  deriving DecidableEq, Repr

/-- One action of the handler goroutine or of a copy goroutine during the
relay. -/
inductive RelayEvent where
  /-- A `go func() { ... }()` statement starting a copy loop. -/
  | spawn (d : Dir)
  /-- A `Read` of loop `d` returned the bytes `bs`, with an error if `err`. -/
  | read (d : Dir) (bs : List Byte) (err : Bool)
  /-- A `Write` of loop `d` took the bytes `bs`, with an error if `err`. -/
  | write (d : Dir) (bs : List Byte) (err : Bool)
  /-- Statement `done <- struct{}{}` of loop `d`. -/
  | signal (d : Dir)
  /-- Statement `<-done` of the handler. -/
  | recv
  /-- Statement `conn.Close()` of line 192. -/
  | closeClient
  /-- Statement `dst.Close()` of line 193. -/
  | closeDst
  /-- The handler returns (line 197). -/
  | ret
  deriving DecidableEq, Repr

/-- Where a copy goroutine is: not started, about to call `Read`, holding the
chunk of its last `Read` (which also reported an error if `readErr`) and about
to call `Write`, out of the copy loop and about to send on `done`, or done. -/
inductive Loop where
  | idle
  | reading
  | writing (chunk : List Byte) (readErr : Bool)
  | signalling
  | finished
  deriving DecidableEq, Repr

/-- The state of one established session. `pc` counts the statements the
handler goroutine has executed since line 177: the two `go` statements, the
first `<-done`, `conn.Close()`, `dst.Close()`, the second `<-done`, `return`.
`chan` is the number of values buffered in `done`; `fromClient` and `fromDst`
are the bytes each peer delivers that have not been read yet. -/
structure Relay where
  pc : Nat
  chan : Nat
  clientClosed : Bool
  dstClosed : Bool
  up : Loop
  down : Loop
  fromClient : List Byte
  fromDst : List Byte
  trace : List RelayEvent
  deriving DecidableEq, Repr

/-- What the scheduler and the two peers decide next: the handler goroutine
runs its next statement; a pending `Read` of a loop returns up to `n` bytes
(with an error if `err`); a pending `Write` takes up to `n` bytes (with an error
if `err`); a loop sends its completion signal. -/
inductive Choice where
  | main
  | read (d : Dir) (n : Nat) (err : Bool)
  | write (d : Dir) (n : Nat) (err : Bool)
  | signal (d : Dir)
  deriving DecidableEq, Repr

/-- The copy goroutine of a direction. -/
def Relay.loop (s : Relay) : Dir → Loop
  | .up => s.up
  | .down => s.down

/-- Replace the state of the copy goroutine of a direction. -/
def Relay.setLoop (s : Relay) (d : Dir) (l : Loop) : Relay :=
  match d with
  | .up => { s with up := l }
  | .down => { s with down := l }

/-- The bytes the source of a direction has yet to deliver. -/
def Relay.source (s : Relay) : Dir → List Byte
  | .up => s.fromClient
  | .down => s.fromDst

/-- Replace the bytes the source of a direction has yet to deliver. -/
def Relay.setSource (s : Relay) (d : Dir) (bs : List Byte) : Relay :=
  match d with
  | .up => { s with fromClient := bs }
  | .down => { s with fromDst := bs }

/-- Whether the handler has closed the transport a direction reads from. -/
def Relay.sourceClosed (s : Relay) : Dir → Bool
  | .up => s.clientClosed
  | .down => s.dstClosed

/-- Whether the handler has closed the transport a direction writes to. -/
def Relay.sinkClosed (s : Relay) : Dir → Bool
  | .up => s.dstClosed
  | .down => s.clientClosed

/-- Append an event to the relay trace. -/
def Relay.log (s : Relay) (e : RelayEvent) : Relay :=
  { s with trace := s.trace ++ [e] }

/-- The handler goroutine executes its next statement (lines 180-197). A
receive on the empty channel blocks: the state does not change. -/
def mainStep (s : Relay) : Relay :=
  match s.pc with
  | 0 => { (s.log (.spawn .up)) with pc := 1, up := .reading }
  | 1 => { (s.log (.spawn .down)) with pc := 2, down := .reading }
  | 2 => if 0 < s.chan then { (s.log .recv) with pc := 3, chan := s.chan - 1 } else s
  | 3 => { (s.log .closeClient) with pc := 4, clientClosed := true }
  | 4 => { (s.log .closeDst) with pc := 5, dstClosed := true }
  | 5 => if 0 < s.chan then { (s.log .recv) with pc := 6, chan := s.chan - 1 } else s
  | 6 => { (s.log .ret) with pc := 7 }
  | _ => s

/-- The `Read` call of a copy loop returns (body of `io.CopyBuffer`). On a
transport the handler has closed it fails without data. Otherwise it returns the
next `min n (available)` bytes; without data and without error the call has not
returned yet. With data the loop goes on to `Write`; without data and with an
error it leaves the loop. -/
def readStep (s : Relay) (d : Dir) (n : Nat) (err : Bool) : Relay :=
  match s.loop d with
  | .reading =>
    if s.sourceClosed d then
      (s.setLoop d .signalling).log (.read d [] true)
    else if (s.source d).take n = [] then
      if err then (s.setLoop d .signalling).log (.read d [] true) else s
    else
      (((s.setSource d ((s.source d).drop n)).setLoop d
        (.writing ((s.source d).take n) err))).log (.read d ((s.source d).take n) err)
  | _ => s

/-- The `Write` call of a copy loop returns. On a transport the handler has
closed it fails without taking a byte. Otherwise it takes the first
`min n (chunk length)` bytes. The loop goes back to `Read` only if the whole
chunk was taken without error and the `Read` before had reported no error. -/
def writeStep (s : Relay) (d : Dir) (n : Nat) (err : Bool) : Relay :=
  match s.loop d with
  | .writing chunk readErr =>
    if s.sinkClosed d then
      (s.setLoop d .signalling).log (.write d [] true)
    else if err || decide (n < chunk.length) || readErr then
      (s.setLoop d .signalling).log (.write d (chunk.take n) err)
    else
      (s.setLoop d .reading).log (.write d chunk false)
  | _ => s

/-- Statement `done <- struct{}{}` of a copy goroutine; the channel holds at
most two values. -/
def signalStep (s : Relay) (d : Dir) : Relay :=
  match s.loop d with
  | .signalling =>
    if s.chan < 2 then
      { ((s.setLoop d .finished).log (.signal d)) with chan := s.chan + 1 }
    else s
  | _ => s

/-- One scheduling step of the relay. -/
def relayStep (s : Relay) (c : Choice) : Relay :=
  match c with
  | .main => mainStep s
  | .read d n err => readStep s d n err
  | .write d n err => writeStep s d n err
  | .signal d => signalStep s d

/-- The relay at line 177, with the bytes each peer is going to deliver. -/
def relayInit (fromClient fromDst : List Byte) : Relay :=
  { pc := 0, chan := 0, clientClosed := false, dstClosed := false, up := .idle, down := .idle,
    fromClient := fromClient, fromDst := fromDst, trace := [] }

/-- The relay after the scheduling steps `sched`. -/
def relayRun (fromClient fromDst : List Byte) (sched : List Choice) : Relay :=
  sched.foldl relayStep (relayInit fromClient fromDst)

/-- The bytes a direction has written to its sink, in order. -/
def delivered (d : Dir) : List RelayEvent → List Byte
  | [] => []
  | .write d' bs _ :: t => if d' = d then bs ++ delivered d t else delivered d t
  | _ :: t => delivered d t

/-- Conservation of the byte stream `stream` of a direction: between two
iterations everything read has been written, during an iteration the chunk in
hand is the only difference, and after the loop what was written is still a
prefix of the stream. -/
def Conserved (d : Dir) (stream : List Byte) (s : Relay) : Prop :=
  match s.loop d with
  | .idle => stream = delivered d s.trace ++ s.source d
  | .reading => stream = delivered d s.trace ++ s.source d
  | .writing chunk _ => stream = delivered d s.trace ++ chunk ++ s.source d
  | .signalling => ∃ mid, stream = delivered d s.trace ++ mid ++ s.source d
  | .finished => ∃ mid, stream = delivered d s.trace ++ mid ++ s.source d

/-! ## The whole handler -/

/-- A run of `handle`: the handshake and, if the session is established, the
relay. -/
structure Session where
  hs : Result
  relay : Option Relay

/-- Function `handle` run on a client that delivers `input`, with a
destination that delivers `fromDst`, under the schedule `sched` for the relay. -/
def handle (cfg : Config) (env : Env) (input fromDst : List Byte) (sched : List Choice) :
    Session :=
  let r := handshake cfg env input
  match r.outcome with
  | .established => { hs := r, relay := some (relayRun r.rest fromDst sched) }
  | _ => { hs := r, relay := none }

/-- Whether the handler has returned (or panicked). -/
def Session.exited (x : Session) : Bool :=
  match x.relay with
  | none => true
  | some st => st.pc == 7

/-- Everything a run did, in order: the handshake, then the relay, then the
deferred calls that run when the handler returns from the relay. -/
def Session.log (x : Session) : List (Event ⊕ RelayEvent) :=
  match x.relay with
  | none => x.hs.trace.map Sum.inl
  | some st =>
    x.hs.trace.map Sum.inl ++ st.trace.map Sum.inr ++
      (if st.pc = 7 then x.hs.pending.map Sum.inl else [])

/-- The counter and pool events of a run, in order. -/
def resources : List (Event ⊕ RelayEvent) → List Event
  | [] => []
  | .inl (.counterAdd d) :: t => .counterAdd d :: resources t
  | .inl (.poolGet k) :: t => .poolGet k :: resources t
  | .inl (.poolPut k) :: t => .poolPut k :: resources t
  | _ :: t => resources t

/-- Before its `go` statement a copy goroutine does not exist. -/
def NotStarted (s : Relay) : Prop :=
  (s.pc = 0 → s.up = .idle) ∧ (s.pc ≤ 1 → s.down = .idle)

/-- The number of copy goroutines that have sent their completion signal. -/
def finishedLoops (s : Relay) : Nat :=
  (if s.up = .finished then 1 else 0) + (if s.down = .finished then 1 else 0)

/-- The number of `<-done` statements the handler has completed at `pc`. -/
def receives (pc : Nat) : Nat :=
  if pc ≤ 2 then 0 else if pc ≤ 5 then 1 else 2

/-- Every occurrence of the event `e` in `tr` comes after a prefix that
satisfies `P`. -/
def OnlyAfter (P : List RelayEvent → Prop) (e : RelayEvent) (tr : List RelayEvent) : Prop :=
  ∀ pre post, tr = pre ++ e :: post → P pre

/-- The synchronisation invariant of the relay. -/
structure SyncInv (s : Relay) : Prop where
  started : NotStarted s
  pcMax : s.pc ≤ 7
  count : finishedLoops s = s.chan + receives s.pc
  sigUp : s.up = .finished ↔ RelayEvent.signal .up ∈ s.trace
  sigDown : s.down = .finished ↔ RelayEvent.signal .down ∈ s.trace
  closeClient : OnlyAfter (fun pre => ∃ d, RelayEvent.signal d ∈ pre) .closeClient s.trace
  closeDst : OnlyAfter (fun pre => ∃ d, RelayEvent.signal d ∈ pre) .closeDst s.trace
  ret : OnlyAfter (fun pre => RelayEvent.signal .up ∈ pre ∧ RelayEvent.signal .down ∈ pre)
    .ret s.trace
  clientClosed : 4 ≤ s.pc → s.clientClosed = true ∧ RelayEvent.closeClient ∈ s.trace
  dstClosed : 5 ≤ s.pc → s.dstClosed = true ∧ RelayEvent.closeDst ∈ s.trace
  returned : s.pc = 7 → RelayEvent.ret ∈ s.trace

/-- Events that touch neither the connection counter nor the buffer pool. -/
def Quiet (tl : List Event) : Prop :=
  ∀ e ∈ tl, (∀ d, e ≠ Event.counterAdd d) ∧ (∀ k, e ≠ Event.poolGet k) ∧
    (∀ k, e ≠ Event.poolPut k)

/-- The two ways a run of the handshake that started from trace `t` with the
deferred calls `df` can end: established, after the success reply, with the
second buffer just acquired and its release deferred; or not established, with
the deferred calls executed. In between only quiet events occur. -/
def ShapeFrom (t df : List Event) (r : Result) : Prop :=
  (r.outcome = .established ∧ r.pending = .poolPut 2 :: df ∧
    ∃ tl, Quiet tl ∧ r.trace = t ++ tl ++ [.write replySuccess, .clearDeadline, .poolGet 2]) ∨
  (r.outcome ≠ .established ∧ r.pending = [] ∧ ∃ tl, Quiet tl ∧ r.trace = t ++ tl ++ df)

/-- The amounts added to the connection counter, in order. -/
def deltas : List Event → List Int
  | [] => []
  | .counterAdd d :: t => d :: deltas t
  | _ :: t => deltas t

/-- The pool events, in order. -/
def pools : List Event → List Event
  | [] => []
  | .poolGet k :: t => .poolGet k :: pools t
  | .poolPut k :: t => .poolPut k :: pools t
  | _ :: t => pools t

/-- A schedule for the witnesses: both loops are started, the client's bytes
go up in two chunks and the destination's bytes come down in one, the
destination ends its stream, and the handler closes both transports, waits for
the other loop and returns. -/
def sampleSched : List Choice :=
  [.main, .main, .read .up 2 false, .read .down 10 false, .write .up 2 false,
   .write .down 10 false, .read .up 9 false, .write .up 9 false, .read .down 1 true,
   .signal .down, .main, .main, .main, .read .up 1 false, .signal .up, .main, .main]

/-- The example session of the specification followed by the payload
`[1, 2, 3]`. -/
def sampleInput : List Byte :=
  greetingMsg 0x05 0x01 [0x00] ++
    authMsg 0x01 0x05 defaultCfg.username 0x05 defaultCfg.password ++
    requestMsg 0x05 0x01 0x00 0x01 [127, 0, 0, 1] 0x1F 0x90 ++ [1, 2, 3]

/-! ## Observations on a relay trace -/

/-- The bytes the `Read` calls of a direction returned, in order. -/
def received (d : Dir) : List RelayEvent → List Byte
  | [] => []
  | .read d' bs _ :: t => if d' = d then bs ++ received d t else received d t
  | _ :: t => received d t

/-- What a trace tells about one copy loop: `hand` is the part of the chunk of
the last `Read` that no `Write` has taken, `readErr` whether a `Read` has
reported an error, `writeErr` whether a `Write` has reported an error, and
`short` whether a `Write` has taken fewer bytes than it was given. -/
structure CopyObs where
  hand : List Byte
  readErr : Bool
  writeErr : Bool
  short : Bool
  deriving DecidableEq, Repr

/-- The observation after one more event. A `Read` of the direction puts its
bytes in hand; a `Write` of the direction takes its bytes out of the hand. -/
def obsStep (d : Dir) (o : CopyObs) : RelayEvent → CopyObs
  | .read d' bs err =>
    if d' = d then { o with hand := bs, readErr := o.readErr || err } else o
  | .write d' bs err =>
    if d' = d then
      { hand := o.hand.drop bs.length, readErr := o.readErr,
        writeErr := o.writeErr || err,
        short := o.short || decide (bs.length < o.hand.length) }
    else o
  | _ => o

/-- The observation of a direction on a whole trace. -/
def copyObs (d : Dir) (tr : List RelayEvent) : CopyObs :=
  tr.foldl (obsStep d) { hand := [], readErr := false, writeErr := false, short := false }

/-- A copy has ended for a reason: a `Read` or a `Write` reported an error or a
`Write` was short; and bytes are left in hand only by a `Write` that reported an
error or was short. -/
def Stopped (o : CopyObs) : Prop :=
  (o.readErr = true ∨ o.writeErr = true ∨ o.short = true) ∧
    (o.hand ≠ [] → o.writeErr = true ∨ o.short = true)

/-- How the state of a copy goroutine agrees with the trace. Before a `Read` no
byte is in hand and nothing has failed; before a `Write` the chunk of the last
`Read` is in hand, it is not empty, and no `Write` has failed; out of the loop
the copy has ended for a reason. -/
def LoopObs (l : Loop) (o : CopyObs) : Prop :=
  match l with
  | .idle => o = { hand := [], readErr := false, writeErr := false, short := false }
  | .reading => o = { hand := [], readErr := false, writeErr := false, short := false }
  | .writing chunk e =>
    o = { hand := chunk, readErr := e, writeErr := false, short := false } ∧ chunk ≠ []
  | .signalling => Stopped o
  | .finished => Stopped o

/-- The copy invariant of direction `d` whose source delivers `stream`: the
stream is what the loop has written, then what it has in hand, then what it has
not read; the reads returned the stream in order; a loop that has not been
started has read nothing; and the state of the loop agrees with the trace. -/
def Copied (d : Dir) (stream : List Byte) (s : Relay) : Prop :=
  stream = delivered d s.trace ++ (copyObs d s.trace).hand ++ s.source d ∧
  stream = received d s.trace ++ s.source d ∧
  (s.loop d = .idle → s.source d = stream) ∧
  LoopObs (s.loop d) (copyObs d s.trace)

/-- The event of the handler closing the transport a direction writes to. -/
def closeSink : Dir → RelayEvent
  | .up => .closeDst
  | .down => .closeClient

/-- The event of the handler closing the transport a direction reads from. -/
def closeSource : Dir → RelayEvent
  | .up => .closeClient
  | .down => .closeDst

/-- After the handler has closed a transport no byte is read from it and no
byte is written to it: every later `Read` and `Write` on it reports an error
without data. -/
def ClosedInv (s : Relay) : Prop :=
  (RelayEvent.closeClient ∈ s.trace → s.clientClosed = true) ∧
  (RelayEvent.closeDst ∈ s.trace → s.dstClosed = true) ∧
  (∀ d bs e pre post, s.trace = pre ++ RelayEvent.write d bs e :: post →
    closeSink d ∈ pre → bs = [] ∧ e = true) ∧
  (∀ d bs e pre post, s.trace = pre ++ RelayEvent.read d bs e :: post →
    closeSource d ∈ pre → bs = [] ∧ e = true)

/-- A schedule in which one copy loop runs alone and nothing fails: for each
`n` of the list a `Read` that returns up to `n` bytes, then a `Write` that takes
them all. -/
def pump (d : Dir) : List Nat → List Choice
  | [] => []
  | n :: ns => .read d n false :: .write d n false :: pump d ns

/-- The byte stream a direction copies: the client's for `up`, the
destination's for `down`. -/
def streamOf : Dir → List Byte → List Byte → List Byte
  | .up, fromClient, _ => fromClient
  | .down, _, fromDst => fromDst

/-! ## Basic lemmas -/

theorem slice_store (bs : List Byte) (buf : Nat → Byte) (n : Nat) (hn : bs.length = n) :
    slice (store bs buf) n = bs := by
  subst hn
  apply List.ext_getElem
  · simp [slice]
  · intro i h1 h2
    simp [slice, store, List.getD_eq_getElem?_getD, List.getElem?_eq_getElem h2]

theorem cap_ok (cfg : Config) (n : Nat) (hcap : 255 ≤ cfg.bufsize) (hn : n ≤ 255) :
    ¬ cfg.bufsize.toNat < n := by
  omega

theorem readFull_ok (cfg : Config) (s : St) (n : Nat) (bs rest : List Byte)
    (hcap : 255 ≤ cfg.bufsize) (hn : n ≤ 255) (hlen : bs.length = n)
    (hin : s.input = bs ++ rest) :
    readFull cfg s n =
      .ok { input := rest, buf := store bs s.buf, trace := s.trace ++ [.read bs],
            defers := s.defers } := by
  subst hlen
  unfold readFull
  rw [if_neg (cap_ok cfg _ hcap hn), if_pos (by simp [hin])]
  simp [hin]

theorem readFull_err (cfg : Config) (s : St) (n : Nat)
    (hcap : 255 ≤ cfg.bufsize) (hn : n ≤ 255) (hin : s.input.length < n) :
    readFull cfg s n =
      .err { input := [], buf := store s.input s.buf, trace := s.trace ++ [.read s.input],
             defers := s.defers } := by
  unfold readFull
  rw [if_neg (cap_ok cfg _ hcap hn), if_neg (by omega)]

theorem byte_le (b : Byte) : b.val ≤ 255 := by
  have := b.isLt
  omega

theorem greeting_complete (cfg : Config) (env : Env) (s : St) (v n : Byte)
    (methods rest : List Byte) (hcap : 255 ≤ cfg.bufsize)
    (hlen : methods.length = n.val) (hin : s.input = [v, n] ++ methods ++ rest) :
    greeting cfg env s =
      auth cfg env
        { input := rest, buf := store methods (store [v, n] s.buf),
          trace := s.trace ++ [.read [v, n], .read methods, .write [0x05, 0x02]],
          defers := s.defers } := by
  unfold greeting
  rw [readFull_ok cfg s 2 [v, n] (methods ++ rest) hcap (by omega) rfl (by simpa using hin)]
  dsimp only
  have hb : store [v, n] s.buf 1 = n := rfl
  rw [hb, readFull_ok cfg _ n.val methods rest hcap (byte_le n) hlen rfl]
  simp [connWrite, St.log]

theorem auth_complete (cfg : Config) (env : Env) (s : St) (av ul pl : Byte)
    (user pass rest : List Byte) (hcap : 255 ≤ cfg.bufsize)
    (hu : user.length = ul.val) (hp : pass.length = pl.val)
    (hin : s.input = [av, ul] ++ user ++ [pl] ++ pass ++ rest) :
    auth cfg env s =
      if user ≠ cfg.username ∨ pass ≠ cfg.password then
        { outcome := .returned,
          trace := s.trace ++ [.read [av, ul], .read user, .read [pl], .read pass,
                               .write [0x01, 0x01], .close] ++ s.defers,
          rest := rest, pending := [] }
      else
        request cfg env
          { input := rest,
            buf := store pass (store [pl] (store user (store [av, ul] s.buf))),
            trace := s.trace ++ [.read [av, ul], .read user, .read [pl], .read pass,
                                 .write [0x01, 0x00]],
            defers := s.defers } := by
  unfold auth
  rw [readFull_ok cfg s 2 [av, ul] (user ++ [pl] ++ pass ++ rest) hcap (by omega) rfl
    (by simpa using hin)]
  dsimp only
  have hb : store [av, ul] s.buf 1 = ul := rfl
  rw [hb, readFull_ok cfg _ ul.val user ([pl] ++ pass ++ rest) hcap (byte_le ul) hu (by simp)]
  dsimp only
  rw [readFull_ok cfg _ 1 [pl] (pass ++ rest) hcap (by omega) rfl (by simp)]
  dsimp only
  have hb2 : store [pl] (store user (store [av, ul] s.buf)) 0 = pl := rfl
  rw [hb2, readFull_ok cfg _ pl.val pass rest hcap (byte_le pl) hp rfl]
  dsimp only
  rw [slice_store user _ _ hu, slice_store pass _ _ hp]
  by_cases h : user ≠ cfg.username ∨ pass ≠ cfg.password
  · rw [if_pos h, if_pos h]
    simp [doReturn, connClose, connWrite, St.log]
  · rw [if_neg h, if_neg h]
    simp [connWrite, St.log]

theorem connect_complete (cfg : Config) (env : Env) (s : St) (target : List Byte)
    (h l : Byte) (rest : List Byte) (hcap : 255 ≤ cfg.bufsize)
    (hin : s.input = [h, l] ++ rest) :
    connect cfg env s target =
      if env.dial (joinHostPort target (decimal (portOf h l))) then
        { outcome := .established,
          trace := s.trace ++ [.read [h, l],
            .dial (joinHostPort target (decimal (portOf h l))) true,
            .write replySuccess, .clearDeadline, .poolGet 2],
          rest := rest, pending := .poolPut 2 :: s.defers }
      else
        { outcome := .returned,
          trace := s.trace ++ [.read [h, l],
            .dial (joinHostPort target (decimal (portOf h l))) false,
            .write replyFailure, .close] ++ s.defers,
          rest := rest, pending := [] } := by
  unfold connect
  rw [readFull_ok cfg s 2 [h, l] rest hcap (by omega) rfl hin]
  dsimp only
  have hb0 : store [h, l] s.buf 0 = h := rfl
  have hb1 : store [h, l] s.buf 1 = l := rfl
  rw [hb0, hb1]
  by_cases hd : env.dial (joinHostPort target (decimal (portOf h l))) = true
  · rw [if_pos hd, if_pos hd]
    simp [doEstablished, connWrite, St.log, St.defer]
  · rw [if_neg hd, if_neg hd]
    simp [doReturn, connClose, connWrite, St.log]

theorem connect_short (cfg : Config) (env : Env) (s : St) (target : List Byte)
    (hcap : 255 ≤ cfg.bufsize) (hin : s.input.length < 2) :
    connect cfg env s target =
      { outcome := .returned, trace := s.trace ++ [.read s.input, .close] ++ s.defers,
        rest := [], pending := [] } := by
  unfold connect
  rw [readFull_err cfg s 2 hcap (by omega) hin]
  simp [doReturn, connClose, St.log]

theorem request_short (cfg : Config) (env : Env) (s : St)
    (hcap : 255 ≤ cfg.bufsize) (hin : s.input.length < 4) :
    request cfg env s =
      { outcome := .returned, trace := s.trace ++ [.read s.input, .close] ++ s.defers,
        rest := [], pending := [] } := by
  unfold request
  rw [readFull_err cfg s 4 hcap (by omega) hin]
  simp [doReturn, connClose, St.log]

theorem request_not_connect (cfg : Config) (env : Env) (s : St) (v cmd rsv atyp : Byte)
    (rest : List Byte) (hcap : 255 ≤ cfg.bufsize) (hcmd : cmd ≠ 0x01)
    (hin : s.input = [v, cmd, rsv, atyp] ++ rest) :
    request cfg env s =
      { outcome := .returned,
        trace := s.trace ++ [.read [v, cmd, rsv, atyp], .close] ++ s.defers,
        rest := rest, pending := [] } := by
  unfold request
  rw [readFull_ok cfg s 4 [v, cmd, rsv, atyp] rest hcap (by omega) rfl hin]
  dsimp only
  have hb1 : store [v, cmd, rsv, atyp] s.buf 1 = cmd := rfl
  rw [hb1, if_pos hcmd]
  simp [doReturn, connClose, St.log]

theorem request_connect (cfg : Config) (env : Env) (s : St) (v rsv atyp : Byte)
    (field rest : List Byte) (hcap : 255 ≤ cfg.bufsize)
    (hwf : addrComplete atyp field = true)
    (hin : s.input = [v, 0x01, rsv, atyp] ++ field ++ rest) :
    ∃ b, request cfg env s =
      connect cfg env
        { input := rest, buf := b,
          trace := s.trace ++ [.read [v, 0x01, rsv, atyp]] ++ addrReads atyp field,
          defers := s.defers }
        (targetOf atyp field) := by
  unfold request
  rw [readFull_ok cfg s 4 [v, 0x01, rsv, atyp] (field ++ rest) hcap (by omega) rfl
    (by simpa using hin)]
  dsimp only
  have hb1 : store [v, 0x01, rsv, atyp] s.buf 1 = 0x01 := rfl
  have hb3 : store [v, 0x01, rsv, atyp] s.buf 3 = atyp := rfl
  rw [hb1, hb3, if_neg (by simp)]
  unfold addrComplete at hwf
  unfold targetOf addrReads
  by_cases h1 : atyp = 0x01
  · rw [if_pos h1] at hwf
    simp only [if_pos h1]
    rw [readFull_ok cfg _ 4 field rest hcap (by omega) (by simpa using hwf) rfl]
    dsimp only
    rw [slice_store field _ _ (by simpa using hwf)]
    exact ⟨store field (store [v, 0x01, rsv, atyp] s.buf), by simp⟩
  · rw [if_neg h1] at hwf
    simp only [if_neg h1]
    by_cases h3 : atyp = 0x03
    · rw [if_pos h3] at hwf
      simp only [if_pos h3]
      cases field with
      | nil => simp at hwf
      | cons l name =>
        have hl : name.length = l.val := by simpa using hwf
        rw [readFull_ok cfg _ 1 [l] (name ++ rest) hcap (by omega) rfl (by simp)]
        dsimp only
        have hb0 : store [l] (store [v, 0x01, rsv, atyp] s.buf) 0 = l := rfl
        rw [hb0, readFull_ok cfg _ l.val name rest hcap (byte_le l) hl rfl]
        dsimp only
        rw [slice_store name _ _ hl]
        exact ⟨store name (store [l] (store [v, 0x01, rsv, atyp] s.buf)), by simp⟩
    · rw [if_neg h3] at hwf
      simp only [if_neg h3]
      by_cases h4 : atyp = 0x04
      · rw [if_pos h4] at hwf
        simp only [if_pos h4]
        rw [readFull_ok cfg _ 16 field rest hcap (by omega) (by simpa using hwf) rfl]
        dsimp only
        rw [slice_store field _ _ (by simpa using hwf)]
        exact ⟨store field (store [v, 0x01, rsv, atyp] s.buf), by simp⟩
      · rw [if_neg h4] at hwf
        simp only [if_neg h4]
        have hf : field = [] := by simpa using hwf
        subst hf
        exact ⟨store [v, 0x01, rsv, atyp] s.buf, by simp⟩

theorem handshake_start (cfg : Config) (env : Env) (input : List Byte)
    (hcap : 255 ≤ cfg.bufsize) :
    handshake cfg env input =
      greeting cfg env
        { input := input, buf := env.stale,
          trace := [.counterAdd 1, .poolGet 1, .setDeadline],
          defers := [.poolPut 1, .counterAdd (-1)] } := by
  unfold handshake
  dsimp only
  rw [if_neg (by omega)]
  rfl


/-! ## Observations distribute over traces -/

theorem written_append (t u : List Event) : written (t ++ u) = written t ++ written u := by
  induction t with
  | nil => rfl
  | cons e t ih => cases e <;> simp [written, ih]

theorem consumed_append (t u : List Event) :
    consumed (t ++ u) = consumed t ++ consumed u := by
  induction t with
  | nil => rfl
  | cons e t ih => cases e <;> simp [consumed, ih]

theorem dials_append (t u : List Event) : dials (t ++ u) = dials t ++ dials u := by
  induction t with
  | nil => rfl
  | cons e t ih => cases e <;> simp [dials, ih]

theorem written_addrReads (atyp : Byte) (field : List Byte) :
    written (addrReads atyp field) = [] := by
  unfold addrReads
  split_ifs <;> simp [written]

theorem dials_addrReads (atyp : Byte) (field : List Byte) :
    dials (addrReads atyp field) = [] := by
  unfold addrReads
  split_ifs <;> simp [dials]

theorem mem_addrReads (atyp : Byte) (field : List Byte) (e : Event)
    (h : e ∈ addrReads atyp field) : ∃ bs, e = .read bs := by
  unfold addrReads at h
  split_ifs at h <;> simp at h
  · exact ⟨_, h⟩
  · rcases h with h | h
    · exact ⟨_, h⟩
    · exact ⟨_, h⟩
  · exact ⟨_, h⟩

/-! ## Runs of complete messages -/

theorem run_greeting (cfg : Config) (env : Env) (v n : Byte) (methods rest : List Byte)
    (hcap : 255 ≤ cfg.bufsize) (hm : methods.length = n.val) :
    ∃ b, handshake cfg env (greetingMsg v n methods ++ rest) =
      auth cfg env
        { input := rest, buf := b,
          trace := [.counterAdd 1, .poolGet 1, .setDeadline, .read [v, n], .read methods,
                    .write [0x05, 0x02]],
          defers := [.poolPut 1, .counterAdd (-1)] } := by
  rw [handshake_start cfg env _ hcap,
    greeting_complete cfg env _ v n methods rest hcap hm (by simp [greetingMsg])]
  exact ⟨_, rfl⟩

theorem run_auth_ok (cfg : Config) (env : Env) (v n : Byte) (methods : List Byte)
    (av ul pl : Byte) (rest : List Byte)
    (hcap : 255 ≤ cfg.bufsize) (hm : methods.length = n.val)
    (hu : cfg.username.length = ul.val) (hp : cfg.password.length = pl.val) :
    ∃ b, handshake cfg env
        (greetingMsg v n methods ++ authMsg av ul cfg.username pl cfg.password ++ rest) =
      request cfg env
        { input := rest, buf := b,
          trace := [.counterAdd 1, .poolGet 1, .setDeadline, .read [v, n], .read methods,
                    .write [0x05, 0x02], .read [av, ul], .read cfg.username, .read [pl],
                    .read cfg.password, .write [0x01, 0x00]],
          defers := [.poolPut 1, .counterAdd (-1)] } := by
  obtain ⟨b, hb⟩ := run_greeting cfg env v n methods
    (authMsg av ul cfg.username pl cfg.password ++ rest) hcap hm
  rw [List.append_assoc, hb,
    auth_complete cfg env _ av ul pl cfg.username cfg.password rest hcap hu hp
      (by simp [authMsg]),
    if_neg (by simp)]
  exact ⟨_, rfl⟩

theorem run_request (cfg : Config) (env : Env) (v n : Byte) (methods : List Byte)
    (av ul pl rv rsv atyp : Byte) (field rest : List Byte)
    (hcap : 255 ≤ cfg.bufsize) (hm : methods.length = n.val)
    (hu : cfg.username.length = ul.val) (hp : cfg.password.length = pl.val)
    (hwf : addrComplete atyp field = true) :
    ∃ b, handshake cfg env
        (greetingMsg v n methods ++ authMsg av ul cfg.username pl cfg.password ++
          ([rv, 0x01, rsv, atyp] ++ field ++ rest)) =
      connect cfg env
        { input := rest, buf := b,
          trace := [.counterAdd 1, .poolGet 1, .setDeadline, .read [v, n], .read methods,
                    .write [0x05, 0x02], .read [av, ul], .read cfg.username, .read [pl],
                    .read cfg.password, .write [0x01, 0x00], .read [rv, 0x01, rsv, atyp]] ++
                    addrReads atyp field,
          defers := [.poolPut 1, .counterAdd (-1)] }
        (targetOf atyp field) := by
  obtain ⟨b, hb⟩ := run_auth_ok cfg env v n methods av ul pl
    ([rv, 0x01, rsv, atyp] ++ field ++ rest) hcap hm hu hp
  obtain ⟨b2, hb2⟩ := request_connect cfg env
    { input := [rv, 0x01, rsv, atyp] ++ field ++ rest, buf := b,
      trace := [.counterAdd 1, .poolGet 1, .setDeadline, .read [v, n], .read methods,
                .write [0x05, 0x02], .read [av, ul], .read cfg.username, .read [pl],
                .read cfg.password, .write [0x01, 0x00]],
      defers := [.poolPut 1, .counterAdd (-1)] } rv rsv atyp field rest hcap hwf rfl
  rw [hb, hb2]
  exact ⟨b2, by simp⟩

/-! ## Every phase only appends to the trace -/

theorem readFull_ext (cfg : Config) (s s' : St) (n : Nat) (t : List Event)
    (ht : ∃ tl, s.trace = t ++ tl)
    (h : readFull cfg s n = .ok s' ∨ readFull cfg s n = .err s' ∨ readFull cfg s n = .oob s') :
    ∃ tl, s'.trace = t ++ tl := by
  obtain ⟨tl, htl⟩ := ht
  unfold readFull at h
  split_ifs at h
  · rcases h with h | h | h <;> cases h
    exact ⟨tl, htl⟩
  · rcases h with h | h | h <;> cases h
    exact ⟨tl ++ [.read (s.input.take n)], by simp [htl]⟩
  · rcases h with h | h | h <;> cases h
    exact ⟨tl ++ [.read s.input], by simp [htl]⟩

theorem return_ext (s : St) (t : List Event) (ht : ∃ tl, s.trace = t ++ tl) :
    ∃ tl, (doReturn (connClose s)).trace = t ++ tl := by
  obtain ⟨tl, htl⟩ := ht
  exact ⟨tl ++ [.close] ++ s.defers, by simp [doReturn, connClose, St.log, htl]⟩

theorem panic_ext (s : St) (t : List Event) (ht : ∃ tl, s.trace = t ++ tl) :
    ∃ tl, (doPanic s).trace = t ++ tl := by
  obtain ⟨tl, htl⟩ := ht
  exact ⟨tl ++ s.defers, by simp [doPanic, htl]⟩

theorem connect_ext (cfg : Config) (env : Env) (s : St) (target : List Byte)
    (t : List Event) (ht : ∃ tl, s.trace = t ++ tl) :
    ∃ tl, (connect cfg env s target).trace = t ++ tl := by
  unfold connect
  cases hr : readFull cfg s 2 with
  | oob s1 => exact panic_ext s1 t (readFull_ext cfg s s1 2 t ht (Or.inr (Or.inr hr)))
  | err s1 => exact return_ext s1 t (readFull_ext cfg s s1 2 t ht (Or.inr (Or.inl hr)))
  | ok s1 =>
    obtain ⟨tl, htl⟩ := readFull_ext cfg s s1 2 t ht (Or.inl hr)
    dsimp only
    split_ifs
    · exact ⟨tl ++ [.dial (joinHostPort target (decimal (portOf (s1.buf 0) (s1.buf 1)))) true,
          .write replySuccess, .clearDeadline, .poolGet 2],
        by simp [doEstablished, connWrite, St.log, St.defer, htl]⟩
    · exact ⟨tl ++ [.dial (joinHostPort target (decimal (portOf (s1.buf 0) (s1.buf 1)))) false,
          .write replyFailure, .close] ++ s1.defers,
        by simp [doReturn, connClose, connWrite, St.log, htl]⟩

theorem request_ext (cfg : Config) (env : Env) (s : St)
    (t : List Event) (ht : ∃ tl, s.trace = t ++ tl) :
    ∃ tl, (request cfg env s).trace = t ++ tl := by
  unfold request
  cases hr : readFull cfg s 4 with
  | oob s1 => exact panic_ext s1 t (readFull_ext cfg s s1 4 t ht (Or.inr (Or.inr hr)))
  | err s1 => exact return_ext s1 t (readFull_ext cfg s s1 4 t ht (Or.inr (Or.inl hr)))
  | ok s1 =>
    have h1 := readFull_ext cfg s s1 4 t ht (Or.inl hr)
    dsimp only
    split_ifs
    · exact return_ext s1 t h1
    · cases hr2 : readFull cfg s1 4 with
      | oob s2 => exact panic_ext s2 t (readFull_ext cfg s1 s2 4 t h1 (Or.inr (Or.inr hr2)))
      | err s2 => exact return_ext s2 t (readFull_ext cfg s1 s2 4 t h1 (Or.inr (Or.inl hr2)))
      | ok s2 =>
        exact connect_ext cfg env s2 _ t (readFull_ext cfg s1 s2 4 t h1 (Or.inl hr2))
    · cases hr2 : readFull cfg s1 1 with
      | oob s2 => exact panic_ext s2 t (readFull_ext cfg s1 s2 1 t h1 (Or.inr (Or.inr hr2)))
      | err s2 => exact return_ext s2 t (readFull_ext cfg s1 s2 1 t h1 (Or.inr (Or.inl hr2)))
      | ok s2 =>
        have h2 := readFull_ext cfg s1 s2 1 t h1 (Or.inl hr2)
        dsimp only
        cases hr3 : readFull cfg s2 (s2.buf 0).val with
        | oob s3 => exact panic_ext s3 t (readFull_ext cfg s2 s3 _ t h2 (Or.inr (Or.inr hr3)))
        | err s3 => exact return_ext s3 t (readFull_ext cfg s2 s3 _ t h2 (Or.inr (Or.inl hr3)))
        | ok s3 =>
          exact connect_ext cfg env s3 _ t (readFull_ext cfg s2 s3 _ t h2 (Or.inl hr3))
    · cases hr2 : readFull cfg s1 16 with
      | oob s2 => exact panic_ext s2 t (readFull_ext cfg s1 s2 16 t h1 (Or.inr (Or.inr hr2)))
      | err s2 => exact return_ext s2 t (readFull_ext cfg s1 s2 16 t h1 (Or.inr (Or.inl hr2)))
      | ok s2 =>
        exact connect_ext cfg env s2 _ t (readFull_ext cfg s1 s2 16 t h1 (Or.inl hr2))
    · exact connect_ext cfg env s1 _ t h1

theorem auth_ext (cfg : Config) (env : Env) (s : St)
    (t : List Event) (ht : ∃ tl, s.trace = t ++ tl) :
    ∃ tl, (auth cfg env s).trace = t ++ tl := by
  unfold auth
  cases hr : readFull cfg s 2 with
  | oob s1 => exact panic_ext s1 t (readFull_ext cfg s s1 2 t ht (Or.inr (Or.inr hr)))
  | err s1 => exact return_ext s1 t (readFull_ext cfg s s1 2 t ht (Or.inr (Or.inl hr)))
  | ok s1 =>
    have h1 := readFull_ext cfg s s1 2 t ht (Or.inl hr)
    dsimp only
    cases hr2 : readFull cfg s1 (s1.buf 1).val with
    | oob s2 => exact panic_ext s2 t (readFull_ext cfg s1 s2 _ t h1 (Or.inr (Or.inr hr2)))
    | err s2 => exact return_ext s2 t (readFull_ext cfg s1 s2 _ t h1 (Or.inr (Or.inl hr2)))
    | ok s2 =>
      have h2 := readFull_ext cfg s1 s2 _ t h1 (Or.inl hr2)
      dsimp only
      cases hr3 : readFull cfg s2 1 with
      | oob s3 => exact panic_ext s3 t (readFull_ext cfg s2 s3 _ t h2 (Or.inr (Or.inr hr3)))
      | err s3 => exact return_ext s3 t (readFull_ext cfg s2 s3 _ t h2 (Or.inr (Or.inl hr3)))
      | ok s3 =>
        have h3 := readFull_ext cfg s2 s3 _ t h2 (Or.inl hr3)
        dsimp only
        cases hr4 : readFull cfg s3 (s3.buf 0).val with
        | oob s4 => exact panic_ext s4 t (readFull_ext cfg s3 s4 _ t h3 (Or.inr (Or.inr hr4)))
        | err s4 => exact return_ext s4 t (readFull_ext cfg s3 s4 _ t h3 (Or.inr (Or.inl hr4)))
        | ok s4 =>
          obtain ⟨tl, htl⟩ := readFull_ext cfg s3 s4 _ t h3 (Or.inl hr4)
          dsimp only
          split_ifs
          · exact return_ext _ t ⟨tl ++ [.write [0x01, 0x01]], by simp [connWrite, St.log, htl]⟩
          · exact request_ext cfg env _ t
              ⟨tl ++ [.write [0x01, 0x00]], by simp [connWrite, St.log, htl]⟩

/-- Under a sufficient buffer the request phase starts by reading up to four
bytes of what the client has left. -/
theorem request_reads_first (cfg : Config) (env : Env) (s : St)
    (hcap : 255 ≤ cfg.bufsize) :
    ∃ tl, (request cfg env s).trace = s.trace ++ [.read (s.input.take 4)] ++ tl := by
  by_cases hlen : s.input.length < 4
  · rw [request_short cfg env s hcap hlen, List.take_of_length_le (by omega)]
    exact ⟨[.close] ++ s.defers, by simp⟩
  · have hok := readFull_ok cfg s 4 (s.input.take 4) (s.input.drop 4) hcap (by omega)
      (by simp; omega) (by simp)
    have key : ∀ s1, readFull cfg s 4 = .ok s1 →
        ∃ tl, (request cfg env s).trace = s1.trace ++ tl := by
      intro s1 h1
      unfold request
      rw [h1]
      dsimp only
      split_ifs
      · exact return_ext s1 _ ⟨[], by simp⟩
      · cases hr2 : readFull cfg s1 4 with
        | oob s2 => exact panic_ext s2 _ (readFull_ext cfg s1 s2 4 _ ⟨[], by simp⟩ (Or.inr (Or.inr hr2)))
        | err s2 => exact return_ext s2 _ (readFull_ext cfg s1 s2 4 _ ⟨[], by simp⟩ (Or.inr (Or.inl hr2)))
        | ok s2 =>
          exact connect_ext cfg env s2 _ _
            (readFull_ext cfg s1 s2 4 _ ⟨[], by simp⟩ (Or.inl hr2))
      · cases hr2 : readFull cfg s1 1 with
        | oob s2 => exact panic_ext s2 _ (readFull_ext cfg s1 s2 1 _ ⟨[], by simp⟩ (Or.inr (Or.inr hr2)))
        | err s2 => exact return_ext s2 _ (readFull_ext cfg s1 s2 1 _ ⟨[], by simp⟩ (Or.inr (Or.inl hr2)))
        | ok s2 =>
          have h2 := readFull_ext cfg s1 s2 1 s1.trace ⟨[], by simp⟩ (Or.inl hr2)
          dsimp only
          cases hr3 : readFull cfg s2 (s2.buf 0).val with
          | oob s3 => exact panic_ext s3 _ (readFull_ext cfg s2 s3 _ _ h2 (Or.inr (Or.inr hr3)))
          | err s3 => exact return_ext s3 _ (readFull_ext cfg s2 s3 _ _ h2 (Or.inr (Or.inl hr3)))
          | ok s3 =>
            exact connect_ext cfg env s3 _ _ (readFull_ext cfg s2 s3 _ _ h2 (Or.inl hr3))
      · cases hr2 : readFull cfg s1 16 with
        | oob s2 => exact panic_ext s2 _ (readFull_ext cfg s1 s2 16 _ ⟨[], by simp⟩ (Or.inr (Or.inr hr2)))
        | err s2 => exact return_ext s2 _ (readFull_ext cfg s1 s2 16 _ ⟨[], by simp⟩ (Or.inr (Or.inl hr2)))
        | ok s2 =>
          exact connect_ext cfg env s2 _ _
            (readFull_ext cfg s1 s2 16 _ ⟨[], by simp⟩ (Or.inl hr2))
      · exact connect_ext cfg env s1 _ _ ⟨[], by simp⟩
    obtain ⟨tl, htl⟩ := key _ hok
    exact ⟨tl, by simpa using htl⟩

/-! ## Address formatting -/

theorem ascii_append (s t : String) : ascii (s ++ t) = ascii s ++ ascii t := by
  simp [ascii, String.toList]

set_option maxRecDepth 100000 in
theorem appendDecimal_eq (x : Byte) : appendDecimal x.val = ascii (toString x.val) := by
  revert x
  decide

set_option maxRecDepth 100000 in
theorem colon_not_mem_appendDecimal (x : Byte) : (58 : Byte) ∉ appendDecimal x.val := by
  revert x
  decide

theorem ipString_quad (a b c d : Byte) : ipString [a, b, c, d] = dottedQuad a b c d := by
  simp [ipString, to4, string4, dottedQuad, ascii_append, appendDecimal_eq]

theorem colon_not_mem_ipString_quad (a b c d : Byte) : (58 : Byte) ∉ ipString [a, b, c, d] := by
  have ha := colon_not_mem_appendDecimal a
  have hb := colon_not_mem_appendDecimal b
  have hc := colon_not_mem_appendDecimal c
  have hd := colon_not_mem_appendDecimal d
  have hdot : (58 : Byte) ∉ ascii "." := by decide
  simp [ipString, to4, string4, ha, hb, hc, hd, hdot]

/-- A complete, authenticated CONNECT request runs up to the dial. -/
theorem run_complete (cfg : Config) (env : Env) (v n : Byte) (methods : List Byte)
    (av ul pl rv rsv atyp ph plo : Byte) (field payload : List Byte)
    (hcap : 255 ≤ cfg.bufsize) (hm : methods.length = n.val)
    (hu : cfg.username.length = ul.val) (hp : cfg.password.length = pl.val)
    (hwf : addrComplete atyp field = true) :
    handshake cfg env
        (greetingMsg v n methods ++ authMsg av ul cfg.username pl cfg.password ++
          requestMsg rv 0x01 rsv atyp field ph plo ++ payload) =
      if env.dial (joinHostPort (targetOf atyp field) (decimal (portOf ph plo))) then
        { outcome := .established,
          trace := [.counterAdd 1, .poolGet 1, .setDeadline, .read [v, n], .read methods,
                    .write [0x05, 0x02], .read [av, ul], .read cfg.username, .read [pl],
                    .read cfg.password, .write [0x01, 0x00], .read [rv, 0x01, rsv, atyp]] ++
                    addrReads atyp field ++
                   [.read [ph, plo],
                    .dial (joinHostPort (targetOf atyp field) (decimal (portOf ph plo))) true,
                    .write replySuccess, .clearDeadline, .poolGet 2],
          rest := payload,
          pending := [.poolPut 2, .poolPut 1, .counterAdd (-1)] }
      else
        { outcome := .returned,
          trace := [.counterAdd 1, .poolGet 1, .setDeadline, .read [v, n], .read methods,
                    .write [0x05, 0x02], .read [av, ul], .read cfg.username, .read [pl],
                    .read cfg.password, .write [0x01, 0x00], .read [rv, 0x01, rsv, atyp]] ++
                    addrReads atyp field ++
                   [.read [ph, plo],
                    .dial (joinHostPort (targetOf atyp field) (decimal (portOf ph plo))) false,
                    .write replyFailure, .close, .poolPut 1, .counterAdd (-1)],
          rest := payload, pending := [] } := by
  obtain ⟨b, hb⟩ := run_request cfg env v n methods av ul pl rv rsv atyp field
    ([ph, plo] ++ payload) hcap hm hu hp hwf
  have hin : greetingMsg v n methods ++ authMsg av ul cfg.username pl cfg.password ++
      requestMsg rv 0x01 rsv atyp field ph plo ++ payload =
      greetingMsg v n methods ++ authMsg av ul cfg.username pl cfg.password ++
        ([rv, 0x01, rsv, atyp] ++ field ++ ([ph, plo] ++ payload)) := by
    simp [requestMsg]
  rw [hin, hb, connect_complete cfg env _ _ ph plo payload hcap rfl]
  simp

/-! ## Short reads -/

theorem written_reads (rd : List Event) (h : ∀ e ∈ rd, ∃ bs, e = Event.read bs) :
    written rd = [] := by
  induction rd with
  | nil => rfl
  | cons e rd ih =>
    obtain ⟨bs, hbs⟩ := h e (by simp)
    subst hbs
    simpa [written] using ih (fun e he => h e (by simp [he]))

theorem dials_reads (rd : List Event) (h : ∀ e ∈ rd, ∃ bs, e = Event.read bs) :
    dials rd = [] := by
  induction rd with
  | nil => rfl
  | cons e rd ih =>
    obtain ⟨bs, hbs⟩ := h e (by simp)
    subst hbs
    simpa [dials] using ih (fun e he => h e (by simp [he]))

theorem aborted_more (t df rd0 : List Event) (r : Result)
    (h0 : ∀ e ∈ rd0, ∃ bs, e = Event.read bs) (h : Aborted (t ++ rd0) df r) :
    Aborted t df r := by
  obtain ⟨rd, hrd, hr⟩ := h
  refine ⟨rd0 ++ rd, ?_, by simp [hr]⟩
  intro e he
  rcases List.mem_append.mp he with he | he
  · exact h0 e he
  · exact hrd e he

theorem aborted_obs (t df : List Event) (r : Result) (h : Aborted t df r) :
    written r.trace = written t ++ written df ∧ dials r.trace = dials t ++ dials df ∧
      r.outcome = .returned ∧ Event.close ∈ r.trace ∧ r.rest = [] := by
  obtain ⟨rd, hrd, hr⟩ := h
  subst hr
  have e1 : (t ++ rd ++ Event.close :: df) = t ++ (rd ++ ([Event.close] ++ df)) := by simp
  refine ⟨?_, ?_, rfl, by simp, rfl⟩
  · simp only [e1, written_append, written_reads rd hrd]
    simp [written]
  · simp only [e1, dials_append, dials_reads rd hrd]
    simp [dials]

theorem greeting_short (cfg : Config) (env : Env) (s : St) (hcap : 255 ≤ cfg.bufsize)
    (h : s.input.length < greetingNeed s.input) :
    Aborted s.trace s.defers (greeting cfg env s) := by
  obtain ⟨inp, buf, tr, df⟩ := s
  dsimp only at h ⊢
  by_cases h2 : inp.length < 2
  · unfold greeting
    rw [readFull_err cfg _ 2 hcap (by omega) h2]
    exact ⟨[.read inp], by simp, by simp [doReturn, connClose, St.log]⟩
  · match inp, h, h2 with
    | [], _, h2 => simp at h2
    | [_], _, h2 => simp at h2
    | v :: n :: tl, h, _ =>
      have htl : tl.length < n.val := by
        simp [greetingNeed] at h
        omega
      unfold greeting
      rw [readFull_ok cfg _ 2 [v, n] tl hcap (by omega) rfl rfl]
      dsimp only
      have hb : store [v, n] buf 1 = n := rfl
      rw [hb, readFull_err cfg _ n.val hcap (byte_le n) htl]
      exact ⟨[.read [v, n], .read tl], by simp, by simp [doReturn, connClose, St.log]⟩

theorem auth_short (cfg : Config) (env : Env) (s : St) (hcap : 255 ≤ cfg.bufsize)
    (h : s.input.length < authNeed s.input) :
    Aborted s.trace s.defers (auth cfg env s) := by
  obtain ⟨inp, buf, tr, df⟩ := s
  dsimp only at h ⊢
  by_cases h2 : inp.length < 2
  · unfold auth
    rw [readFull_err cfg _ 2 hcap (by omega) h2]
    exact ⟨[.read inp], by simp, by simp [doReturn, connClose, St.log]⟩
  · match inp, h, h2 with
    | [], _, h2 => simp at h2
    | [_], _, h2 => simp at h2
    | av :: ul :: tl, h, _ =>
      unfold auth
      rw [readFull_ok cfg _ 2 [av, ul] tl hcap (by omega) rfl rfl]
      dsimp only
      have hb : store [av, ul] buf 1 = ul := rfl
      rw [hb]
      by_cases hu : tl.length < ul.val
      · rw [readFull_err cfg _ ul.val hcap (byte_le ul) hu]
        exact ⟨[.read [av, ul], .read tl], by simp, by simp [doReturn, connClose, St.log]⟩
      · have hsplit : tl = tl.take ul.val ++ tl.drop ul.val := (List.take_append_drop _ _).symm
        have hlen : (tl.take ul.val).length = ul.val := by simp; omega
        rw [readFull_ok cfg _ ul.val (tl.take ul.val) (tl.drop ul.val) hcap (byte_le ul)
          hlen hsplit]
        dsimp only
        cases hd : tl.drop ul.val with
        | nil =>
          rw [readFull_err cfg _ 1 hcap (by omega) (by simp)]
          exact ⟨[.read [av, ul], .read (tl.take ul.val), .read []], by simp,
            by simp [doReturn, connClose, St.log]⟩
        | cons pl tl3 =>
          have hlt : tl3.length < pl.val := by
            have h' : (av :: ul :: tl).length < 2 + ul.val + 1 + pl.val := by
              simpa [authNeed, hd] using h
            have hl2 : tl.length = ul.val + (tl3.length + 1) := by
              have := congrArg List.length hsplit
              simp [hd] at this
              omega
            simp at h'
            omega
          rw [readFull_ok cfg _ 1 [pl] tl3 hcap (by omega) rfl rfl]
          dsimp only
          have hb0 : store [pl] (store (tl.take ul.val) (store [av, ul] buf)) 0 = pl := rfl
          rw [hb0, readFull_err cfg _ pl.val hcap (byte_le pl) hlt]
          exact ⟨[.read [av, ul], .read (tl.take ul.val), .read [pl], .read tl3], by simp,
            by simp [doReturn, connClose, St.log]⟩


theorem request_port_short (cfg : Config) (env : Env) (s : St) (rv rsv atyp : Byte)
    (field rest : List Byte) (hcap : 255 ≤ cfg.bufsize)
    (hwf : addrComplete atyp field = true) (hrest : rest.length < 2)
    (hin : s.input = [rv, 0x01, rsv, atyp] ++ field ++ rest) :
    Aborted s.trace s.defers (request cfg env s) := by
  obtain ⟨b, hb⟩ := request_connect cfg env s rv rsv atyp field rest hcap hwf hin
  rw [hb, connect_short cfg env _ _ hcap hrest]
  refine ⟨[.read [rv, 0x01, rsv, atyp]] ++ addrReads atyp field ++ [.read rest], ?_, by simp⟩
  intro e he
  simp only [List.mem_append, List.mem_singleton] at he
  rcases he with (he | he) | he
  · exact ⟨_, he⟩
  · exact mem_addrReads _ _ _ he
  · exact ⟨_, he⟩

theorem request_incomplete (cfg : Config) (env : Env) (s : St) (hcap : 255 ≤ cfg.bufsize)
    (h : s.input.length < requestNeed s.input) :
    Aborted s.trace s.defers (request cfg env s) := by
  by_cases h4 : s.input.length < 4
  · rw [request_short cfg env s hcap h4]
    exact ⟨[.read s.input], by simp, by simp⟩
  · obtain ⟨inp, buf, tr, df⟩ := s
    dsimp only at h h4 ⊢
    match inp, h, h4 with
    | [], _, h4 => simp at h4
    | [_], _, h4 => simp at h4
    | [_, _], _, h4 => simp at h4
    | [_, _, _], _, h4 => simp at h4
    | rv :: cmd :: rsv :: atyp :: tl, h, _ =>
      by_cases hcmd : cmd = 0x01
      · subst hcmd
        have hdr : readFull cfg ⟨rv :: 0x01 :: rsv :: atyp :: tl, buf, tr, df⟩ 4 =
            .ok { input := tl, buf := store [rv, 0x01, rsv, atyp] buf,
                  trace := tr ++ [.read [rv, 0x01, rsv, atyp]], defers := df } :=
          readFull_ok cfg _ 4 [rv, 0x01, rsv, atyp] tl hcap (by omega) rfl rfl
        have hb1 : store [rv, 0x01, rsv, atyp] buf 1 = 0x01 := rfl
        have hb3 : store [rv, 0x01, rsv, atyp] buf 3 = atyp := rfl
        simp only [requestNeed, ne_eq, not_true_eq_false, if_false] at h
        by_cases h1 : atyp = 0x01
        · rw [if_pos h1] at h
          by_cases ha : tl.length < 4
          · unfold request
            rw [hdr]
            dsimp only
            rw [hb1, hb3, if_neg (by simp), if_pos h1,
              readFull_err cfg _ 4 hcap (by omega) ha]
            exact ⟨[.read [rv, 0x01, rsv, atyp], .read tl], by simp,
              by simp [doReturn, connClose, St.log]⟩
          · exact request_port_short cfg env _ rv rsv atyp (tl.take 4) (tl.drop 4) hcap
              (by simp [addrComplete, h1]; omega)
              (by simp at h ⊢; omega) (by simp)
        · rw [if_neg h1] at h
          by_cases h3 : atyp = 0x03
          · rw [if_pos h3] at h
            match tl, h with
            | [], _ =>
              unfold request
              rw [hdr]
              dsimp only
              rw [hb1, hb3, if_neg (by simp), if_neg h1, if_pos h3,
                readFull_err cfg _ 1 hcap (by omega) (by simp)]
              exact ⟨[.read [rv, 0x01, rsv, atyp], .read []], by simp,
                by simp [doReturn, connClose, St.log]⟩
            | l :: tl2, h =>
              by_cases hn : tl2.length < l.val
              · unfold request
                rw [hdr]
                dsimp only
                rw [hb1, hb3, if_neg (by simp), if_neg h1, if_pos h3,
                  readFull_ok cfg _ 1 [l] tl2 hcap (by omega) rfl rfl]
                dsimp only
                have hb0 : store [l] (store [rv, 0x01, rsv, atyp] buf) 0 = l := rfl
                rw [hb0, readFull_err cfg _ l.val hcap (byte_le l) hn]
                exact ⟨[.read [rv, 0x01, rsv, atyp], .read [l], .read tl2], by simp,
                  by simp [doReturn, connClose, St.log]⟩
              · exact request_port_short cfg env _ rv rsv atyp (l :: tl2.take l.val)
                  (tl2.drop l.val) hcap
                  (by simp [addrComplete, h3]; omega)
                  (by simp at h ⊢; omega) (by simp)
          · rw [if_neg h3] at h
            by_cases h6 : atyp = 0x04
            · rw [if_pos h6] at h
              by_cases ha : tl.length < 16
              · unfold request
                rw [hdr]
                dsimp only
                rw [hb1, hb3, if_neg (by simp), if_neg h1, if_neg h3, if_pos h6,
                  readFull_err cfg _ 16 hcap (by omega) ha]
                exact ⟨[.read [rv, 0x01, rsv, atyp], .read tl], by simp,
                  by simp [doReturn, connClose, St.log]⟩
              · exact request_port_short cfg env _ rv rsv atyp (tl.take 16) (tl.drop 16) hcap
                  (by simp [addrComplete, h1, h3, h6]; omega)
                  (by simp at h ⊢; omega) (by simp)
            · rw [if_neg h6] at h
              exact request_port_short cfg env _ rv rsv atyp [] tl hcap
                (by simp [addrComplete, h1, h3, h6])
                (by simp at h; omega) (by simp)
      · simp [requestNeed, hcmd] at h
        omega

/-! ## Claims -/

/-- C1: a complete greeting, an authentication message carrying the configured
username and password, and a complete CONNECT request whose dial succeeds make
the handler write exactly the method selection, the authentication success
status and the success reply, in that order; the session is established and the
handshake does not close the client transport.
The configured buffer size is at least 255, so that no slice expression of
the handshake is out of range. -/
theorem C1_connect_success (cfg : Config) (env : Env) (v n : Byte) (methods : List Byte)
    (av ul pl rv rsv atyp ph plo : Byte) (field payload : List Byte)
    (hcap : 255 ≤ cfg.bufsize) (hm : methods.length = n.val)
    (hu : cfg.username.length = ul.val) (hp : cfg.password.length = pl.val)
    (hwf : addrComplete atyp field = true)
    (hdial : env.dial (joinHostPort (targetOf atyp field) (decimal (portOf ph plo))) = true) :
    written (handshake cfg env
        (greetingMsg v n methods ++ authMsg av ul cfg.username pl cfg.password ++
          requestMsg rv 0x01 rsv atyp field ph plo ++ payload)).trace
      = [0x05, 0x02] ++ [0x01, 0x00] ++ [0x05, 0x00, 0x00, 0x01, 0, 0, 0, 0, 0, 0] ∧
    (handshake cfg env
        (greetingMsg v n methods ++ authMsg av ul cfg.username pl cfg.password ++
          requestMsg rv 0x01 rsv atyp field ph plo ++ payload)).outcome = .established ∧
    Event.close ∉ (handshake cfg env
        (greetingMsg v n methods ++ authMsg av ul cfg.username pl cfg.password ++
          requestMsg rv 0x01 rsv atyp field ph plo ++ payload)).trace ∧
    (handshake cfg env
        (greetingMsg v n methods ++ authMsg av ul cfg.username pl cfg.password ++
          requestMsg rv 0x01 rsv atyp field ph plo ++ payload)).rest = payload := by
  obtain ⟨b, hb⟩ := run_request cfg env v n methods av ul pl rv rsv atyp field
    ([ph, plo] ++ payload) hcap hm hu hp hwf
  have hin : greetingMsg v n methods ++ authMsg av ul cfg.username pl cfg.password ++
      requestMsg rv 0x01 rsv atyp field ph plo ++ payload =
      greetingMsg v n methods ++ authMsg av ul cfg.username pl cfg.password ++
        ([rv, 0x01, rsv, atyp] ++ field ++ ([ph, plo] ++ payload)) := by
    simp [requestMsg]
  rw [hin, hb, connect_complete cfg env _ _ ph plo payload hcap rfl, if_pos hdial]
  refine ⟨?_, rfl, ?_, rfl⟩
  · simp [written_append, written_addrReads, written, replySuccess]
  · intro hc
    simp only [List.mem_append, List.mem_cons, List.mem_singleton] at hc
    rcases hc with (hc | hc) | hc
    · simp at hc
    · obtain ⟨bs, hbs⟩ := mem_addrReads _ _ _ hc
      simp at hbs
    · simp at hc

/-- Witness for C1: the example session of the specification, CONNECT to
`127.0.0.1:8080` with a dial that succeeds. -/
theorem C1_connect_success_witness :
    (255 ≤ defaultCfg.bufsize ∧ [(0x00 : Byte)].length = (0x01 : Byte).val ∧
      defaultCfg.username.length = (0x05 : Byte).val ∧
      defaultCfg.password.length = (0x05 : Byte).val ∧
      addrComplete 0x01 [127, 0, 0, 1] = true ∧
      (envOf true).dial
        (joinHostPort (targetOf 0x01 [127, 0, 0, 1]) (decimal (portOf 0x1F 0x90))) = true) ∧
    (written (handshake defaultCfg (envOf true)
        (greetingMsg 0x05 0x01 [0x00] ++
          authMsg 0x01 0x05 defaultCfg.username 0x05 defaultCfg.password ++
          requestMsg 0x05 0x01 0x00 0x01 [127, 0, 0, 1] 0x1F 0x90 ++ [0x47, 0x45])).trace
      = [0x05, 0x02] ++ [0x01, 0x00] ++ [0x05, 0x00, 0x00, 0x01, 0, 0, 0, 0, 0, 0] ∧
    (handshake defaultCfg (envOf true)
        (greetingMsg 0x05 0x01 [0x00] ++
          authMsg 0x01 0x05 defaultCfg.username 0x05 defaultCfg.password ++
          requestMsg 0x05 0x01 0x00 0x01 [127, 0, 0, 1] 0x1F 0x90 ++ [0x47, 0x45])).outcome
      = .established ∧
    Event.close ∉ (handshake defaultCfg (envOf true)
        (greetingMsg 0x05 0x01 [0x00] ++
          authMsg 0x01 0x05 defaultCfg.username 0x05 defaultCfg.password ++
          requestMsg 0x05 0x01 0x00 0x01 [127, 0, 0, 1] 0x1F 0x90 ++ [0x47, 0x45])).trace ∧
    (handshake defaultCfg (envOf true)
        (greetingMsg 0x05 0x01 [0x00] ++
          authMsg 0x01 0x05 defaultCfg.username 0x05 defaultCfg.password ++
          requestMsg 0x05 0x01 0x00 0x01 [127, 0, 0, 1] 0x1F 0x90 ++ [0x47, 0x45])).rest
      = [0x47, 0x45]) :=
  ⟨by decide,
   C1_connect_success defaultCfg (envOf true) 0x05 0x01 [0x00] 0x01 0x05 0x05 0x05 0x00 0x01
     0x1F 0x90 [127, 0, 0, 1] [0x47, 0x45] (by decide) (by decide) (by decide) (by decide)
     (by decide) rfl⟩

/-- C2: after a complete greeting and a complete authentication message, the
received username and password are compared with the configured pair by byte
equality. If either differs, the handler writes exactly `[0x01, 0x01]` after the
method selection, closes, leaves every byte after the password unread, writes
nothing more and never dials; if both are equal it writes `[0x01, 0x00]` and its
next action is the read of the request header.
The configured buffer size is at least 255, so that no slice expression of
the handshake is out of range. -/
theorem C2_auth_compare (cfg : Config) (env : Env) (v n : Byte) (methods : List Byte)
    (av ul pl : Byte) (user pass rest : List Byte)
    (hcap : 255 ≤ cfg.bufsize) (hm : methods.length = n.val)
    (hu : user.length = ul.val) (hp : pass.length = pl.val) :
    ((user ≠ cfg.username ∨ pass ≠ cfg.password) →
      handshake cfg env (greetingMsg v n methods ++ authMsg av ul user pl pass ++ rest) =
        { outcome := .returned,
          trace := [.counterAdd 1, .poolGet 1, .setDeadline, .read [v, n], .read methods,
                    .write [0x05, 0x02], .read [av, ul], .read user, .read [pl], .read pass,
                    .write [0x01, 0x01], .close, .poolPut 1, .counterAdd (-1)],
          rest := rest, pending := [] }) ∧
    ((user = cfg.username ∧ pass = cfg.password) →
      ∃ tl, (handshake cfg env
          (greetingMsg v n methods ++ authMsg av ul user pl pass ++ rest)).trace =
        [.counterAdd 1, .poolGet 1, .setDeadline, .read [v, n], .read methods,
         .write [0x05, 0x02], .read [av, ul], .read user, .read [pl], .read pass,
         .write [0x01, 0x00], .read (rest.take 4)] ++ tl) := by
  obtain ⟨b, hb⟩ := run_greeting cfg env v n methods (authMsg av ul user pl pass ++ rest)
    hcap hm
  rw [List.append_assoc, hb,
    auth_complete cfg env _ av ul pl user pass rest hcap hu hp (by simp [authMsg])]
  constructor
  · intro hne
    rw [if_pos hne]
    simp
  · rintro ⟨h1, h2⟩
    rw [if_neg (by simp [h1, h2])]
    obtain ⟨tl, htl⟩ := request_reads_first cfg env
      { input := rest,
        buf := store pass (store [pl] (store user (store [av, ul] b))),
        trace := [.counterAdd 1, .poolGet 1, .setDeadline, .read [v, n], .read methods,
                  .write [0x05, 0x02]] ++
                 [.read [av, ul], .read user, .read [pl], .read pass, .write [0x01, 0x00]],
        defers := [.poolPut 1, .counterAdd (-1)] } hcap
    exact ⟨tl, by simpa using htl⟩

/-- Witness for C2: the password `admim` against the configured `admin`. -/
theorem C2_auth_compare_witness :
    (255 ≤ defaultCfg.bufsize ∧ [(0x00 : Byte)].length = (0x01 : Byte).val ∧
      (ascii "admin").length = (0x05 : Byte).val ∧
      (ascii "admim").length = (0x05 : Byte).val ∧
      (ascii "admin" ≠ defaultCfg.username ∨ ascii "admim" ≠ defaultCfg.password)) ∧
    handshake defaultCfg (envOf true)
        (greetingMsg 0x05 0x01 [0x00] ++ authMsg 0x01 0x05 (ascii "admin") 0x05 (ascii "admim") ++
          [0x05, 0x01]) =
      { outcome := .returned,
        trace := [.counterAdd 1, .poolGet 1, .setDeadline, .read [0x05, 0x01], .read [0x00],
                  .write [0x05, 0x02], .read [0x01, 0x05], .read (ascii "admin"),
                  .read [0x05], .read (ascii "admim"),
                  .write [0x01, 0x01], .close, .poolPut 1, .counterAdd (-1)],
        rest := [0x05, 0x01], pending := [] } :=
  ⟨by decide,
   (C2_auth_compare defaultCfg (envOf true) 0x05 0x01 [0x00] 0x01 0x05 0x05 (ascii "admin")
     (ascii "admim") [0x05, 0x01] (by decide) (by decide) (by decide) (by decide)).1
     (by decide)⟩

/-- C3: in an authenticated session, a request header whose CMD byte is not
`0x01` makes the handler close right after reading the four header bytes: the
next bytes stay unread, nothing is dialled and nothing is written after the
authentication success status, so the total output is `[0x05,0x02,0x01,0x00]`.
The configured buffer size is at least 255, so that no slice expression of
the handshake is out of range. -/
theorem C3_unsupported_cmd (cfg : Config) (env : Env) (v n : Byte) (methods : List Byte)
    (av ul pl rv cmd rsv atyp : Byte) (rest : List Byte)
    (hcap : 255 ≤ cfg.bufsize) (hm : methods.length = n.val)
    (hu : cfg.username.length = ul.val) (hp : cfg.password.length = pl.val)
    (hcmd : cmd ≠ 0x01) :
    handshake cfg env
        (greetingMsg v n methods ++ authMsg av ul cfg.username pl cfg.password ++
          ([rv, cmd, rsv, atyp] ++ rest)) =
      { outcome := .returned,
        trace := [.counterAdd 1, .poolGet 1, .setDeadline, .read [v, n], .read methods,
                  .write [0x05, 0x02], .read [av, ul], .read cfg.username, .read [pl],
                  .read cfg.password, .write [0x01, 0x00], .read [rv, cmd, rsv, atyp],
                  .close, .poolPut 1, .counterAdd (-1)],
        rest := rest, pending := [] } ∧
    written (handshake cfg env
        (greetingMsg v n methods ++ authMsg av ul cfg.username pl cfg.password ++
          ([rv, cmd, rsv, atyp] ++ rest))).trace = [0x05, 0x02, 0x01, 0x00] ∧
    dials (handshake cfg env
        (greetingMsg v n methods ++ authMsg av ul cfg.username pl cfg.password ++
          ([rv, cmd, rsv, atyp] ++ rest))).trace = [] := by
  obtain ⟨b, hb⟩ := run_auth_ok cfg env v n methods av ul pl ([rv, cmd, rsv, atyp] ++ rest)
    hcap hm hu hp
  rw [hb, request_not_connect cfg env _ rv cmd rsv atyp rest hcap hcmd rfl]
  simp [written, dials]

/-- Witness for C3: a BIND request (CMD `0x02`) after a successful
authentication. -/
theorem C3_unsupported_cmd_witness :
    (255 ≤ defaultCfg.bufsize ∧ [(0x00 : Byte)].length = (0x01 : Byte).val ∧
      defaultCfg.username.length = (0x05 : Byte).val ∧
      defaultCfg.password.length = (0x05 : Byte).val ∧ (0x02 : Byte) ≠ 0x01) ∧
    (handshake defaultCfg (envOf true)
        (greetingMsg 0x05 0x01 [0x00] ++
          authMsg 0x01 0x05 defaultCfg.username 0x05 defaultCfg.password ++
          ([0x05, 0x02, 0x00, 0x01] ++ [127, 0, 0, 1, 0x1F, 0x90])) =
      { outcome := .returned,
        trace := [.counterAdd 1, .poolGet 1, .setDeadline, .read [0x05, 0x01], .read [0x00],
                  .write [0x05, 0x02], .read [0x01, 0x05], .read defaultCfg.username,
                  .read [0x05], .read defaultCfg.password, .write [0x01, 0x00],
                  .read [0x05, 0x02, 0x00, 0x01],
                  .close, .poolPut 1, .counterAdd (-1)],
        rest := [127, 0, 0, 1, 0x1F, 0x90], pending := [] } ∧
    written (handshake defaultCfg (envOf true)
        (greetingMsg 0x05 0x01 [0x00] ++
          authMsg 0x01 0x05 defaultCfg.username 0x05 defaultCfg.password ++
          ([0x05, 0x02, 0x00, 0x01] ++ [127, 0, 0, 1, 0x1F, 0x90]))).trace =
      [0x05, 0x02, 0x01, 0x00] ∧
    dials (handshake defaultCfg (envOf true)
        (greetingMsg 0x05 0x01 [0x00] ++
          authMsg 0x01 0x05 defaultCfg.username 0x05 defaultCfg.password ++
          ([0x05, 0x02, 0x00, 0x01] ++ [127, 0, 0, 1, 0x1F, 0x90]))).trace = []) :=
  ⟨by decide,
   C3_unsupported_cmd defaultCfg (envOf true) 0x05 0x01 [0x00] 0x01 0x05 0x05 0x05 0x02 0x00
     0x01 [127, 0, 0, 1, 0x1F, 0x90] (by decide) (by decide) (by decide) (by decide)
     (by decide)⟩

/-- C4 (as stated, refuted): with the default configuration and a failing
dial, an authenticated CONNECT request of address type `0x02` with port 80 is
answered with the ten bytes of the general-failure reply after the
authentication success status, so the output is not `[0x05,0x02,0x01,0x00]`. -/
theorem C4_counterexample :
    written (handshake defaultCfg (envOf false)
        (adminSession (requestMsg 0x05 0x01 0x00 0x02 [] 0x00 0x50))).trace =
      [0x05, 0x02, 0x01, 0x00, 0x05, 0x05, 0x00, 0x01, 0, 0, 0, 0, 0, 0] ∧
    written (handshake defaultCfg (envOf false)
        (adminSession (requestMsg 0x05 0x01 0x00 0x02 [] 0x00 0x50))).trace ≠
      [0x05, 0x02, 0x01, 0x00] := by
  decide

/-- C4 (amended): in an authenticated session whose request has CMD `0x01` and
an address type outside `0x01, 0x03, 0x04`, the handler reads no address byte
and goes on to the port. If the client stream ends before both port bytes are
read, it closes without a reply (total output `[0x05,0x02,0x01,0x00]`). If both
port bytes are read, it dials the empty host with that port, and when this dial
fails it writes the general-failure reply after the authentication success
status and closes.
The configured buffer size is at least 255, so that no slice expression of
the handshake is out of range. -/
theorem C4_unknown_atyp (cfg : Config) (env : Env) (v n : Byte) (methods : List Byte)
    (av ul pl rv rsv atyp : Byte)
    (hcap : 255 ≤ cfg.bufsize) (hm : methods.length = n.val)
    (hu : cfg.username.length = ul.val) (hp : cfg.password.length = pl.val)
    (h1 : atyp ≠ 0x01) (h3 : atyp ≠ 0x03) (h4 : atyp ≠ 0x04) :
    (∀ rest : List Byte, rest.length < 2 →
      handshake cfg env
          (greetingMsg v n methods ++ authMsg av ul cfg.username pl cfg.password ++
            ([rv, 0x01, rsv, atyp] ++ rest)) =
        { outcome := .returned,
          trace := [.counterAdd 1, .poolGet 1, .setDeadline, .read [v, n], .read methods,
                    .write [0x05, 0x02], .read [av, ul], .read cfg.username, .read [pl],
                    .read cfg.password, .write [0x01, 0x00], .read [rv, 0x01, rsv, atyp],
                    .read rest, .close, .poolPut 1, .counterAdd (-1)],
          rest := [], pending := [] } ∧
      written (handshake cfg env
          (greetingMsg v n methods ++ authMsg av ul cfg.username pl cfg.password ++
            ([rv, 0x01, rsv, atyp] ++ rest))).trace = [0x05, 0x02, 0x01, 0x00]) ∧
    (∀ (ph plo : Byte) (payload : List Byte),
      env.dial (ascii ":" ++ decimal (portOf ph plo)) = false →
      handshake cfg env
          (greetingMsg v n methods ++ authMsg av ul cfg.username pl cfg.password ++
            requestMsg rv 0x01 rsv atyp [] ph plo ++ payload) =
        { outcome := .returned,
          trace := [.counterAdd 1, .poolGet 1, .setDeadline, .read [v, n], .read methods,
                    .write [0x05, 0x02], .read [av, ul], .read cfg.username, .read [pl],
                    .read cfg.password, .write [0x01, 0x00], .read [rv, 0x01, rsv, atyp],
                    .read [ph, plo], .dial (ascii ":" ++ decimal (portOf ph plo)) false,
                    .write [0x05, 0x05, 0x00, 0x01, 0, 0, 0, 0, 0, 0],
                    .close, .poolPut 1, .counterAdd (-1)],
          rest := payload, pending := [] } ∧
      written (handshake cfg env
          (greetingMsg v n methods ++ authMsg av ul cfg.username pl cfg.password ++
            requestMsg rv 0x01 rsv atyp [] ph plo ++ payload)).trace =
        [0x05, 0x02, 0x01, 0x00] ++ [0x05, 0x05, 0x00, 0x01, 0, 0, 0, 0, 0, 0]) := by
  have hwf : addrComplete atyp [] = true := by simp [addrComplete, h1, h3, h4]
  have htgt : targetOf atyp [] = [] := by simp [targetOf, h1, h3, h4]
  have hrd : addrReads atyp [] = [] := by simp [addrReads, h1, h3, h4]
  have hjoin : ∀ p : List Byte, joinHostPort [] p = ascii ":" ++ p := by
    intro p
    simp [joinHostPort]
  constructor
  · intro rest hrest
    obtain ⟨b, hb⟩ := run_request cfg env v n methods av ul pl rv rsv atyp [] rest
      hcap hm hu hp hwf
    rw [List.append_nil] at hb
    rw [hb, connect_short cfg env _ _ hcap hrest, hrd]
    simp [written]
  · intro ph plo payload hdial
    rw [run_complete cfg env v n methods av ul pl rv rsv atyp ph plo [] payload
        hcap hm hu hp hwf, htgt, hjoin, hrd, if_neg (by simp [hdial])]
    simp [written, replyFailure]

/-- Witness for C4 (amended): address type `0x02` with one port byte, and with
port 80 and a failing dial. -/
theorem C4_unknown_atyp_witness :
    (255 ≤ defaultCfg.bufsize ∧ [(0x00 : Byte)].length = (0x01 : Byte).val ∧
      defaultCfg.username.length = (0x05 : Byte).val ∧
      defaultCfg.password.length = (0x05 : Byte).val ∧
      (0x02 : Byte) ≠ 0x01 ∧ (0x02 : Byte) ≠ 0x03 ∧ (0x02 : Byte) ≠ 0x04 ∧
      [(0x00 : Byte)].length < 2 ∧
      (envOf false).dial (ascii ":" ++ decimal (portOf 0x00 0x50)) = false) ∧
    written (handshake defaultCfg (envOf false)
        (greetingMsg 0x05 0x01 [0x00] ++
          authMsg 0x01 0x05 defaultCfg.username 0x05 defaultCfg.password ++
          ([0x05, 0x01, 0x00, 0x02] ++ [0x00]))).trace = [0x05, 0x02, 0x01, 0x00] ∧
    written (handshake defaultCfg (envOf false)
        (greetingMsg 0x05 0x01 [0x00] ++
          authMsg 0x01 0x05 defaultCfg.username 0x05 defaultCfg.password ++
          requestMsg 0x05 0x01 0x00 0x02 [] 0x00 0x50 ++ [])).trace =
      [0x05, 0x02, 0x01, 0x00] ++ [0x05, 0x05, 0x00, 0x01, 0, 0, 0, 0, 0, 0] :=
  ⟨by decide,
   ((C4_unknown_atyp defaultCfg (envOf false) 0x05 0x01 [0x00] 0x01 0x05 0x05 0x05 0x00 0x02
     (by decide) (by decide) (by decide) (by decide) (by decide) (by decide)
     (by decide)).1 [0x00] (by decide)).2,
   ((C4_unknown_atyp defaultCfg (envOf false) 0x05 0x01 [0x00] 0x01 0x05 0x05 0x05 0x00 0x02
     (by decide) (by decide) (by decide) (by decide) (by decide) (by decide)
     (by decide)).2 0x00 0x50 [] rfl).2⟩

/-- C5 (the code at the failing input): with the default configuration and a
dial that succeeds, an authenticated CONNECT request of address type `0x02`
with port 80 makes the handler dial the empty host, `:80`, write the success
reply and establish the session without closing the client transport. -/
theorem C5_unknown_atyp_established :
    handshake defaultCfg (envOf true)
        (adminSession (requestMsg 0x05 0x01 0x00 0x02 [] 0x00 0x50)) =
      { outcome := .established,
        trace := [.counterAdd 1, .poolGet 1, .setDeadline, .read [0x05, 0x01], .read [0x00],
                  .write [0x05, 0x02], .read [0x01, 0x05], .read (ascii "admin"),
                  .read [0x05], .read (ascii "admin"), .write [0x01, 0x00],
                  .read [0x05, 0x01, 0x00, 0x02], .read [0x00, 0x50],
                  .dial (ascii ":80") true,
                  .write [0x05, 0x00, 0x00, 0x01, 0, 0, 0, 0, 0, 0],
                  .clearDeadline, .poolGet 2],
        rest := [],
        pending := [.poolPut 2, .poolPut 1, .counterAdd (-1)] } := by
  decide

/-- C6: a complete, authenticated CONNECT request whose dial fails leads to
exactly one dial attempt, after which the handler writes the general-failure
reply as its last output, closes the client transport and returns; no second
buffer is acquired and the session is not established.
The configured buffer size is at least 255, so that no slice expression of
the handshake is out of range. -/
theorem C6_dial_failure (cfg : Config) (env : Env) (v n : Byte) (methods : List Byte)
    (av ul pl rv rsv atyp ph plo : Byte) (field payload : List Byte)
    (hcap : 255 ≤ cfg.bufsize) (hm : methods.length = n.val)
    (hu : cfg.username.length = ul.val) (hp : cfg.password.length = pl.val)
    (hwf : addrComplete atyp field = true)
    (hdial : env.dial (joinHostPort (targetOf atyp field) (decimal (portOf ph plo))) = false) :
    handshake cfg env
        (greetingMsg v n methods ++ authMsg av ul cfg.username pl cfg.password ++
          requestMsg rv 0x01 rsv atyp field ph plo ++ payload) =
      { outcome := .returned,
        trace := [.counterAdd 1, .poolGet 1, .setDeadline, .read [v, n], .read methods,
                  .write [0x05, 0x02], .read [av, ul], .read cfg.username, .read [pl],
                  .read cfg.password, .write [0x01, 0x00], .read [rv, 0x01, rsv, atyp]] ++
                  addrReads atyp field ++
                 [.read [ph, plo],
                  .dial (joinHostPort (targetOf atyp field) (decimal (portOf ph plo))) false,
                  .write [0x05, 0x05, 0x00, 0x01, 0, 0, 0, 0, 0, 0],
                  .close, .poolPut 1, .counterAdd (-1)],
        rest := payload, pending := [] } ∧
    dials (handshake cfg env
        (greetingMsg v n methods ++ authMsg av ul cfg.username pl cfg.password ++
          requestMsg rv 0x01 rsv atyp field ph plo ++ payload)).trace =
      [joinHostPort (targetOf atyp field) (decimal (portOf ph plo))] ∧
    written (handshake cfg env
        (greetingMsg v n methods ++ authMsg av ul cfg.username pl cfg.password ++
          requestMsg rv 0x01 rsv atyp field ph plo ++ payload)).trace =
      [0x05, 0x02, 0x01, 0x00] ++ [0x05, 0x05, 0x00, 0x01, 0, 0, 0, 0, 0, 0] ∧
    Event.poolGet 2 ∉ (handshake cfg env
        (greetingMsg v n methods ++ authMsg av ul cfg.username pl cfg.password ++
          requestMsg rv 0x01 rsv atyp field ph plo ++ payload)).trace := by
  rw [run_complete cfg env v n methods av ul pl rv rsv atyp ph plo field payload
      hcap hm hu hp hwf,
    if_neg (by simp [hdial])]
  refine ⟨by simp [replyFailure], ?_, ?_, ?_⟩
  · simp [dials_append, dials_addrReads, dials]
  · simp [written_append, written_addrReads, written, replyFailure]
  · intro hc
    simp only [List.mem_append, List.mem_cons, List.mem_singleton] at hc
    rcases hc with (hc | hc) | hc
    · simp at hc
    · obtain ⟨bs, hbs⟩ := mem_addrReads _ _ _ hc
      simp at hbs
    · simp at hc

/-- Witness for C6: CONNECT to `127.0.0.1:8080` with a dial that fails. -/
theorem C6_dial_failure_witness :
    (255 ≤ defaultCfg.bufsize ∧ [(0x00 : Byte)].length = (0x01 : Byte).val ∧
      defaultCfg.username.length = (0x05 : Byte).val ∧
      defaultCfg.password.length = (0x05 : Byte).val ∧
      addrComplete 0x01 [127, 0, 0, 1] = true ∧
      (envOf false).dial
        (joinHostPort (targetOf 0x01 [127, 0, 0, 1]) (decimal (portOf 0x1F 0x90))) = false) ∧
    dials (handshake defaultCfg (envOf false)
        (greetingMsg 0x05 0x01 [0x00] ++
          authMsg 0x01 0x05 defaultCfg.username 0x05 defaultCfg.password ++
          requestMsg 0x05 0x01 0x00 0x01 [127, 0, 0, 1] 0x1F 0x90 ++ [])).trace =
      [joinHostPort (targetOf 0x01 [127, 0, 0, 1]) (decimal (portOf 0x1F 0x90))] ∧
    written (handshake defaultCfg (envOf false)
        (greetingMsg 0x05 0x01 [0x00] ++
          authMsg 0x01 0x05 defaultCfg.username 0x05 defaultCfg.password ++
          requestMsg 0x05 0x01 0x00 0x01 [127, 0, 0, 1] 0x1F 0x90 ++ [])).trace =
      [0x05, 0x02, 0x01, 0x00] ++ [0x05, 0x05, 0x00, 0x01, 0, 0, 0, 0, 0, 0] ∧
    Event.poolGet 2 ∉ (handshake defaultCfg (envOf false)
        (greetingMsg 0x05 0x01 [0x00] ++
          authMsg 0x01 0x05 defaultCfg.username 0x05 defaultCfg.password ++
          requestMsg 0x05 0x01 0x00 0x01 [127, 0, 0, 1] 0x1F 0x90 ++ [])).trace :=
  ⟨by decide,
   (C6_dial_failure defaultCfg (envOf false) 0x05 0x01 [0x00] 0x01 0x05 0x05 0x05 0x00 0x01
     0x1F 0x90 [127, 0, 0, 1] [] (by decide) (by decide) (by decide) (by decide)
     (by decide) rfl).2⟩

/-- C7: when the client stream ends before the bytes required by the current
handshake step have all arrived, the handler closes the transport and returns
without dialling and without writing anything for the interrupted step: its
total output is empty if the greeting is incomplete, `[0x05,0x02]` if the
authentication message is incomplete, and `[0x05,0x02,0x01,0x00]` if the request
(header, address field or port) is incomplete.
The configured buffer size is at least 255, so that no slice expression of
the handshake is out of range. -/
theorem C7_short_read (cfg : Config) (env : Env) (hcap : 255 ≤ cfg.bufsize) :
    (∀ inp : List Byte, inp.length < greetingNeed inp →
      written (handshake cfg env inp).trace = [] ∧
      dials (handshake cfg env inp).trace = [] ∧
      (handshake cfg env inp).outcome = .returned ∧
      Event.close ∈ (handshake cfg env inp).trace) ∧
    (∀ (v n : Byte) (methods inp : List Byte), methods.length = n.val →
      inp.length < authNeed inp →
      written (handshake cfg env (greetingMsg v n methods ++ inp)).trace = [0x05, 0x02] ∧
      dials (handshake cfg env (greetingMsg v n methods ++ inp)).trace = [] ∧
      (handshake cfg env (greetingMsg v n methods ++ inp)).outcome = .returned ∧
      Event.close ∈ (handshake cfg env (greetingMsg v n methods ++ inp)).trace) ∧
    (∀ (v n : Byte) (methods : List Byte) (av ul pl : Byte) (inp : List Byte),
      methods.length = n.val → cfg.username.length = ul.val →
      cfg.password.length = pl.val → inp.length < requestNeed inp →
      written (handshake cfg env
          (greetingMsg v n methods ++ authMsg av ul cfg.username pl cfg.password ++
            inp)).trace = [0x05, 0x02, 0x01, 0x00] ∧
      dials (handshake cfg env
          (greetingMsg v n methods ++ authMsg av ul cfg.username pl cfg.password ++
            inp)).trace = [] ∧
      (handshake cfg env
          (greetingMsg v n methods ++ authMsg av ul cfg.username pl cfg.password ++
            inp)).outcome = .returned ∧
      Event.close ∈ (handshake cfg env
          (greetingMsg v n methods ++ authMsg av ul cfg.username pl cfg.password ++
            inp)).trace) := by
  refine ⟨?_, ?_, ?_⟩
  · intro inp h
    rw [handshake_start cfg env inp hcap]
    obtain ⟨hw, hd, ho, hc, _⟩ := aborted_obs _ _ _ (greeting_short cfg env
      { input := inp, buf := env.stale,
        trace := [.counterAdd 1, .poolGet 1, .setDeadline],
        defers := [.poolPut 1, .counterAdd (-1)] } hcap h)
    exact ⟨by simpa [written] using hw, by simpa [dials] using hd, ho, hc⟩
  · intro v n methods inp hm h
    obtain ⟨b, hb⟩ := run_greeting cfg env v n methods inp hcap hm
    rw [hb]
    obtain ⟨hw, hd, ho, hc, _⟩ := aborted_obs _ _ _ (auth_short cfg env
      { input := inp, buf := b,
        trace := [.counterAdd 1, .poolGet 1, .setDeadline, .read [v, n], .read methods,
                  .write [0x05, 0x02]],
        defers := [.poolPut 1, .counterAdd (-1)] } hcap h)
    exact ⟨by simpa [written] using hw, by simpa [dials] using hd, ho, hc⟩
  · intro v n methods av ul pl inp hm hu hp h
    obtain ⟨b, hb⟩ := run_auth_ok cfg env v n methods av ul pl inp hcap hm hu hp
    rw [hb]
    obtain ⟨hw, hd, ho, hc, _⟩ := aborted_obs _ _ _ (request_incomplete cfg env
      { input := inp, buf := b,
        trace := [.counterAdd 1, .poolGet 1, .setDeadline, .read [v, n], .read methods,
                  .write [0x05, 0x02], .read [av, ul], .read cfg.username, .read [pl],
                  .read cfg.password, .write [0x01, 0x00]],
        defers := [.poolPut 1, .counterAdd (-1)] } hcap h)
    exact ⟨by simpa [written] using hw, by simpa [dials] using hd, ho, hc⟩

/-- Witness for C7: a greeting cut after its first byte, an authentication
message cut inside the username, and a request cut inside the IPv4 address. -/
theorem C7_short_read_witness :
    (255 ≤ defaultCfg.bufsize ∧
      [(0x05 : Byte)].length < greetingNeed [0x05] ∧
      [(0x00 : Byte)].length = (0x01 : Byte).val ∧
      [(0x01 : Byte), 0x05, 0x61].length < authNeed [0x01, 0x05, 0x61] ∧
      defaultCfg.username.length = (0x05 : Byte).val ∧
      defaultCfg.password.length = (0x05 : Byte).val ∧
      [(0x05 : Byte), 0x01, 0x00, 0x01, 127, 0].length <
        requestNeed [0x05, 0x01, 0x00, 0x01, 127, 0]) ∧
    written (handshake defaultCfg (envOf true) [0x05]).trace = [] ∧
    written (handshake defaultCfg (envOf true)
        (greetingMsg 0x05 0x01 [0x00] ++ [0x01, 0x05, 0x61])).trace = [0x05, 0x02] ∧
    written (handshake defaultCfg (envOf true)
        (greetingMsg 0x05 0x01 [0x00] ++
          authMsg 0x01 0x05 defaultCfg.username 0x05 defaultCfg.password ++
          [0x05, 0x01, 0x00, 0x01, 127, 0])).trace = [0x05, 0x02, 0x01, 0x00] :=
  ⟨by decide,
   ((C7_short_read defaultCfg (envOf true) (by decide)).1 [0x05] (by decide)).1,
   ((C7_short_read defaultCfg (envOf true) (by decide)).2.1 0x05 0x01 [0x00]
     [0x01, 0x05, 0x61] (by decide) (by decide)).1,
   ((C7_short_read defaultCfg (envOf true) (by decide)).2.2 0x05 0x01 [0x00] 0x01 0x05 0x05
     [0x05, 0x01, 0x00, 0x01, 127, 0] (by decide) (by decide) (by decide) (by decide)).1⟩

/-- C8: for every complete greeting, whatever its version byte, its method
count `N` and its `N` method bytes, the handler takes exactly the `2 + N`
greeting bytes from the client and then writes `[0x05, 0x02]` as its first
output.
The configured buffer size is at least 255, so that no slice expression of
the handshake is out of range. -/
theorem C8_greeting_reply (cfg : Config) (env : Env) (v n : Byte)
    (methods rest : List Byte)
    (hcap : 255 ≤ cfg.bufsize) (hm : methods.length = n.val) :
    ∃ tl, (handshake cfg env (greetingMsg v n methods ++ rest)).trace =
        [.counterAdd 1, .poolGet 1, .setDeadline, .read [v, n], .read methods,
         .write [0x05, 0x02]] ++ tl ∧
      (consumed [.counterAdd 1, .poolGet 1, .setDeadline, .read [v, n],
          .read methods]).length = 2 + n.val ∧
      (written (handshake cfg env (greetingMsg v n methods ++ rest)).trace).take 2 =
        [0x05, 0x02] := by
  obtain ⟨b, hb⟩ := run_greeting cfg env v n methods rest hcap hm
  obtain ⟨tl, htl⟩ := auth_ext cfg env
    { input := rest, buf := b,
      trace := [.counterAdd 1, .poolGet 1, .setDeadline, .read [v, n], .read methods,
                .write [0x05, 0x02]],
      defers := [.poolPut 1, .counterAdd (-1)] }
    [.counterAdd 1, .poolGet 1, .setDeadline, .read [v, n], .read methods,
      .write [0x05, 0x02]] ⟨[], by simp⟩
  rw [hb]
  refine ⟨tl, htl, ?_, ?_⟩
  · simp [consumed, hm]; omega
  · rw [htl]
    simp [written]

/-- Witness for C8: a greeting with version byte `0x04` that offers only the
methods `0x00` and `0x01`. -/
theorem C8_greeting_reply_witness :
    (255 ≤ defaultCfg.bufsize ∧ [(0x00 : Byte), 0x01].length = (0x02 : Byte).val) ∧
    ∃ tl, (handshake defaultCfg (envOf true) (greetingMsg 0x04 0x02 [0x00, 0x01] ++ [])).trace =
        [.counterAdd 1, .poolGet 1, .setDeadline, .read [0x04, 0x02], .read [0x00, 0x01],
         .write [0x05, 0x02]] ++ tl ∧
      (consumed [.counterAdd 1, .poolGet 1, .setDeadline, .read [0x04, 0x02],
          .read [0x00, 0x01]]).length = 2 + (0x02 : Byte).val ∧
      (written (handshake defaultCfg (envOf true)
          (greetingMsg 0x04 0x02 [0x00, 0x01] ++ [])).trace).take 2 = [0x05, 0x02] :=
  ⟨by decide,
   C8_greeting_reply defaultCfg (envOf true) 0x04 0x02 [0x00, 0x01] [] (by decide)
     (by decide)⟩

/-- C9: in an authenticated CONNECT request of address type `0x01` the handler
takes exactly the four address bytes `a, b, c, d`, then the two port bytes, and
dials the host written in dotted decimal, `a.b.c.d`, followed by `:` and the
port; for address `127,0,0,1` and port bytes `0x1F,0x90` the dial address is
`127.0.0.1:8080`.
The configured buffer size is at least 255, so that no slice expression of
the handshake is out of range. -/
theorem C9_ipv4_target (cfg : Config) (env : Env) (v n : Byte) (methods : List Byte)
    (av ul pl rv rsv a b c d ph plo : Byte) (payload : List Byte)
    (hcap : 255 ≤ cfg.bufsize) (hm : methods.length = n.val)
    (hu : cfg.username.length = ul.val) (hp : cfg.password.length = pl.val) :
    (∃ ok tl, (handshake cfg env
        (greetingMsg v n methods ++ authMsg av ul cfg.username pl cfg.password ++
          requestMsg rv 0x01 rsv 0x01 [a, b, c, d] ph plo ++ payload)).trace =
      [.counterAdd 1, .poolGet 1, .setDeadline, .read [v, n], .read methods,
       .write [0x05, 0x02], .read [av, ul], .read cfg.username, .read [pl],
       .read cfg.password, .write [0x01, 0x00], .read [rv, 0x01, rsv, 0x01],
       .read [a, b, c, d], .read [ph, plo],
       .dial (dottedQuad a b c d ++ ascii ":" ++ decimal (portOf ph plo)) ok] ++ tl) ∧
    dials (handshake cfg env
        (greetingMsg v n methods ++ authMsg av ul cfg.username pl cfg.password ++
          requestMsg rv 0x01 rsv 0x01 [a, b, c, d] ph plo ++ payload)).trace =
      [dottedQuad a b c d ++ ascii ":" ++ decimal (portOf ph plo)] ∧
    dials (handshake cfg env
        (greetingMsg v n methods ++ authMsg av ul cfg.username pl cfg.password ++
          requestMsg rv 0x01 rsv 0x01 [127, 0, 0, 1] 0x1F 0x90 ++ payload)).trace =
      [ascii "127.0.0.1:8080"] := by
  have key : ∀ a b c d ph plo : Byte,
      joinHostPort (targetOf 0x01 [a, b, c, d]) (decimal (portOf ph plo)) =
        dottedQuad a b c d ++ ascii ":" ++ decimal (portOf ph plo) := by
    intro a b c d ph plo
    have h := colon_not_mem_ipString_quad a b c d
    rw [ipString_quad] at h
    simp only [targetOf, if_pos, joinHostPort, ipString_quad, if_neg h]
  have hex : dottedQuad 127 0 0 1 ++ ascii ":" ++ decimal (portOf 0x1F 0x90) =
      ascii "127.0.0.1:8080" := by decide
  rw [run_complete cfg env v n methods av ul pl rv rsv 0x01 ph plo [a, b, c, d] payload
      hcap hm hu hp (by simp [addrComplete]),
    run_complete cfg env v n methods av ul pl rv rsv 0x01 0x1F 0x90 [127, 0, 0, 1] payload
      hcap hm hu hp (by simp [addrComplete]), key, key, hex]
  refine ⟨?_, ?_, ?_⟩
  · split_ifs
    · exact ⟨true, [.write replySuccess, .clearDeadline, .poolGet 2], by simp [addrReads]⟩
    · exact ⟨false, [.write replyFailure, .close, .poolPut 1, .counterAdd (-1)],
        by simp [addrReads]⟩
  · split_ifs <;> simp [addrReads, dials]
  · split_ifs <;> simp [addrReads, dials]

/-- Witness for C9: the example request of the specification. -/
theorem C9_ipv4_target_witness :
    (255 ≤ defaultCfg.bufsize ∧ [(0x00 : Byte)].length = (0x01 : Byte).val ∧
      defaultCfg.username.length = (0x05 : Byte).val ∧
      defaultCfg.password.length = (0x05 : Byte).val) ∧
    dials (handshake defaultCfg (envOf true)
        (greetingMsg 0x05 0x01 [0x00] ++
          authMsg 0x01 0x05 defaultCfg.username 0x05 defaultCfg.password ++
          requestMsg 0x05 0x01 0x00 0x01 [10, 0, 2, 15] 0x01 0xBB ++ [])).trace =
      [dottedQuad 10 0 2 15 ++ ascii ":" ++ decimal (portOf 0x01 0xBB)] :=
  ⟨by decide,
   (C9_ipv4_target defaultCfg (envOf true) 0x05 0x01 [0x00] 0x01 0x05 0x05 0x05 0x00
     10 0 2 15 0x01 0xBB [] (by decide) (by decide) (by decide) (by decide)).2.1⟩

/-- C10 (as stated, refuted): for the three name bytes `a:b` and port 80 the
address dialled is `[a:b]:80`, not the name followed by `:` and the port. -/
theorem C10_counterexample :
    dials (handshake defaultCfg (envOf false)
        (adminSession (requestMsg 0x05 0x01 0x00 0x03 ([0x03] ++ ascii "a:b") 0x00 0x50))).trace =
      [ascii "[a:b]:80"] ∧
    dials (handshake defaultCfg (envOf false)
        (adminSession (requestMsg 0x05 0x01 0x00 0x03 ([0x03] ++ ascii "a:b") 0x00 0x50))).trace ≠
      [ascii "a:b" ++ ascii ":" ++ decimal (portOf 0x00 0x50)] := by
  decide

/-- C10 (amended): in an authenticated CONNECT request of address type `0x03`
with length byte `L` and `L` name bytes, the handler takes exactly the length
byte and the `L` name bytes, then the two port bytes, and dials the name bytes,
unmodified, followed by `:` and the decimal port, except that a name containing
a `:` byte is enclosed in `[` and `]`.
The configured buffer size is at least 255, so that no slice expression of
the handshake is out of range. -/
theorem C10_domain_target (cfg : Config) (env : Env) (v n : Byte) (methods : List Byte)
    (av ul pl rv rsv l ph plo : Byte) (name payload : List Byte)
    (hcap : 255 ≤ cfg.bufsize) (hm : methods.length = n.val)
    (hu : cfg.username.length = ul.val) (hp : cfg.password.length = pl.val)
    (hl : name.length = l.val) :
    ∃ ok tl, (handshake cfg env
        (greetingMsg v n methods ++ authMsg av ul cfg.username pl cfg.password ++
          requestMsg rv 0x01 rsv 0x03 (l :: name) ph plo ++ payload)).trace =
      [.counterAdd 1, .poolGet 1, .setDeadline, .read [v, n], .read methods,
       .write [0x05, 0x02], .read [av, ul], .read cfg.username, .read [pl],
       .read cfg.password, .write [0x01, 0x00], .read [rv, 0x01, rsv, 0x03],
       .read [l], .read name, .read [ph, plo],
       .dial (if (58 : Byte) ∈ name
              then ascii "[" ++ name ++ ascii "]:" ++ decimal (portOf ph plo)
              else name ++ ascii ":" ++ decimal (portOf ph plo)) ok] ++ tl := by
  rw [run_complete cfg env v n methods av ul pl rv rsv 0x03 ph plo (l :: name) payload
      hcap hm hu hp (by simp [addrComplete, hl])]
  have htgt : targetOf 0x03 (l :: name) = name := by simp [targetOf]
  have hrd : addrReads 0x03 (l :: name) = [.read [l], .read name] := by simp [addrReads]
  rw [htgt, hrd]
  unfold joinHostPort
  split_ifs with hd hc
  · exact ⟨true, [.write replySuccess, .clearDeadline, .poolGet 2], by simp⟩
  · exact ⟨false, [.write replyFailure, .close, .poolPut 1, .counterAdd (-1)], by simp⟩
  · exact ⟨true, [.write replySuccess, .clearDeadline, .poolGet 2], by simp⟩
  · exact ⟨false, [.write replyFailure, .close, .poolPut 1, .counterAdd (-1)], by simp⟩

/-- Witness for C10 (amended): the name `a.io` with port 443. -/
theorem C10_domain_target_witness :
    (255 ≤ defaultCfg.bufsize ∧ [(0x00 : Byte)].length = (0x01 : Byte).val ∧
      defaultCfg.username.length = (0x05 : Byte).val ∧
      defaultCfg.password.length = (0x05 : Byte).val ∧
      (ascii "a.io").length = (0x04 : Byte).val) ∧
    ∃ ok tl, (handshake defaultCfg (envOf true)
        (greetingMsg 0x05 0x01 [0x00] ++
          authMsg 0x01 0x05 defaultCfg.username 0x05 defaultCfg.password ++
          requestMsg 0x05 0x01 0x00 0x03 (0x04 :: ascii "a.io") 0x01 0xBB ++ [])).trace =
      [.counterAdd 1, .poolGet 1, .setDeadline, .read [0x05, 0x01], .read [0x00],
       .write [0x05, 0x02], .read [0x01, 0x05], .read defaultCfg.username, .read [0x05],
       .read defaultCfg.password, .write [0x01, 0x00], .read [0x05, 0x01, 0x00, 0x03],
       .read [0x04], .read (ascii "a.io"), .read [0x01, 0xBB],
       .dial (if (58 : Byte) ∈ ascii "a.io"
              then ascii "[" ++ ascii "a.io" ++ ascii "]:" ++ decimal (portOf 0x01 0xBB)
              else ascii "a.io" ++ ascii ":" ++ decimal (portOf 0x01 0xBB)) ok] ++ tl :=
  ⟨by decide,
   C10_domain_target defaultCfg (envOf true) 0x05 0x01 [0x00] 0x01 0x05 0x05 0x05 0x00
     0x04 0x01 0xBB (ascii "a.io") [] (by decide) (by decide) (by decide) (by decide)
     (by decide)⟩

/-! ## Ports and decimal numerals -/

theorem portOf_eq (h l : Byte) : portOf h l = 256 * h.val + l.val := by
  unfold portOf
  rw [Nat.shiftLeft_eq, Nat.mul_comm]
  exact (Nat.mul_add_lt_is_or (i := 8) l.isLt h.val).symm

theorem digitChar_val (k : Nat) (hk : k < 10) :
    (Fin.ofNat (Nat.digitChar k).toNat : Byte).val = 48 + k := by
  interval_cases k <;> rfl

theorem parse_acc (bs : List Byte) (a : Nat) :
    bs.foldl (fun acc b => acc * 10 + (b.val - 48)) a =
      a * 10 ^ bs.length + parseDecimal bs := by
  unfold parseDecimal
  induction bs generalizing a with
  | nil => simp
  | cons b bs ih =>
    simp only [List.foldl_cons, List.length_cons]
    rw [ih (a * 10 + (b.val - 48)), ih (0 * 10 + (b.val - 48))]
    ring

theorem parse_cons (b : Byte) (bs : List Byte) :
    parseDecimal (b :: bs) = (b.val - 48) * 10 ^ bs.length + parseDecimal bs := by
  have h := parse_acc bs (0 * 10 + (b.val - 48))
  simpa [parseDecimal] using h

theorem parse_toDigitsCore (fuel n : Nat) (ds : List Char) (hn : n < fuel) :
    parseDecimal ((Nat.toDigitsCore 10 fuel n ds).map fun c => Fin.ofNat c.toNat) =
      n * 10 ^ ds.length + parseDecimal (ds.map fun c => Fin.ofNat c.toNat) := by
  induction fuel generalizing n ds with
  | zero => omega
  | succ fuel ih =>
    unfold Nat.toDigitsCore
    dsimp only
    have hd := digitChar_val (n % 10) (Nat.mod_lt _ (by omega))
    split_ifs with h0
    · have hlt : n < 10 := by omega
      rw [List.map_cons, parse_cons, hd, Nat.mod_eq_of_lt hlt]
      simp
    · rw [ih (n / 10) (Nat.digitChar (n % 10) :: ds) (by omega), List.map_cons, parse_cons, hd]
      simp only [List.length_cons, List.length_map, Nat.add_sub_cancel_left, pow_succ]
      have e : n * 10 ^ ds.length =
          n / 10 * (10 ^ ds.length * 10) + n % 10 * 10 ^ ds.length := by
        have hdm := Nat.div_add_mod n 10
        generalize n / 10 = q at hdm ⊢
        generalize n % 10 = r at hdm ⊢
        subst hdm
        ring
      rw [e]
      ring

theorem parse_decimal (n : Nat) : parseDecimal (decimal n) = n := by
  unfold decimal Nat.toDigits
  rw [parse_toDigitsCore (n + 1) n [] (by omega)]
  simp [parseDecimal]

theorem digits_toDigitsCore (fuel n : Nat) (ds : List Char)
    (hds : ∀ b ∈ ds.map (fun c => (Fin.ofNat c.toNat : Byte)), 48 ≤ b.val ∧ b.val ≤ 57) :
    ∀ b ∈ (Nat.toDigitsCore 10 fuel n ds).map (fun c => (Fin.ofNat c.toNat : Byte)),
      48 ≤ b.val ∧ b.val ≤ 57 := by
  induction fuel generalizing n ds with
  | zero => simpa [Nat.toDigitsCore] using hds
  | succ fuel ih =>
    have hd := digitChar_val (n % 10) (Nat.mod_lt _ (by omega))
    have hlt : n % 10 < 10 := Nat.mod_lt _ (by omega)
    have hcons : ∀ b ∈ (Nat.digitChar (n % 10) :: ds).map (fun c => (Fin.ofNat c.toNat : Byte)),
        48 ≤ b.val ∧ b.val ≤ 57 := by
      intro b hb
      rw [List.map_cons, List.mem_cons] at hb
      rcases hb with hb | hb
      · rw [hb, hd]
        omega
      · exact hds b hb
    unfold Nat.toDigitsCore
    dsimp only
    split_ifs with h0
    · exact hcons
    · exact ih (n / 10) _ hcons

theorem digits_decimal (n : Nat) : ∀ b ∈ decimal n, 48 ≤ b.val ∧ b.val ≤ 57 := by
  unfold decimal Nat.toDigits
  exact digits_toDigitsCore (n + 1) n [] (by simp)

theorem head_toDigitsCore (fuel n : Nat) (ds : List Char) (hn : n < fuel) (h0 : n ≠ 0) :
    ∃ b tl, (Nat.toDigitsCore 10 fuel n ds).map (fun c => (Fin.ofNat c.toNat : Byte)) = b :: tl ∧
      b.val ≠ 48 := by
  induction fuel generalizing n ds with
  | zero => omega
  | succ fuel ih =>
    unfold Nat.toDigitsCore
    dsimp only
    split_ifs with hz
    · have hlt : n < 10 := by omega
      refine ⟨_, _, List.map_cons _ _ _, ?_⟩
      rw [digitChar_val (n % 10) (Nat.mod_lt _ (by omega)), Nat.mod_eq_of_lt hlt]
      omega
    · exact ih (n / 10) _ (by omega) hz

theorem head_decimal (n : Nat) (h0 : n ≠ 0) : ∃ b tl, decimal n = b :: tl ∧ b.val ≠ 48 := by
  unfold decimal Nat.toDigits
  exact head_toDigitsCore (n + 1) n [] (by omega) h0

/-! ## IPv6 address text -/

theorem colon_mem_string6 (ip : List Byte) : (58 : Byte) ∈ string6 ip := by
  have hc : (58 : Byte) ∈ ascii ":" := by decide
  have hcc : (58 : Byte) ∈ ascii "::" := by decide
  unfold string6
  generalize (findZeros ip).1 = zs
  generalize (findZeros ip).2 = ze
  by_cases h0 : 0 = zs
  · by_cases he : ze ≥ 8
    · simp [emit6, ← h0, he, hcc]
    · simp [emit6, ← h0, he, hcc]
  · by_cases h1 : 1 = zs
    · by_cases he : ze ≥ 8
      · simp [emit6, h0, ← h1, he, hcc]
      · simp [emit6, h0, ← h1, he, hcc]
    · simp [emit6, h0, h1, hc]

theorem ipString_16 (ip : List Byte) (hlen : ip.length = 16) :
    ipString ip =
      if v4Mapped ip then
        dottedQuad (ip.getD 12 0) (ip.getD 13 0) (ip.getD 14 0) (ip.getD 15 0)
      else string6 ip := by
  unfold ipString to4
  rw [if_neg (by omega), if_neg (by omega), if_neg (by omega)]
  by_cases hm : v4Mapped ip = true
  · have hm' := hm
    simp only [v4Mapped, Bool.and_eq_true, beq_iff_eq] at hm'
    rw [if_pos ⟨hlen, hm'.1.1, hm'.1.2, hm'.2⟩, if_pos hm]
    simp [string4, dottedQuad, ascii_append, appendDecimal_eq, List.getD_eq_getElem?_getD,
      List.getElem?_drop]
  · have hm' := hm
    simp only [v4Mapped, Bool.and_eq_true, beq_iff_eq, not_and] at hm'
    rw [if_neg (fun h => hm'  ⟨h.2.1, h.2.2.1⟩ h.2.2.2), if_neg hm]

theorem colon_not_mem_dottedQuad (a b c d : Byte) : (58 : Byte) ∉ dottedQuad a b c d := by
  rw [← ipString_quad]
  exact colon_not_mem_ipString_quad a b c d

/-- C11 (as stated, refuted): for the sixteen address bytes of the IPv4-mapped
form `::ffff:1.2.3.4` and port 80 the address dialled is `1.2.3.4:80`, which is
not a bracketed IPv6 text. -/
theorem C11_counterexample :
    dials (handshake defaultCfg (envOf false)
        (adminSession (requestMsg 0x05 0x01 0x00 0x04
          [0, 0, 0, 0, 0, 0, 0, 0, 0, 0, 0xFF, 0xFF, 1, 2, 3, 4] 0x00 0x50))).trace =
      [ascii "1.2.3.4:80"] ∧
    dials (handshake defaultCfg (envOf false)
        (adminSession (requestMsg 0x05 0x01 0x00 0x04
          [0, 0, 0, 0, 0, 0, 0, 0, 0, 0, 0xFF, 0xFF, 1, 2, 3, 4] 0x00 0x50))).trace ≠
      [ascii "[::ffff:1.2.3.4]:80"] ∧
    dials (handshake defaultCfg (envOf false)
        (adminSession (requestMsg 0x05 0x01 0x00 0x04
          [0, 0, 0, 0, 0, 0, 0, 0, 0, 0, 0xFF, 0xFF, 1, 2, 3, 4] 0x00 0x50))).trace ≠
      [ascii "[" ++ string6 [0, 0, 0, 0, 0, 0, 0, 0, 0, 0, 0xFF, 0xFF, 1, 2, 3, 4] ++
        ascii "]:" ++ decimal (portOf 0x00 0x50)] := by
  decide

/-- C11 (amended): in an authenticated CONNECT request of address type `0x04`
the handler takes exactly the sixteen address bytes, then the two port bytes.
Unless the sixteen bytes have the IPv4-mapped form, it dials `[H]:P` where `H`
is their colon-hexadecimal IPv6 text (for instance `::1` and `2001:db8::1`) and
`P` the decimal port; for the IPv4-mapped form `::ffff:a.b.c.d` it dials the
dotted-decimal IPv4 address `a.b.c.d:P`, without brackets.
The configured buffer size is at least 255, so that no slice expression of
the handshake is out of range. -/
theorem C11_ipv6_target (cfg : Config) (env : Env) (v n : Byte) (methods : List Byte)
    (av ul pl rv rsv ph plo : Byte) (ip payload : List Byte)
    (hcap : 255 ≤ cfg.bufsize) (hm : methods.length = n.val)
    (hu : cfg.username.length = ul.val) (hp : cfg.password.length = pl.val)
    (hip : ip.length = 16) :
    (∃ ok tl, (handshake cfg env
        (greetingMsg v n methods ++ authMsg av ul cfg.username pl cfg.password ++
          requestMsg rv 0x01 rsv 0x04 ip ph plo ++ payload)).trace =
      [.counterAdd 1, .poolGet 1, .setDeadline, .read [v, n], .read methods,
       .write [0x05, 0x02], .read [av, ul], .read cfg.username, .read [pl],
       .read cfg.password, .write [0x01, 0x00], .read [rv, 0x01, rsv, 0x04],
       .read ip, .read [ph, plo],
       .dial (if v4Mapped ip
              then dottedQuad (ip.getD 12 0) (ip.getD 13 0) (ip.getD 14 0) (ip.getD 15 0) ++
                ascii ":" ++ decimal (portOf ph plo)
              else ascii "[" ++ string6 ip ++ ascii "]:" ++ decimal (portOf ph plo)) ok] ++ tl) ∧
    string6 [0, 0, 0, 0, 0, 0, 0, 0, 0, 0, 0, 0, 0, 0, 0, 1] = ascii "::1" ∧
    string6 [0x20, 0x01, 0x0D, 0xB8, 0, 0, 0, 0, 0, 0, 0, 0, 0, 0, 0, 1] =
      ascii "2001:db8::1" := by
  refine ⟨?_, by decide, by decide⟩
  rw [run_complete cfg env v n methods av ul pl rv rsv 0x04 ph plo ip payload
      hcap hm hu hp (by simp [addrComplete, hip])]
  have htgt : targetOf 0x04 ip = ipString ip := by simp [targetOf]
  have hrd : addrReads 0x04 ip = [.read ip] := by simp [addrReads]
  have hjoin : joinHostPort (ipString ip) (decimal (portOf ph plo)) =
      if v4Mapped ip
      then dottedQuad (ip.getD 12 0) (ip.getD 13 0) (ip.getD 14 0) (ip.getD 15 0) ++
        ascii ":" ++ decimal (portOf ph plo)
      else ascii "[" ++ string6 ip ++ ascii "]:" ++ decimal (portOf ph plo) := by
    rw [ipString_16 ip hip]
    unfold joinHostPort
    by_cases hmap : v4Mapped ip = true
    · rw [if_pos hmap, if_pos hmap, if_neg (colon_not_mem_dottedQuad _ _ _ _)]
    · rw [if_neg hmap, if_neg hmap, if_pos (colon_mem_string6 ip)]
  rw [htgt, hrd, hjoin]
  split_ifs with hd hmap
  · exact ⟨true, [.write replySuccess, .clearDeadline, .poolGet 2], by simp⟩
  · exact ⟨false, [.write replyFailure, .close, .poolPut 1, .counterAdd (-1)], by simp⟩
  · exact ⟨true, [.write replySuccess, .clearDeadline, .poolGet 2], by simp⟩
  · exact ⟨false, [.write replyFailure, .close, .poolPut 1, .counterAdd (-1)], by simp⟩

/-- Witness for C11 (amended): the loopback address `::1` with port 80. -/
theorem C11_ipv6_target_witness :
    (255 ≤ defaultCfg.bufsize ∧ [(0x00 : Byte)].length = (0x01 : Byte).val ∧
      defaultCfg.username.length = (0x05 : Byte).val ∧
      defaultCfg.password.length = (0x05 : Byte).val ∧
      [(0 : Byte), 0, 0, 0, 0, 0, 0, 0, 0, 0, 0, 0, 0, 0, 0, 1].length = 16) ∧
    ∃ ok tl, (handshake defaultCfg (envOf true)
        (greetingMsg 0x05 0x01 [0x00] ++
          authMsg 0x01 0x05 defaultCfg.username 0x05 defaultCfg.password ++
          requestMsg 0x05 0x01 0x00 0x04 [0, 0, 0, 0, 0, 0, 0, 0, 0, 0, 0, 0, 0, 0, 0, 1]
            0x00 0x50 ++ [])).trace =
      [.counterAdd 1, .poolGet 1, .setDeadline, .read [0x05, 0x01], .read [0x00],
       .write [0x05, 0x02], .read [0x01, 0x05], .read defaultCfg.username, .read [0x05],
       .read defaultCfg.password, .write [0x01, 0x00], .read [0x05, 0x01, 0x00, 0x04],
       .read [0, 0, 0, 0, 0, 0, 0, 0, 0, 0, 0, 0, 0, 0, 0, 1], .read [0x00, 0x50],
       .dial (if v4Mapped [0, 0, 0, 0, 0, 0, 0, 0, 0, 0, 0, 0, 0, 0, 0, 1]
              then dottedQuad
                  (([0, 0, 0, 0, 0, 0, 0, 0, 0, 0, 0, 0, 0, 0, 0, 1] : List Byte).getD 12 0)
                  (([0, 0, 0, 0, 0, 0, 0, 0, 0, 0, 0, 0, 0, 0, 0, 1] : List Byte).getD 13 0)
                  (([0, 0, 0, 0, 0, 0, 0, 0, 0, 0, 0, 0, 0, 0, 0, 1] : List Byte).getD 14 0)
                  (([0, 0, 0, 0, 0, 0, 0, 0, 0, 0, 0, 0, 0, 0, 0, 1] : List Byte).getD 15 0) ++
                ascii ":" ++ decimal (portOf 0x00 0x50)
              else ascii "[" ++ string6 [0, 0, 0, 0, 0, 0, 0, 0, 0, 0, 0, 0, 0, 0, 0, 1] ++
                ascii "]:" ++ decimal (portOf 0x00 0x50)) ok] ++ tl :=
  ⟨by decide,
   (C11_ipv6_target defaultCfg (envOf true) 0x05 0x01 [0x00] 0x01 0x05 0x05 0x05 0x00
     0x00 0x50 [0, 0, 0, 0, 0, 0, 0, 0, 0, 0, 0, 0, 0, 0, 0, 1] [] (by decide) (by decide)
     (by decide) (by decide) (by decide)).1⟩

/-- C12: in every complete CONNECT request the two bytes `h, l` read right
after the address field (right after the header when the address type is not
recognised) form the port in big-endian order: the port of the dial address is
`256 * h + l`, at most 65535, written as an unsigned decimal numeral without
leading zero, and different pairs `(h, l)` give different ports.
The configured buffer size is at least 255, so that no slice expression of
the handshake is out of range. -/
theorem C12_port (cfg : Config) (env : Env) (v n : Byte) (methods : List Byte)
    (av ul pl rv rsv atyp h l : Byte) (field payload : List Byte)
    (hcap : 255 ≤ cfg.bufsize) (hm : methods.length = n.val)
    (hu : cfg.username.length = ul.val) (hp : cfg.password.length = pl.val)
    (hwf : addrComplete atyp field = true) :
    (∃ ok tl, (handshake cfg env
        (greetingMsg v n methods ++ authMsg av ul cfg.username pl cfg.password ++
          requestMsg rv 0x01 rsv atyp field h l ++ payload)).trace =
      [.counterAdd 1, .poolGet 1, .setDeadline, .read [v, n], .read methods,
       .write [0x05, 0x02], .read [av, ul], .read cfg.username, .read [pl],
       .read cfg.password, .write [0x01, 0x00], .read [rv, 0x01, rsv, atyp]] ++
       addrReads atyp field ++
      [.read [h, l],
       .dial (joinHostPort (targetOf atyp field) (decimal (256 * h.val + l.val))) ok] ++ tl) ∧
    portOf h l = 256 * h.val + l.val ∧
    256 * h.val + l.val ≤ 65535 ∧
    (∀ b ∈ decimal (256 * h.val + l.val), 48 ≤ b.val ∧ b.val ≤ 57) ∧
    (256 * h.val + l.val ≠ 0 →
      ∃ b tl, decimal (256 * h.val + l.val) = b :: tl ∧ b.val ≠ 48) ∧
    (256 * h.val + l.val = 0 → decimal (256 * h.val + l.val) = [48]) ∧
    parseDecimal (decimal (256 * h.val + l.val)) = 256 * h.val + l.val ∧
    (∀ h' l' : Byte, portOf h' l' = portOf h l → h' = h ∧ l' = l) := by
  refine ⟨?_, portOf_eq h l, ?_, digits_decimal _, head_decimal _, ?_, parse_decimal _, ?_⟩
  · rw [run_complete cfg env v n methods av ul pl rv rsv atyp h l field payload
        hcap hm hu hp hwf, portOf_eq]
    split_ifs
    · exact ⟨true, [.write replySuccess, .clearDeadline, .poolGet 2], by simp⟩
    · exact ⟨false, [.write replyFailure, .close, .poolPut 1, .counterAdd (-1)], by simp⟩
  · have := h.isLt
    have := l.isLt
    omega
  · intro h0
    rw [h0]
    decide
  · intro h' l' he
    rw [portOf_eq, portOf_eq] at he
    have := l.isLt
    have := l'.isLt
    constructor
    · apply Fin.ext
      omega
    · apply Fin.ext
      omega

/-- Witness for C12: port bytes `0x1F, 0x90` after the IPv4 address
`127.0.0.1`. -/
theorem C12_port_witness :
    (255 ≤ defaultCfg.bufsize ∧ [(0x00 : Byte)].length = (0x01 : Byte).val ∧
      defaultCfg.username.length = (0x05 : Byte).val ∧
      defaultCfg.password.length = (0x05 : Byte).val ∧
      addrComplete 0x01 [127, 0, 0, 1] = true) ∧
    portOf 0x1F 0x90 = 256 * (0x1F : Byte).val + (0x90 : Byte).val ∧
    parseDecimal (decimal (256 * (0x1F : Byte).val + (0x90 : Byte).val)) =
      256 * (0x1F : Byte).val + (0x90 : Byte).val :=
  ⟨by decide,
   (C12_port defaultCfg (envOf true) 0x05 0x01 [0x00] 0x01 0x05 0x05 0x05 0x00 0x01
     0x1F 0x90 [127, 0, 0, 1] [] (by decide) (by decide) (by decide) (by decide)
     (by decide)).2.1,
   (C12_port defaultCfg (envOf true) 0x05 0x01 [0x00] 0x01 0x05 0x05 0x05 0x00 0x01
     0x1F 0x90 [127, 0, 0, 1] [] (by decide) (by decide) (by decide) (by decide)
     (by decide)).2.2.2.2.2.2.1⟩

/-! ## Slice bounds -/

theorem readFull_not_oob (cfg : Config) (s s' : St) (n : Nat)
    (hcap : 255 ≤ cfg.bufsize) (hn : n ≤ 255) : readFull cfg s n ≠ .oob s' := by
  unfold readFull
  rw [if_neg (cap_ok cfg n hcap hn)]
  split_ifs <;> simp

theorem connect_no_panic (cfg : Config) (env : Env) (s : St) (target : List Byte)
    (hcap : 255 ≤ cfg.bufsize) : (connect cfg env s target).outcome ≠ .panicked := by
  unfold connect
  cases hr : readFull cfg s 2 with
  | oob s1 => exact absurd hr (readFull_not_oob cfg s s1 2 hcap (by omega))
  | err s1 => simp [doReturn]
  | ok s1 =>
    dsimp only
    split_ifs <;> simp [doEstablished, doReturn]

theorem request_no_panic (cfg : Config) (env : Env) (s : St)
    (hcap : 255 ≤ cfg.bufsize) : (request cfg env s).outcome ≠ .panicked := by
  unfold request
  cases hr : readFull cfg s 4 with
  | oob s1 => exact absurd hr (readFull_not_oob cfg s s1 4 hcap (by omega))
  | err s1 => simp [doReturn]
  | ok s1 =>
    dsimp only
    split_ifs
    · simp [doReturn]
    · cases hr2 : readFull cfg s1 4 with
      | oob s2 => exact absurd hr2 (readFull_not_oob cfg s1 s2 4 hcap (by omega))
      | err s2 => simp [doReturn]
      | ok s2 => exact connect_no_panic cfg env s2 _ hcap
    · cases hr2 : readFull cfg s1 1 with
      | oob s2 => exact absurd hr2 (readFull_not_oob cfg s1 s2 1 hcap (by omega))
      | err s2 => simp [doReturn]
      | ok s2 =>
        dsimp only
        cases hr3 : readFull cfg s2 (s2.buf 0).val with
        | oob s3 => exact absurd hr3 (readFull_not_oob cfg s2 s3 _ hcap (byte_le _))
        | err s3 => simp [doReturn]
        | ok s3 => exact connect_no_panic cfg env s3 _ hcap
    · cases hr2 : readFull cfg s1 16 with
      | oob s2 => exact absurd hr2 (readFull_not_oob cfg s1 s2 16 hcap (by omega))
      | err s2 => simp [doReturn]
      | ok s2 => exact connect_no_panic cfg env s2 _ hcap
    · exact connect_no_panic cfg env s1 _ hcap

theorem auth_no_panic (cfg : Config) (env : Env) (s : St)
    (hcap : 255 ≤ cfg.bufsize) : (auth cfg env s).outcome ≠ .panicked := by
  unfold auth
  cases hr : readFull cfg s 2 with
  | oob s1 => exact absurd hr (readFull_not_oob cfg s s1 2 hcap (by omega))
  | err s1 => simp [doReturn]
  | ok s1 =>
    dsimp only
    cases hr2 : readFull cfg s1 (s1.buf 1).val with
    | oob s2 => exact absurd hr2 (readFull_not_oob cfg s1 s2 _ hcap (byte_le _))
    | err s2 => simp [doReturn]
    | ok s2 =>
      dsimp only
      cases hr3 : readFull cfg s2 1 with
      | oob s3 => exact absurd hr3 (readFull_not_oob cfg s2 s3 1 hcap (by omega))
      | err s3 => simp [doReturn]
      | ok s3 =>
        dsimp only
        cases hr4 : readFull cfg s3 (s3.buf 0).val with
        | oob s4 => exact absurd hr4 (readFull_not_oob cfg s3 s4 _ hcap (byte_le _))
        | err s4 => simp [doReturn]
        | ok s4 =>
          dsimp only
          split_ifs
          · simp [doReturn]
          · exact request_no_panic cfg env _ hcap

theorem greeting_no_panic (cfg : Config) (env : Env) (s : St)
    (hcap : 255 ≤ cfg.bufsize) : (greeting cfg env s).outcome ≠ .panicked := by
  unfold greeting
  cases hr : readFull cfg s 2 with
  | oob s1 => exact absurd hr (readFull_not_oob cfg s s1 2 hcap (by omega))
  | err s1 => simp [doReturn]
  | ok s1 =>
    dsimp only
    cases hr2 : readFull cfg s1 (s1.buf 1).val with
    | oob s2 => exact absurd hr2 (readFull_not_oob cfg s1 s2 _ hcap (byte_le _))
    | err s2 => simp [doReturn]
    | ok s2 => exact auth_no_panic cfg env _ hcap

/-- A complete greeting and a complete authentication message, whatever the
credentials. -/
theorem run_auth (cfg : Config) (env : Env) (v n : Byte) (methods : List Byte)
    (av ul pl : Byte) (user pass rest : List Byte)
    (hcap : 255 ≤ cfg.bufsize) (hm : methods.length = n.val)
    (hu : user.length = ul.val) (hp : pass.length = pl.val) :
    ∃ b, handshake cfg env (greetingMsg v n methods ++ authMsg av ul user pl pass ++ rest) =
      if user ≠ cfg.username ∨ pass ≠ cfg.password then
        { outcome := .returned,
          trace := [.counterAdd 1, .poolGet 1, .setDeadline, .read [v, n], .read methods,
                    .write [0x05, 0x02], .read [av, ul], .read user, .read [pl], .read pass,
                    .write [0x01, 0x01], .close, .poolPut 1, .counterAdd (-1)],
          rest := rest, pending := [] }
      else
        request cfg env
          { input := rest, buf := b,
            trace := [.counterAdd 1, .poolGet 1, .setDeadline, .read [v, n], .read methods,
                      .write [0x05, 0x02], .read [av, ul], .read user, .read [pl], .read pass,
                      .write [0x01, 0x00]],
            defers := [.poolPut 1, .counterAdd (-1)] } := by
  obtain ⟨b, hb⟩ := run_greeting cfg env v n methods (authMsg av ul user pl pass ++ rest)
    hcap hm
  rw [List.append_assoc, hb,
    auth_complete cfg env _ av ul pl user pass rest hcap hu hp (by simp [authMsg])]
  exact ⟨store pass (store [pl] (store user (store [av, ul] b))), by simp⟩

/-- C18: the handshake slices its pooled buffer by client-supplied lengths
without comparing them with the buffer size. With a configured buffer size of at
least 255 no run of the handshake panics, whatever the client sends; with any
configured buffer size below 255 the greeting `[0x05, 0xFF]` (255 methods
announced) makes the handler panic, for a non-negative size at a slice
expression evaluated after the buffer was acquired. -/
theorem C18_slice_bounds (cfg : Config) (env : Env) :
    (255 ≤ cfg.bufsize →
      ∀ input : List Byte, (handshake cfg env input).outcome ≠ .panicked) ∧
    (cfg.bufsize < 255 →
      (handshake cfg env [0x05, 0xFF]).outcome = .panicked ∧
      (0 ≤ cfg.bufsize → Event.poolGet 1 ∈ (handshake cfg env [0x05, 0xFF]).trace) ∧
      (2 ≤ cfg.bufsize →
        (handshake cfg env [0x05, 0xFF]).trace =
          [.counterAdd 1, .poolGet 1, .setDeadline, .read [0x05, 0xFF],
           .poolPut 1, .counterAdd (-1)])) := by
  constructor
  · intro hcap input
    rw [handshake_start cfg env input hcap]
    exact greeting_no_panic cfg env _ hcap
  · intro hlt
    by_cases hneg : cfg.bufsize < 0
    · refine ⟨?_, fun h => absurd h (by omega), fun h => absurd h (by omega)⟩
      unfold handshake
      dsimp only
      rw [if_pos hneg]
      rfl
    · have hstart : handshake cfg env [0x05, 0xFF] =
          greeting cfg env
            { input := [0x05, 0xFF], buf := env.stale,
              trace := [.counterAdd 1, .poolGet 1, .setDeadline],
              defers := [.poolPut 1, .counterAdd (-1)] } := by
        unfold handshake
        dsimp only
        rw [if_neg hneg]
        rfl
      rw [hstart]
      by_cases h2 : cfg.bufsize.toNat < 2
      · have hr : readFull cfg
            { input := [0x05, 0xFF], buf := env.stale,
              trace := [.counterAdd 1, .poolGet 1, .setDeadline],
              defers := [.poolPut 1, .counterAdd (-1)] } 2 =
            .oob { input := [0x05, 0xFF], buf := env.stale,
                   trace := [.counterAdd 1, .poolGet 1, .setDeadline],
                   defers := [.poolPut 1, .counterAdd (-1)] } := by
          unfold readFull
          rw [if_pos h2]
        unfold greeting
        rw [hr]
        refine ⟨rfl, fun _ => by simp [doPanic], fun h => absurd h (by omega)⟩
      · have hr : readFull cfg
            { input := [0x05, 0xFF], buf := env.stale,
              trace := [.counterAdd 1, .poolGet 1, .setDeadline],
              defers := [.poolPut 1, .counterAdd (-1)] } 2 =
            .ok { input := [], buf := store [0x05, 0xFF] env.stale,
                  trace := [.counterAdd 1, .poolGet 1, .setDeadline, .read [0x05, 0xFF]],
                  defers := [.poolPut 1, .counterAdd (-1)] } := by
          unfold readFull
          rw [if_neg h2]
          simp
        have hb : store [0x05, 0xFF] env.stale 1 = 0xFF := rfl
        have hr2 : readFull cfg
            { input := [], buf := store [0x05, 0xFF] env.stale,
              trace := [.counterAdd 1, .poolGet 1, .setDeadline, .read [0x05, 0xFF]],
              defers := [.poolPut 1, .counterAdd (-1)] } (0xFF : Byte).val =
            .oob { input := [], buf := store [0x05, 0xFF] env.stale,
                   trace := [.counterAdd 1, .poolGet 1, .setDeadline, .read [0x05, 0xFF]],
                   defers := [.poolPut 1, .counterAdd (-1)] } := by
          unfold readFull
          have h255 : (0xFF : Byte).val = 255 := rfl
          rw [if_pos (by omega)]
        unfold greeting
        rw [hr]
        dsimp only
        rw [hb, hr2]
        exact ⟨rfl, fun _ => by simp [doPanic], fun _ => by simp [doPanic]⟩

/-- Witness for C18: the default buffer of 65536 bytes with an arbitrary input,
and a buffer of 64 bytes with the greeting `[0x05, 0xFF]`. -/
theorem C18_slice_bounds_witness :
    ((255 : Int) ≤ 65536 ∧ (64 : Int) < 255) ∧
    (handshake defaultCfg (envOf true) [0x05, 0xFF, 0x00]).outcome ≠ .panicked ∧
    (handshake { username := [], password := [], bufsize := 64 } (envOf true)
      [0x05, 0xFF]).outcome = .panicked :=
  ⟨by decide,
   (C18_slice_bounds defaultCfg (envOf true)).1 (by decide) [0x05, 0xFF, 0x00],
   ((C18_slice_bounds { username := [], password := [], bufsize := 64 } (envOf true)).2
     (by decide)).1⟩

/-- C20: a received username or password has at most 255 bytes, so when the
configured username or the configured password is longer than 255 bytes every
complete authentication message is answered with `[0x01, 0x01]` and the
transport is closed; and when both configured values are empty, the
authentication message with ULEN 0 and PLEN 0 is accepted: `[0x01, 0x00]` is
written and the handler goes on to read the request.
The configured buffer size is at least 255, so that no slice expression of
the handshake is out of range. -/
theorem C20_credential_lengths (cfg : Config) (env : Env) (v n : Byte)
    (methods : List Byte) (av : Byte) (rest : List Byte)
    (hcap : 255 ≤ cfg.bufsize) (hm : methods.length = n.val) :
    ((255 < cfg.username.length ∨ 255 < cfg.password.length) →
      ∀ (ul pl : Byte) (user pass : List Byte), user.length = ul.val → pass.length = pl.val →
        handshake cfg env (greetingMsg v n methods ++ authMsg av ul user pl pass ++ rest) =
          { outcome := .returned,
            trace := [.counterAdd 1, .poolGet 1, .setDeadline, .read [v, n], .read methods,
                      .write [0x05, 0x02], .read [av, ul], .read user, .read [pl], .read pass,
                      .write [0x01, 0x01], .close, .poolPut 1, .counterAdd (-1)],
            rest := rest, pending := [] }) ∧
    (cfg.username = [] → cfg.password = [] →
      ∃ tl, (handshake cfg env
          (greetingMsg v n methods ++ authMsg av 0x00 [] 0x00 [] ++ rest)).trace =
        [.counterAdd 1, .poolGet 1, .setDeadline, .read [v, n], .read methods,
         .write [0x05, 0x02], .read [av, 0x00], .read [], .read [0x00], .read [],
         .write [0x01, 0x00], .read (rest.take 4)] ++ tl) := by
  constructor
  · intro hlong ul pl user pass hu hp
    obtain ⟨b, hb⟩ := run_auth cfg env v n methods av ul pl user pass rest hcap hm hu hp
    have hne : user ≠ cfg.username ∨ pass ≠ cfg.password := by
      have hul := byte_le ul
      have hpl := byte_le pl
      rcases hlong with h | h
      · left
        intro he
        rw [← he] at h
        omega
      · right
        intro he
        rw [← he] at h
        omega
    rw [hb, if_pos hne]
  · intro hu0 hp0
    obtain ⟨b, hb⟩ := run_auth cfg env v n methods av 0x00 0x00 [] [] rest hcap hm rfl rfl
    rw [hb, if_neg (by simp [hu0, hp0])]
    obtain ⟨tl, htl⟩ := request_reads_first cfg env
      { input := rest, buf := b,
        trace := [.counterAdd 1, .poolGet 1, .setDeadline, .read [v, n], .read methods,
                  .write [0x05, 0x02], .read [av, 0x00], .read [], .read [0x00], .read [],
                  .write [0x01, 0x00]],
        defers := [.poolPut 1, .counterAdd (-1)] } hcap
    exact ⟨tl, by simpa using htl⟩

/-- Witness for C20: a configured username of 256 bytes against the attempt
`admin`/`admin`, and empty configured credentials against the empty attempt. -/
theorem C20_credential_lengths_witness :
    ((255 : Int) ≤ 65536 ∧ [(0x00 : Byte)].length = (0x01 : Byte).val ∧
      (255 < (List.replicate 256 (0x61 : Byte)).length ∨ 255 < (ascii "admin").length) ∧
      (ascii "admin").length = (0x05 : Byte).val) ∧
    handshake { username := List.replicate 256 0x61, password := ascii "admin",
                bufsize := 65536 } (envOf true)
        (greetingMsg 0x05 0x01 [0x00] ++
          authMsg 0x01 0x05 (ascii "admin") 0x05 (ascii "admin") ++ []) =
      { outcome := .returned,
        trace := [.counterAdd 1, .poolGet 1, .setDeadline, .read [0x05, 0x01], .read [0x00],
                  .write [0x05, 0x02], .read [0x01, 0x05], .read (ascii "admin"),
                  .read [0x05], .read (ascii "admin"),
                  .write [0x01, 0x01], .close, .poolPut 1, .counterAdd (-1)],
        rest := [], pending := [] } ∧
    ∃ tl, (handshake { username := [], password := [], bufsize := 65536 } (envOf true)
        (greetingMsg 0x05 0x01 [0x00] ++ authMsg 0x01 0x00 [] 0x00 [] ++ [])).trace =
      [.counterAdd 1, .poolGet 1, .setDeadline, .read [0x05, 0x01], .read [0x00],
       .write [0x05, 0x02], .read [0x01, 0x00], .read [], .read [0x00], .read [],
       .write [0x01, 0x00], .read (([] : List Byte).take 4)] ++ tl :=
  ⟨⟨by decide, by decide, Or.inl (Nat.lt_of_lt_of_eq (by decide : 255 < 256) (List.length_replicate 256 _).symm), by decide⟩,
   (C20_credential_lengths
     { username := List.replicate 256 0x61, password := ascii "admin", bufsize := 65536 }
     (envOf true) 0x05 0x01 [0x00] 0x01 [] (by decide) (by decide)).1 (Or.inl (Nat.lt_of_lt_of_eq (by decide : 255 < 256) (List.length_replicate 256 _).symm))
     0x05 0x05 (ascii "admin") (ascii "admin") (by decide) (by decide),
   (C20_credential_lengths { username := [], password := [], bufsize := 65536 }
     (envOf true) 0x05 0x01 [0x00] 0x01 [] (by decide) (by decide)).2 rfl rfl⟩

/-! ## Independence from the unchecked bytes -/

theorem connect_eq (cfg : Config) (env : Env) (s : St) (target : List Byte) :
    connect cfg env s target =
      readThen cfg s 2 fun s =>
        if env.dial (joinHostPort target (decimal (portOf (s.buf 0) (s.buf 1)))) then
          doEstablished
            ((((connWrite (s.log (.dial (joinHostPort target
                (decimal (portOf (s.buf 0) (s.buf 1)))) true)) replySuccess).log
              .clearDeadline).log (.poolGet 2)).defer (.poolPut 2))
        else
          doReturn (connClose (connWrite (s.log (.dial (joinHostPort target
            (decimal (portOf (s.buf 0) (s.buf 1)))) false)) replyFailure)) := by
  unfold connect readThen
  rfl

theorem request_eq (cfg : Config) (env : Env) (s : St) :
    request cfg env s =
      readThen cfg s 4 fun s =>
        if s.buf 1 ≠ 0x01 then doReturn (connClose s)
        else if s.buf 3 = 0x01 then
          readThen cfg s 4 fun s => connect cfg env s (ipString (slice s.buf 4))
        else if s.buf 3 = 0x03 then
          readThen cfg s 1 fun s =>
            readThen cfg s (s.buf 0).val fun s2 =>
              connect cfg env s2 (slice s2.buf (s.buf 0).val)
        else if s.buf 3 = 0x04 then
          readThen cfg s 16 fun s => connect cfg env s (ipString (slice s.buf 16))
        else connect cfg env s [] := by
  unfold request readThen
  rfl

theorem auth_eq (cfg : Config) (env : Env) (s : St) :
    auth cfg env s =
      readThen cfg s 2 fun s1 =>
        readThen cfg s1 (s1.buf 1).val fun s2 =>
          readThen cfg s2 1 fun s3 =>
            readThen cfg s3 (s3.buf 0).val fun s4 =>
              if slice s2.buf (s1.buf 1).val ≠ cfg.username ∨
                  slice s4.buf (s3.buf 0).val ≠ cfg.password then
                doReturn (connClose (connWrite s4 [0x01, 0x01]))
              else request cfg env (connWrite s4 [0x01, 0x00]) := by
  unfold auth readThen
  rfl

theorem greeting_eq (cfg : Config) (env : Env) (s : St) :
    greeting cfg env s =
      readThen cfg s 2 fun s1 =>
        readThen cfg s1 (s1.buf 1).val fun s2 => auth cfg env (connWrite s2 [0x05, 0x02]) := by
  unfold greeting readThen
  rfl

theorem observed_return (s s' : St) (h : SameObs s s') :
    observed (doReturn (connClose s)) = observed (doReturn (connClose s')) := by
  obtain ⟨hw, hd, hf⟩ := h
  simp [observed, doReturn, connClose, St.log, written_append, dials_append, hw, hd, hf]

theorem observed_panic (s s' : St) (h : SameObs s s') :
    observed (doPanic s) = observed (doPanic s') := by
  obtain ⟨hw, hd, hf⟩ := h
  simp [observed, doPanic, written_append, dials_append, hw, hd, hf]

theorem sameObs_read (s s' : St) (h : SameObs s s') (i i' bs bs' : List Byte)
    (b b' : Nat → Byte) :
    SameObs { input := i, buf := b, trace := s.trace ++ [.read bs], defers := s.defers }
      { input := i', buf := b', trace := s'.trace ++ [.read bs'], defers := s'.defers } := by
  obtain ⟨hw, hd, hf⟩ := h
  exact ⟨by simp [written_append, written, hw], by simp [dials_append, dials, hd], hf⟩

theorem sameObs_write (s s' : St) (h : SameObs s s') (bs : List Byte) :
    SameObs (connWrite s bs) (connWrite s' bs) := by
  obtain ⟨hw, hd, hf⟩ := h
  exact ⟨by simp [connWrite, St.log, written_append, written, hw],
    by simp [connWrite, St.log, dials_append, dials, hd], hf⟩

theorem readThen_obs (cfg : Config) (s s' : St) (n : Nat) (k k' : St → Result)
    (h : SameObs s s') (hlen : s.input.length = s'.input.length)
    (hk : n ≤ s.input.length →
      observed (k { input := s.input.drop n, buf := store (s.input.take n) s.buf,
                    trace := s.trace ++ [.read (s.input.take n)], defers := s.defers }) =
      observed (k' { input := s'.input.drop n, buf := store (s'.input.take n) s'.buf,
                     trace := s'.trace ++ [.read (s'.input.take n)],
                     defers := s'.defers })) :
    observed (readThen cfg s n k) = observed (readThen cfg s' n k') := by
  unfold readThen readFull
  by_cases hc : cfg.bufsize.toNat < n
  · rw [if_pos hc, if_pos hc]
    exact observed_panic s s' h
  · rw [if_neg hc, if_neg hc]
    by_cases hn : n ≤ s.input.length
    · rw [if_pos hn, if_pos (hlen ▸ hn)]
      exact hk hn
    · rw [if_neg hn, if_neg (hlen ▸ hn)]
      exact observed_return _ _ (sameObs_read s s' h _ _ _ _ _ _)

theorem store_take (inp : List Byte) (buf : Nat → Byte) (n i : Nat)
    (hi : i < n) (hn : n ≤ inp.length) :
    store (inp.take n) buf i = inp.getD i 0 := by
  have h1 : i < (inp.take n).length := by simp; omega
  have h2 : i < inp.length := by omega
  simp [store, List.getD_eq_getElem?_getD, List.getElem?_eq_getElem h1,
    List.getElem?_eq_getElem h2]

theorem slice_take (inp : List Byte) (buf : Nat → Byte) (n : Nat) (hn : n ≤ inp.length) :
    slice (store (inp.take n) buf) n = inp.take n :=
  slice_store _ _ _ (by simp; omega)

theorem connect_obs (cfg : Config) (env : Env) (s s' : St) (target : List Byte)
    (hin : s.input = s'.input) (h : SameObs s s') :
    observed (connect cfg env s target) = observed (connect cfg env s' target) := by
  rw [connect_eq, connect_eq]
  refine readThen_obs cfg s s' 2 _ _ h (by rw [hin]) ?_
  intro hn
  have hn' : 2 ≤ s'.input.length := hin ▸ hn
  obtain ⟨hw, hd, hf⟩ := h
  dsimp only
  rw [store_take s.input s.buf 2 0 (by omega) hn, store_take s.input s.buf 2 1 (by omega) hn,
    store_take s'.input s'.buf 2 0 (by omega) hn',
    store_take s'.input s'.buf 2 1 (by omega) hn', hin]
  split_ifs
  · simp [observed, doEstablished, connWrite, St.log, St.defer, written_append, dials_append,
      written, dials, hw, hd]
  · simp [observed, doReturn, connClose, connWrite, St.log, written_append, dials_append,
      written, dials, hw, hd, hf]

theorem eraseRequest_length (inp : List Byte) : (eraseRequest inp).length = inp.length := by
  match inp with
  | [] => rfl
  | [_] => rfl
  | [_, _] => rfl
  | _ :: _ :: _ :: _ => rfl

theorem request_obs (cfg : Config) (env : Env) (s s' : St)
    (hin : s'.input = eraseRequest s.input) (h : SameObs s s') :
    observed (request cfg env s) = observed (request cfg env s') := by
  rw [request_eq, request_eq]
  refine readThen_obs cfg s s' 4 _ _ h (by rw [hin, eraseRequest_length]) ?_
  intro hn
  obtain ⟨inp, buf, tr, df⟩ := s
  obtain ⟨inp', buf', tr', df'⟩ := s'
  dsimp only at hin hn h ⊢
  subst hin
  match inp, hn with
  | rv :: cmd :: rsv :: atyp :: tl, _ =>
    have hs : SameObs
        { input := tl, buf := store [rv, cmd, rsv, atyp] buf,
          trace := tr ++ [.read [rv, cmd, rsv, atyp]], defers := df }
        { input := tl, buf := store [0, cmd, 0, atyp] buf',
          trace := tr' ++ [.read [0, cmd, 0, atyp]], defers := df' } :=
      sameObs_read ⟨[], buf, tr, df⟩ ⟨[], buf', tr', df'⟩ h _ _ _ _ _ _
    have e1 : store [rv, cmd, rsv, atyp] buf 1 = cmd := rfl
    have e3 : store [rv, cmd, rsv, atyp] buf 3 = atyp := rfl
    have e1' : store [0, cmd, 0, atyp] buf' 1 = cmd := rfl
    have e3' : store [0, cmd, 0, atyp] buf' 3 = atyp := rfl
    simp only [eraseRequest, List.take_succ_cons, List.take_zero, List.drop_succ_cons,
      List.drop_zero, e1, e3, e1', e3']
    split_ifs
    · exact observed_return _ _ hs
    · refine readThen_obs cfg _ _ 4 _ _ hs rfl ?_
      intro hn4
      dsimp only at hn4 ⊢
      rw [slice_take tl _ 4 hn4, slice_take tl _ 4 hn4]
      exact connect_obs cfg env _ _ _ rfl (sameObs_read _ _ hs _ _ _ _ _ _)
    · refine readThen_obs cfg _ _ 1 _ _ hs rfl ?_
      intro hn1
      dsimp only at hn1 ⊢
      rw [store_take tl _ 1 0 (by omega) hn1, store_take tl _ 1 0 (by omega) hn1]
      refine readThen_obs cfg _ _ _ _ _ (sameObs_read _ _ hs _ _ _ _ _ _) rfl ?_
      intro hnd
      dsimp only at hnd ⊢
      rw [slice_take _ _ _ hnd, slice_take _ _ _ hnd]
      exact connect_obs cfg env _ _ _ rfl
        (sameObs_read _ _ (sameObs_read _ _ hs (tl.drop 1) (tl.drop 1) _ _
          (store (tl.take 1) (store [rv, cmd, rsv, atyp] buf))
          (store (tl.take 1) (store [0, cmd, 0, atyp] buf'))) _ _ _ _ _ _)
    · refine readThen_obs cfg _ _ 16 _ _ hs rfl ?_
      intro hn16
      dsimp only at hn16 ⊢
      rw [slice_take tl _ 16 hn16, slice_take tl _ 16 hn16]
      exact connect_obs cfg env _ _ _ rfl (sameObs_read _ _ hs _ _ _ _ _ _)
    · exact connect_obs cfg env _ _ _ rfl hs

theorem erasePass_length (inp : List Byte) : (erasePass inp).length = inp.length := by
  match inp with
  | [] => rfl
  | pl :: tl =>
    simp only [erasePass, List.length_cons, List.length_append, eraseRequest_length,
      List.length_take, List.length_drop]
    omega

theorem eraseAuth_length (inp : List Byte) : (eraseAuth inp).length = inp.length := by
  match inp with
  | [] => rfl
  | [_] => rfl
  | _ :: ul :: tl =>
    simp only [eraseAuth, List.length_cons, List.length_append, erasePass_length,
      List.length_take, List.length_drop]
    omega

theorem eraseUnchecked_length (inp : List Byte) : (eraseUnchecked inp).length = inp.length := by
  match inp with
  | [] => rfl
  | [_] => rfl
  | _ :: n :: tl =>
    simp only [eraseUnchecked, List.length_cons, List.length_append, eraseAuth_length,
      List.length_map, List.length_take, List.length_drop]
    omega

theorem take_take_append (l r : List Byte) (n : Nat) (hn : n ≤ l.length) :
    (l.take n ++ r).take n = l.take n :=
  List.take_left' (by simp; omega)

theorem drop_take_append (l r : List Byte) (n : Nat) (hn : n ≤ l.length) :
    (l.take n ++ r).drop n = r :=
  List.drop_left' (by simp; omega)

theorem auth_obs (cfg : Config) (env : Env) (s s' : St)
    (hin : s'.input = eraseAuth s.input) (h : SameObs s s') :
    observed (auth cfg env s) = observed (auth cfg env s') := by
  rw [auth_eq, auth_eq]
  refine readThen_obs cfg s s' 2 _ _ h (by rw [hin, eraseAuth_length]) ?_
  intro hn
  obtain ⟨inp, buf, tr, df⟩ := s
  obtain ⟨inp', buf', tr', df'⟩ := s'
  dsimp only at hin hn h ⊢
  subst hin
  match inp, hn with
  | av :: ul :: tl, _ =>
    have hs : SameObs
        { input := tl, buf := store [av, ul] buf, trace := tr ++ [.read [av, ul]], defers := df }
        { input := tl, buf := store [0, ul] buf', trace := tr' ++ [.read [0, ul]],
          defers := df' } :=
      sameObs_read ⟨[], buf, tr, df⟩ ⟨[], buf', tr', df'⟩ h _ _ _ _ _ _
    have e1 : store [av, ul] buf 1 = ul := rfl
    have e1' : store [0, ul] buf' 1 = ul := rfl
    simp only [eraseAuth, List.take_succ_cons, List.take_zero, List.drop_succ_cons,
      List.drop_zero, e1, e1']
    refine readThen_obs cfg _ _ ul.val _ _ hs
      (by simp only [List.length_append, erasePass_length, List.length_take,
            List.length_drop]; omega) ?_
    intro hnu
    dsimp only at hnu ⊢
    rw [take_take_append tl _ _ hnu, drop_take_append tl _ _ hnu, slice_take tl _ _ hnu,
      slice_take tl _ _ hnu]
    have hs2 := sameObs_read _ _ hs (tl.drop ul.val) (erasePass (tl.drop ul.val))
      (tl.take ul.val) (tl.take ul.val) (store (tl.take ul.val) (store [av, ul] buf))
      (store (tl.take ul.val) (store [0, ul] buf'))
    refine readThen_obs cfg _ _ 1 _ _ hs2 (by simp only [erasePass_length]) ?_
    intro hn1
    dsimp only at hn1 ⊢
    generalize tl.drop ul.val = rest at hn1 hs2 ⊢
    match rest, hn1 with
    | pl :: tl2, _ =>
      have hs3 := sameObs_read _ _ hs2 tl2
        (tl2.take pl.val ++ eraseRequest (tl2.drop pl.val)) [pl] [pl]
        (store [pl] (store (tl.take ul.val) (store [av, ul] buf)))
        (store [pl] (store (tl.take ul.val) (store [0, ul] buf')))
      have e0 : store [pl] (store (tl.take ul.val) (store [av, ul] buf)) 0 = pl := rfl
      have e0' : store [pl] (store (tl.take ul.val) (store [0, ul] buf')) 0 = pl := rfl
      simp only [erasePass, List.take_succ_cons, List.take_zero, List.drop_succ_cons,
        List.drop_zero, e0, e0']
      refine readThen_obs cfg _ _ pl.val _ _ hs3
        (by simp only [List.length_append, eraseRequest_length, List.length_take,
              List.length_drop]; omega) ?_
      intro hnp
      dsimp only at hnp ⊢
      rw [take_take_append tl2 _ _ hnp, drop_take_append tl2 _ _ hnp, slice_take tl2 _ _ hnp,
        slice_take tl2 _ _ hnp]
      have hs4 := sameObs_read _ _ hs3 (tl2.drop pl.val) (eraseRequest (tl2.drop pl.val))
        (tl2.take pl.val) (tl2.take pl.val)
        (store (tl2.take pl.val) (store [pl] (store (tl.take ul.val) (store [av, ul] buf))))
        (store (tl2.take pl.val) (store [pl] (store (tl.take ul.val) (store [0, ul] buf'))))
      split_ifs
      · exact observed_return _ _ (sameObs_write _ _ hs4 _)
      · exact request_obs cfg env _ _ rfl (sameObs_write _ _ hs4 _)

theorem greeting_obs (cfg : Config) (env : Env) (s s' : St)
    (hin : s'.input = eraseUnchecked s.input) (h : SameObs s s') :
    observed (greeting cfg env s) = observed (greeting cfg env s') := by
  rw [greeting_eq, greeting_eq]
  refine readThen_obs cfg s s' 2 _ _ h (by rw [hin, eraseUnchecked_length]) ?_
  intro hn
  obtain ⟨inp, buf, tr, df⟩ := s
  obtain ⟨inp', buf', tr', df'⟩ := s'
  dsimp only at hin hn h ⊢
  subst hin
  match inp, hn with
  | v :: n :: tl, _ =>
    have hs : SameObs
        { input := tl, buf := store [v, n] buf, trace := tr ++ [.read [v, n]], defers := df }
        { input := tl, buf := store [0, n] buf', trace := tr' ++ [.read [0, n]],
          defers := df' } :=
      sameObs_read ⟨[], buf, tr, df⟩ ⟨[], buf', tr', df'⟩ h _ _ _ _ _ _
    have e1 : store [v, n] buf 1 = n := rfl
    have e1' : store [0, n] buf' 1 = n := rfl
    simp only [eraseUnchecked, List.take_succ_cons, List.take_zero, List.drop_succ_cons,
      List.drop_zero, e1, e1']
    refine readThen_obs cfg _ _ n.val _ _ hs
      (by simp only [List.length_append, eraseAuth_length, List.length_map, List.length_take,
            List.length_drop]; omega) ?_
    intro hnn
    dsimp only at hnn ⊢
    have hlen : ((tl.take n.val).map (fun _ => (0 : Byte))).length = n.val := by
      simp only [List.length_map, List.length_take]
      omega
    rw [List.drop_left' hlen]
    exact auth_obs cfg env _ _ rfl (sameObs_write _ _ (sameObs_read _ _ hs _ _ _ _ _ _) _)

theorem handshake_obs (cfg : Config) (env : Env) (input : List Byte) :
    observed (handshake cfg env input) = observed (handshake cfg env (eraseUnchecked input)) := by
  unfold handshake
  dsimp only
  split_ifs
  · rfl
  · exact greeting_obs cfg env _ _ rfl ⟨rfl, rfl, rfl⟩

theorem eraseUnchecked_msgs (v n av ul pl rv cmd rsv : Byte)
    (methods user pass tail : List Byte)
    (hm : methods.length = n.val) (hu : user.length = ul.val) (hp : pass.length = pl.val) :
    eraseUnchecked (greetingMsg v n methods ++ authMsg av ul user pl pass ++
        ([rv, cmd, rsv] ++ tail)) =
      greetingMsg 0 n (methods.map fun _ => 0) ++ authMsg 0 ul user pl pass ++
        ([0, cmd, 0] ++ tail) := by
  have e1 : greetingMsg v n methods ++ authMsg av ul user pl pass ++ ([rv, cmd, rsv] ++ tail) =
      v :: n :: (methods ++ (av :: ul :: (user ++ (pl :: (pass ++ rv :: cmd :: rsv :: tail))))) := by
    simp [greetingMsg, authMsg]
  rw [e1]
  simp only [eraseUnchecked, eraseAuth, erasePass, eraseRequest, List.take_left' hm,
    List.drop_left' hm, List.take_left' hu, List.drop_left' hu, List.take_left' hp,
    List.drop_left' hp]
  simp [greetingMsg, authMsg]

/-- C19: the handler checks neither the protocol version bytes nor the method
bytes nor the reserved byte. Two client inputs that differ only in the greeting
version byte, the values of the method bytes, the authentication version byte,
the request version byte or the request reserved byte, run with the same
configuration and the same dial behaviour, give the same bytes written, the same
addresses dialled and the same outcome. The first part states this for any two
inputs, complete or cut short, whose erasures agree; the second spells it out
for complete messages. -/
theorem C19_unchecked_bytes (cfg : Config) (env : Env) :
    (∀ i1 i2 : List Byte, eraseUnchecked i1 = eraseUnchecked i2 →
      observed (handshake cfg env i1) = observed (handshake cfg env i2)) ∧
    (∀ (v v' n av av' ul pl rv rv' cmd rsv rsv' : Byte)
      (methods methods' user pass tail : List Byte),
      methods.length = n.val → methods'.length = n.val →
      user.length = ul.val → pass.length = pl.val →
      observed (handshake cfg env
          (greetingMsg v n methods ++ authMsg av ul user pl pass ++
            ([rv, cmd, rsv] ++ tail))) =
        observed (handshake cfg env
          (greetingMsg v' n methods' ++ authMsg av' ul user pl pass ++
            ([rv', cmd, rsv'] ++ tail)))) := by
  have key : ∀ i1 i2 : List Byte, eraseUnchecked i1 = eraseUnchecked i2 →
      observed (handshake cfg env i1) = observed (handshake cfg env i2) := by
    intro i1 i2 he
    rw [handshake_obs cfg env i1, handshake_obs cfg env i2, he]
  refine ⟨key, ?_⟩
  intro v v' n av av' ul pl rv rv' cmd rsv rsv' methods methods' user pass tail hm hm' hu hp
  apply key
  rw [eraseUnchecked_msgs v n av ul pl rv cmd rsv methods user pass tail hm hu hp,
    eraseUnchecked_msgs v' n av' ul pl rv' cmd rsv' methods' user pass tail hm' hu hp]
  have hz : (methods.map fun _ => (0 : Byte)) = methods'.map fun _ => (0 : Byte) := by
    apply List.ext_getElem
    · simp [hm, hm']
    · intro i h1 h2
      simp
  rw [hz]

/-- Witness for C19: the example session of the specification against the
same session with version bytes `0x04`, `0x07`, `0x09`, method byte `0x09` and
reserved byte `0x07`. -/
theorem C19_unchecked_bytes_witness :
    (eraseUnchecked (adminSession [0x05, 0x01, 0x00, 0x01, 127, 0, 0, 1, 0x1F, 0x90]) =
      eraseUnchecked ([0x04, 0x01, 0x09] ++
        authMsg 0x07 0x05 (ascii "admin") 0x05 (ascii "admin") ++
        [0x09, 0x01, 0x07, 0x01, 127, 0, 0, 1, 0x1F, 0x90])) ∧
    observed (handshake defaultCfg (envOf true)
        (adminSession [0x05, 0x01, 0x00, 0x01, 127, 0, 0, 1, 0x1F, 0x90])) =
      observed (handshake defaultCfg (envOf true)
        ([0x04, 0x01, 0x09] ++ authMsg 0x07 0x05 (ascii "admin") 0x05 (ascii "admin") ++
          [0x09, 0x01, 0x07, 0x01, 127, 0, 0, 1, 0x1F, 0x90])) :=
  ⟨by decide,
   (C19_unchecked_bytes defaultCfg (envOf true)).1 _ _ (by decide)⟩

/-! ## The acceptor -/

theorem acceptFold_running (accepts : List (Option Nat)) (a : Acceptor)
    (h : a.running = true) : (accepts.foldl acceptStep a).running = true := by
  induction accepts generalizing a with
  | nil => exact h
  | cons r rest ih =>
    rw [List.foldl_cons]
    apply ih
    unfold acceptStep
    rw [if_pos h]
    cases r <;> exact h

theorem acceptFold_events (accepts : List (Option Nat)) (a : Acceptor)
    (h : a.running = true) :
    (accepts.foldl acceptStep a).events =
      a.events ++ (accepts.filterMap id).map MainEvent.spawn := by
  induction accepts generalizing a with
  | nil => simp
  | cons r rest ih =>
    rw [List.foldl_cons]
    cases r with
    | none =>
      have e : acceptStep a none = a := by
        unfold acceptStep
        rw [if_pos h]
      rw [e, ih a h]
      simp
    | some c =>
      have e : acceptStep a (some c) = { a with events := a.events ++ [.spawn c] } := by
        unfold acceptStep
        rw [if_pos h]
      rw [e, ih { running := a.running, events := a.events ++ [.spawn c] } h]
      simp

theorem spawned_append (t u : List MainEvent) : spawned (t ++ u) = spawned t ++ spawned u := by
  induction t with
  | nil => rfl
  | cons e t ih => cases e <;> simp [spawned, ih]

theorem logCount_append (t u : List MainEvent) :
    logCount (t ++ u) = logCount t + logCount u := by
  induction t with
  | nil => simp [logCount]
  | cons e t ih =>
    cases e <;> simp [logCount, ih]
    omega

theorem spawned_map (cs : List Nat) : spawned (cs.map MainEvent.spawn) = cs := by
  induction cs with
  | nil => rfl
  | cons c cs ih => simp [spawned, ih]

theorem logCount_map (cs : List Nat) : logCount (cs.map MainEvent.spawn) = 0 := by
  induction cs with
  | nil => rfl
  | cons c cs ih => simp [logCount, ih]

/-! ## The connection counter -/

theorem wrap64_small (x : Int) (h0 : 0 ≤ x) (h1 : x < 9223372036854775808) : wrap64 x = x := by
  unfold wrap64
  omega

/-- After any interleaving the counter is the number of sessions inside their
handler, those sessions are pairwise distinct, and none of them has finished. -/
theorem serverFold_inv (evs : List SessEvent) (s : Server) (k : Nat)
    (hc : s.counter = s.inside.length) (hk : s.inside.length ≤ k)
    (hlen : k + evs.length < 9223372036854775808) :
    (evs.foldl serverStep s).counter = ((evs.foldl serverStep s).inside.length : Int) ∧
      (evs.foldl serverStep s).inside.length ≤ k + evs.length := by
  induction evs generalizing s k with
  | nil => exact ⟨hc, by simpa using hk⟩
  | cons e rest ih =>
    rw [List.foldl_cons]
    have hlen' : (k + 1) + rest.length < 9223372036854775808 := by
      simp only [List.length_cons] at hlen
      omega
    have hgoal : ((k + 1) + rest.length) = k + (e :: rest).length := by
      simp only [List.length_cons]
      omega
    rw [← hgoal]
    apply ih (serverStep s e) (k + 1) _ _ hlen'
    · cases e with
      | start i =>
        unfold serverStep
        dsimp only
        split_ifs
        · exact hc
        · dsimp only
          rw [hc, wrap64_small _ (by omega) (by omega)]
          simp
      | finish i =>
        unfold serverStep
        dsimp only
        split_ifs with hin
        · dsimp only
          have hpos : 0 < s.inside.length := List.length_pos_of_mem hin
          rw [hc, List.length_erase_of_mem hin, wrap64_small _ (by omega) (by omega)]
          omega
        · exact hc
    · cases e with
      | start i =>
        unfold serverStep
        dsimp only
        split_ifs
        · omega
        · simp only [List.length_cons]
          omega
      | finish i =>
        unfold serverStep
        dsimp only
        split_ifs with hin
        · dsimp only
          rw [List.length_erase_of_mem hin]
          omega
        · omega

/-- In every interleaving of session starts and ends shorter than `2^63`
events, starting from counter 0, the counter equals the number of sessions
inside their handler, is never negative, and is 0 once no session is inside. -/
theorem counter_interleaving (evs : List SessEvent)
    (hlen : evs.length < 9223372036854775808) :
    (serverRun evs).counter = ((serverRun evs).inside.length : Int) ∧
    0 ≤ (serverRun evs).counter ∧
    ((serverRun evs).inside = [] → (serverRun evs).counter = 0) := by
  have h := serverFold_inv evs { counter := 0, inside := [], finished := [] } 0 rfl
    (by simp) (by omega)
  unfold serverRun
  refine ⟨h.1, ?_, ?_⟩
  · rw [h.1]
    omega
  · intro he
    rw [h.1, he]
    rfl

/-! ## The relay: conservation of the byte streams -/

theorem delivered_append (d : Dir) (t u : List RelayEvent) :
    delivered d (t ++ u) = delivered d t ++ delivered d u := by
  induction t with
  | nil => rfl
  | cons e t ih =>
    cases e with
    | write d' bs err => by_cases hd : d' = d <;> simp [delivered, hd, ih]
    | _ => simp [delivered, ih]

theorem conserved_congr (d : Dir) (stream : List Byte) (s s' : Relay)
    (hl : s'.loop d = s.loop d ∨ (s.loop d = .idle ∧ s'.loop d = .reading))
    (hsrc : s'.source d = s.source d) (hdel : delivered d s'.trace = delivered d s.trace)
    (h : Conserved d stream s) : Conserved d stream s' := by
  unfold Conserved at h ⊢
  rcases hl with hl | ⟨h1, h2⟩
  · rw [hl, hsrc, hdel]
    exact h
  · rw [h1] at h
    rw [h2, hsrc, hdel]
    exact h

theorem conserved_main (d : Dir) (stream : List Byte) (s : Relay)
    (hs : NotStarted s) (h : Conserved d stream s) : Conserved d stream (mainStep s) := by
  obtain ⟨h0, h1⟩ := hs
  unfold mainStep
  split
  · next hpc =>
    apply conserved_congr d stream s _ _ _ _ h
    · cases d
      · right
        exact ⟨h0 hpc, rfl⟩
      · left
        rfl
    · cases d <;> rfl
    · simp [Relay.log, delivered_append, delivered]
  · next hpc =>
    apply conserved_congr d stream s _ _ _ _ h
    · cases d
      · left
        rfl
      · right
        exact ⟨h1 (by omega), rfl⟩
    · cases d <;> rfl
    · simp [Relay.log, delivered_append, delivered]
  · split_ifs
    · apply conserved_congr d stream s _ (Or.inl _) _ _ h
      · cases d <;> rfl
      · cases d <;> rfl
      · simp [Relay.log, delivered_append, delivered]
    · exact h
  · apply conserved_congr d stream s _ (Or.inl _) _ _ h
    · cases d <;> rfl
    · cases d <;> rfl
    · simp [Relay.log, delivered_append, delivered]
  · apply conserved_congr d stream s _ (Or.inl _) _ _ h
    · cases d <;> rfl
    · cases d <;> rfl
    · simp [Relay.log, delivered_append, delivered]
  · split_ifs
    · apply conserved_congr d stream s _ (Or.inl _) _ _ h
      · cases d <;> rfl
      · cases d <;> rfl
      · simp [Relay.log, delivered_append, delivered]
    · exact h
  · apply conserved_congr d stream s _ (Or.inl _) _ _ h
    · cases d <;> rfl
    · cases d <;> rfl
    · simp [Relay.log, delivered_append, delivered]
  · exact h

theorem conserved_read (d d' : Dir) (stream : List Byte) (s : Relay) (n : Nat) (err : Bool)
    (h : Conserved d stream s) : Conserved d stream (readStep s d' n err) := by
  unfold readStep
  cases hl : s.loop d' with
  | reading =>
    dsimp only
    split_ifs with hc ht he
    · cases d <;> cases d' <;>
        simp_all [Conserved, Relay.loop, Relay.setLoop, Relay.source, Relay.log,
          delivered_append, delivered]
    · cases d <;> cases d' <;>
        simp_all [Conserved, Relay.loop, Relay.setLoop, Relay.source, Relay.log,
          delivered_append, delivered]
    · exact h
    · cases d <;> cases d' <;>
        simp_all [Conserved, Relay.loop, Relay.setLoop, Relay.setSource, Relay.source,
          Relay.log, delivered_append, delivered]
  | idle => exact h
  | writing c e => exact h
  | signalling => exact h
  | finished => exact h

theorem conserved_write (d d' : Dir) (stream : List Byte) (s : Relay) (n : Nat) (err : Bool)
    (h : Conserved d stream s) : Conserved d stream (writeStep s d' n err) := by
  unfold writeStep
  cases hl : s.loop d' with
  | writing chunk rerr =>
    dsimp only
    split_ifs with hc ht
    · cases d <;> cases d' <;>
        simp_all [Conserved, Relay.loop, Relay.setLoop, Relay.source, Relay.log,
          delivered_append, delivered]
    · cases d <;> cases d' <;>
        simp_all [Conserved, Relay.loop, Relay.setLoop, Relay.source, Relay.log,
          delivered_append, delivered]
      · exact ⟨chunk.drop n, by rw [← List.append_assoc, List.take_append_drop]⟩
      · exact ⟨chunk.drop n, by rw [← List.append_assoc, List.take_append_drop]⟩
    · cases d <;> cases d' <;>
        simp_all [Conserved, Relay.loop, Relay.setLoop, Relay.source, Relay.log,
          delivered_append, delivered]
  | idle => exact h
  | reading => exact h
  | signalling => exact h
  | finished => exact h

theorem conserved_signal (d d' : Dir) (stream : List Byte) (s : Relay)
    (h : Conserved d stream s) : Conserved d stream (signalStep s d') := by
  unfold signalStep
  cases hl : s.loop d' with
  | signalling =>
    dsimp only
    split_ifs
    · cases d <;> cases d' <;>
        simp_all [Conserved, Relay.loop, Relay.setLoop, Relay.source, Relay.log,
          delivered_append, delivered]
    · exact h
  | idle => exact h
  | reading => exact h
  | writing c e => exact h
  | finished => exact h

/-! ## The relay: synchronisation -/

theorem snoc_split {α : Type} (tr pre post : List α) (x e : α)
    (h : tr ++ [x] = pre ++ e :: post) :
    (post = [] ∧ pre = tr ∧ x = e) ∨ ∃ post', post = post' ++ [x] ∧ tr = pre ++ e :: post' := by
  rcases List.eq_nil_or_concat post with hp | ⟨post', y, hp⟩
  · subst hp
    left
    have h' : tr ++ [x] = pre ++ [e] := h
    obtain ⟨h1, h2⟩ := List.append_inj' h' rfl
    exact ⟨rfl, h1.symm, by simpa using h2⟩
  · subst hp
    right
    have h' : tr ++ [x] = (pre ++ e :: post') ++ [y] := by simpa using h
    obtain ⟨h1, h2⟩ := List.append_inj' h' rfl
    have hxy : x = y := by simpa using h2
    exact ⟨post', by simp [hxy], h1⟩

theorem onlyAfter_snoc_ne (P : List RelayEvent → Prop) (e x : RelayEvent)
    (tr : List RelayEvent) (hne : x ≠ e) (h : OnlyAfter P e tr) : OnlyAfter P e (tr ++ [x]) := by
  intro pre post hs
  rcases snoc_split tr pre post x e hs with ⟨_, _, hx⟩ | ⟨post', _, ht⟩
  · exact absurd hx hne
  · exact h pre post' ht

theorem onlyAfter_snoc_eq (P : List RelayEvent → Prop) (e : RelayEvent)
    (tr : List RelayEvent) (hp : P tr) (h : OnlyAfter P e tr) : OnlyAfter P e (tr ++ [e]) := by
  intro pre post hs
  rcases snoc_split tr pre post e e hs with ⟨_, hpre, _⟩ | ⟨post', _, ht⟩
  · rw [hpre]
    exact hp
  · exact h pre post' ht

theorem sync_main (s : Relay) (h : SyncInv s) : SyncInv (mainStep s) := by
  obtain ⟨⟨hs0, hs1⟩, hmax, hcount, hup, hdown, hcc, hcd, hret, hclc, hcld, hrt⟩ := h
  unfold finishedLoops receives at hcount
  unfold mainStep
  split
  · next hpc =>
    have hu := hs0 hpc
    have hd := hs1 (by omega)
    refine ⟨⟨by simp, by simp [Relay.log, hd]⟩, by simp, ?_, ?_, ?_,
      onlyAfter_snoc_ne _ _ _ _ (by simp) hcc, onlyAfter_snoc_ne _ _ _ _ (by simp) hcd,
      onlyAfter_snoc_ne _ _ _ _ (by simp) hret, by simp, by simp, by simp⟩
    · simp_all [finishedLoops, receives, Relay.log]
    · simp_all [Relay.log]
    · simp_all [Relay.log]
  · next hpc =>
    have hd := hs1 (by omega)
    refine ⟨⟨by simp, by simp⟩, by simp, ?_, ?_, ?_,
      onlyAfter_snoc_ne _ _ _ _ (by simp) hcc, onlyAfter_snoc_ne _ _ _ _ (by simp) hcd,
      onlyAfter_snoc_ne _ _ _ _ (by simp) hret, by simp, by simp, by simp⟩
    · simp_all [finishedLoops, receives, Relay.log]
    · simp_all [Relay.log]
    · simp_all [Relay.log]
  · next hpc =>
    split_ifs with hch
    · refine ⟨⟨by simp, by simp⟩, by simp, ?_, ?_, ?_,
        onlyAfter_snoc_ne _ _ _ _ (by simp) hcc, onlyAfter_snoc_ne _ _ _ _ (by simp) hcd,
        onlyAfter_snoc_ne _ _ _ _ (by simp) hret, by simp, by simp, by simp⟩
      · simp only [finishedLoops, receives, Relay.log]
        rw [hpc] at hcount
        simp at hcount ⊢
        omega
      · simp_all [Relay.log]
      · simp_all [Relay.log]
    · exact ⟨⟨hs0, hs1⟩, hmax, hcount, hup, hdown, hcc, hcd, hret, hclc, hcld, hrt⟩
  · next hpc =>
    have hfin : ∃ d, RelayEvent.signal d ∈ s.trace := by
      rw [hpc] at hcount
      simp at hcount
      by_cases hu : s.up = .finished
      · exact ⟨.up, hup.mp hu⟩
      · by_cases hd : s.down = .finished
        · exact ⟨.down, hdown.mp hd⟩
        · simp [hu, hd] at hcount
    refine ⟨⟨by simp, by simp⟩, by simp, ?_, ?_, ?_,
      onlyAfter_snoc_eq _ _ _ hfin hcc, onlyAfter_snoc_ne _ _ _ _ (by simp) hcd,
      onlyAfter_snoc_ne _ _ _ _ (by simp) hret, by simp [Relay.log], by simp, by simp⟩
    · simp only [finishedLoops, receives, Relay.log]
      rw [hpc] at hcount
      simp at hcount ⊢
      omega
    · simp_all [Relay.log]
    · simp_all [Relay.log]
  · next hpc =>
    have hfin : ∃ d, RelayEvent.signal d ∈ s.trace := by
      rw [hpc] at hcount
      simp at hcount
      by_cases hu : s.up = .finished
      · exact ⟨.up, hup.mp hu⟩
      · by_cases hd : s.down = .finished
        · exact ⟨.down, hdown.mp hd⟩
        · simp [hu, hd] at hcount
    have hc4 := hclc (by omega)
    refine ⟨⟨by simp, by simp⟩, by simp, ?_, ?_, ?_,
      onlyAfter_snoc_ne _ _ _ _ (by simp) hcc, onlyAfter_snoc_eq _ _ _ hfin hcd,
      onlyAfter_snoc_ne _ _ _ _ (by simp) hret, by simp [Relay.log, hc4.1, hc4.2],
      by simp [Relay.log], by simp⟩
    · simp only [finishedLoops, receives, Relay.log]
      rw [hpc] at hcount
      simp at hcount ⊢
      omega
    · simp_all [Relay.log]
    · simp_all [Relay.log]
  · next hpc =>
    have hc4 := hclc (by omega)
    have hc5 := hcld (by omega)
    split_ifs with hch
    · refine ⟨⟨by simp, by simp⟩, by simp, ?_, ?_, ?_,
        onlyAfter_snoc_ne _ _ _ _ (by simp) hcc, onlyAfter_snoc_ne _ _ _ _ (by simp) hcd,
        onlyAfter_snoc_ne _ _ _ _ (by simp) hret, by simp [Relay.log, hc4.1, hc4.2],
        by simp [Relay.log, hc5.1, hc5.2], by simp⟩
      · simp only [finishedLoops, receives, Relay.log]
        rw [hpc] at hcount
        simp at hcount ⊢
        omega
      · simp_all [Relay.log]
      · simp_all [Relay.log]
    · exact ⟨⟨hs0, hs1⟩, hmax, hcount, hup, hdown, hcc, hcd, hret, hclc, hcld, hrt⟩
  · next hpc =>
    have hc4 := hclc (by omega)
    have hc5 := hcld (by omega)
    have hboth : RelayEvent.signal .up ∈ s.trace ∧ RelayEvent.signal .down ∈ s.trace := by
      rw [hpc] at hcount
      simp at hcount
      by_cases hu : s.up = .finished
      · by_cases hd : s.down = .finished
        · exact ⟨hup.mp hu, hdown.mp hd⟩
        · simp [hu, hd] at hcount
      · by_cases hd : s.down = .finished
        · simp [hu, hd] at hcount
        · simp [hu, hd] at hcount
    refine ⟨⟨by simp, by simp⟩, by simp, ?_, ?_, ?_,
      onlyAfter_snoc_ne _ _ _ _ (by simp) hcc, onlyAfter_snoc_ne _ _ _ _ (by simp) hcd,
      onlyAfter_snoc_eq _ _ _ hboth hret, by simp [Relay.log, hc4.1, hc4.2],
      by simp [Relay.log, hc5.1, hc5.2], by simp [Relay.log]⟩
    · simp only [finishedLoops, receives, Relay.log]
      rw [hpc] at hcount
      simp at hcount ⊢
      omega
    · simp_all [Relay.log]
    · simp_all [Relay.log]
  · exact ⟨⟨hs0, hs1⟩, hmax, hcount, hup, hdown, hcc, hcd, hret, hclc, hcld, hrt⟩

theorem sync_read (s : Relay) (d : Dir) (n : Nat) (err : Bool) (h : SyncInv s) :
    SyncInv (readStep s d n err) := by
  unfold readStep
  cases hl : s.loop d with
  | reading =>
    obtain ⟨⟨hs0, hs1⟩, hmax, hcount, hup, hdown, hcc, hcd, hret, hclc, hcld, hrt⟩ := h
    dsimp only
    split_ifs with hc ht he
    · refine ⟨⟨?_, ?_⟩, ?_, ?_, ?_, ?_,
        ?_, ?_, ?_, ?_, ?_, ?_⟩
      · cases d <;> simp_all [Relay.loop, Relay.setLoop, Relay.log]
      · cases d <;> simp_all [Relay.loop, Relay.setLoop, Relay.log]
      · cases d <;> simpa [Relay.setLoop, Relay.log] using hmax
      · cases d <;> simp_all [Relay.loop, Relay.setLoop, Relay.log, finishedLoops]
      · cases d <;> simp_all [Relay.loop, Relay.setLoop, Relay.log]
      · cases d <;> simp_all [Relay.loop, Relay.setLoop, Relay.log]
      · cases d <;> exact onlyAfter_snoc_ne _ _ _ _ (by simp) hcc
      · cases d <;> exact onlyAfter_snoc_ne _ _ _ _ (by simp) hcd
      · cases d <;> exact onlyAfter_snoc_ne _ _ _ _ (by simp) hret
      · cases d <;> simp_all [Relay.loop, Relay.setLoop, Relay.log]
      · cases d <;> simp_all [Relay.loop, Relay.setLoop, Relay.log]
      · cases d <;> simp_all [Relay.loop, Relay.setLoop, Relay.log]
    · refine ⟨⟨?_, ?_⟩, ?_, ?_, ?_, ?_,
        ?_, ?_, ?_, ?_, ?_, ?_⟩
      · cases d <;> simp_all [Relay.loop, Relay.setLoop, Relay.log]
      · cases d <;> simp_all [Relay.loop, Relay.setLoop, Relay.log]
      · cases d <;> simpa [Relay.setLoop, Relay.log] using hmax
      · cases d <;> simp_all [Relay.loop, Relay.setLoop, Relay.log, finishedLoops]
      · cases d <;> simp_all [Relay.loop, Relay.setLoop, Relay.log]
      · cases d <;> simp_all [Relay.loop, Relay.setLoop, Relay.log]
      · cases d <;> exact onlyAfter_snoc_ne _ _ _ _ (by simp) hcc
      · cases d <;> exact onlyAfter_snoc_ne _ _ _ _ (by simp) hcd
      · cases d <;> exact onlyAfter_snoc_ne _ _ _ _ (by simp) hret
      · cases d <;> simp_all [Relay.loop, Relay.setLoop, Relay.log]
      · cases d <;> simp_all [Relay.loop, Relay.setLoop, Relay.log]
      · cases d <;> simp_all [Relay.loop, Relay.setLoop, Relay.log]
    · exact ⟨⟨hs0, hs1⟩, hmax, hcount, hup, hdown, hcc, hcd, hret, hclc, hcld, hrt⟩
    · refine ⟨⟨?_, ?_⟩, ?_, ?_, ?_, ?_,
        ?_, ?_, ?_, ?_, ?_, ?_⟩
      · cases d <;> simp_all [Relay.loop, Relay.setLoop, Relay.setSource, Relay.log]
      · cases d <;> simp_all [Relay.loop, Relay.setLoop, Relay.setSource, Relay.log]
      · cases d <;> simpa [Relay.setLoop, Relay.setSource, Relay.log] using hmax
      · cases d <;>
          simp_all [Relay.loop, Relay.setLoop, Relay.setSource, Relay.log, finishedLoops]
      · cases d <;> simp_all [Relay.loop, Relay.setLoop, Relay.setSource, Relay.log]
      · cases d <;> simp_all [Relay.loop, Relay.setLoop, Relay.setSource, Relay.log]
      · cases d <;> exact onlyAfter_snoc_ne _ _ _ _ (by simp) hcc
      · cases d <;> exact onlyAfter_snoc_ne _ _ _ _ (by simp) hcd
      · cases d <;> exact onlyAfter_snoc_ne _ _ _ _ (by simp) hret
      · cases d <;> simp_all [Relay.loop, Relay.setLoop, Relay.setSource, Relay.log]
      · cases d <;> simp_all [Relay.loop, Relay.setLoop, Relay.setSource, Relay.log]
      · cases d <;> simp_all [Relay.loop, Relay.setLoop, Relay.setSource, Relay.log]
  | idle => exact h
  | writing c e => exact h
  | signalling => exact h
  | finished => exact h

theorem sync_write (s : Relay) (d : Dir) (n : Nat) (err : Bool) (h : SyncInv s) :
    SyncInv (writeStep s d n err) := by
  unfold writeStep
  cases hl : s.loop d with
  | writing chunk rerr =>
    obtain ⟨⟨hs0, hs1⟩, hmax, hcount, hup, hdown, hcc, hcd, hret, hclc, hcld, hrt⟩ := h
    dsimp only
    split_ifs with hc ht
    · refine ⟨⟨?_, ?_⟩, ?_, ?_, ?_, ?_,
        ?_, ?_, ?_, ?_, ?_, ?_⟩
      · cases d <;> simp_all [Relay.loop, Relay.setLoop, Relay.log]
      · cases d <;> simp_all [Relay.loop, Relay.setLoop, Relay.log]
      · cases d <;> simpa [Relay.setLoop, Relay.log] using hmax
      · cases d <;> simp_all [Relay.loop, Relay.setLoop, Relay.log, finishedLoops]
      · cases d <;> simp_all [Relay.loop, Relay.setLoop, Relay.log]
      · cases d <;> simp_all [Relay.loop, Relay.setLoop, Relay.log]
      · cases d <;> exact onlyAfter_snoc_ne _ _ _ _ (by simp) hcc
      · cases d <;> exact onlyAfter_snoc_ne _ _ _ _ (by simp) hcd
      · cases d <;> exact onlyAfter_snoc_ne _ _ _ _ (by simp) hret
      · cases d <;> simp_all [Relay.loop, Relay.setLoop, Relay.log]
      · cases d <;> simp_all [Relay.loop, Relay.setLoop, Relay.log]
      · cases d <;> simp_all [Relay.loop, Relay.setLoop, Relay.log]
    · refine ⟨⟨?_, ?_⟩, ?_, ?_, ?_, ?_,
        ?_, ?_, ?_, ?_, ?_, ?_⟩
      · cases d <;> simp_all [Relay.loop, Relay.setLoop, Relay.log]
      · cases d <;> simp_all [Relay.loop, Relay.setLoop, Relay.log]
      · cases d <;> simpa [Relay.setLoop, Relay.log] using hmax
      · cases d <;> simp_all [Relay.loop, Relay.setLoop, Relay.log, finishedLoops]
      · cases d <;> simp_all [Relay.loop, Relay.setLoop, Relay.log]
      · cases d <;> simp_all [Relay.loop, Relay.setLoop, Relay.log]
      · cases d <;> exact onlyAfter_snoc_ne _ _ _ _ (by simp) hcc
      · cases d <;> exact onlyAfter_snoc_ne _ _ _ _ (by simp) hcd
      · cases d <;> exact onlyAfter_snoc_ne _ _ _ _ (by simp) hret
      · cases d <;> simp_all [Relay.loop, Relay.setLoop, Relay.log]
      · cases d <;> simp_all [Relay.loop, Relay.setLoop, Relay.log]
      · cases d <;> simp_all [Relay.loop, Relay.setLoop, Relay.log]
    · refine ⟨⟨?_, ?_⟩, ?_, ?_, ?_, ?_,
        ?_, ?_, ?_, ?_, ?_, ?_⟩
      · cases d <;> simp_all [Relay.loop, Relay.setLoop, Relay.log]
      · cases d <;> simp_all [Relay.loop, Relay.setLoop, Relay.log]
      · cases d <;> simpa [Relay.setLoop, Relay.log] using hmax
      · cases d <;> simp_all [Relay.loop, Relay.setLoop, Relay.log, finishedLoops]
      · cases d <;> simp_all [Relay.loop, Relay.setLoop, Relay.log]
      · cases d <;> simp_all [Relay.loop, Relay.setLoop, Relay.log]
      · cases d <;> exact onlyAfter_snoc_ne _ _ _ _ (by simp) hcc
      · cases d <;> exact onlyAfter_snoc_ne _ _ _ _ (by simp) hcd
      · cases d <;> exact onlyAfter_snoc_ne _ _ _ _ (by simp) hret
      · cases d <;> simp_all [Relay.loop, Relay.setLoop, Relay.log]
      · cases d <;> simp_all [Relay.loop, Relay.setLoop, Relay.log]
      · cases d <;> simp_all [Relay.loop, Relay.setLoop, Relay.log]
  | idle => exact h
  | reading => exact h
  | signalling => exact h
  | finished => exact h

theorem sync_signal (s : Relay) (d : Dir) (h : SyncInv s) : SyncInv (signalStep s d) := by
  unfold signalStep
  cases hl : s.loop d with
  | signalling =>
    obtain ⟨⟨hs0, hs1⟩, hmax, hcount, hup, hdown, hcc, hcd, hret, hclc, hcld, hrt⟩ := h
    dsimp only
    split_ifs with hc
    · refine ⟨⟨?_, ?_⟩, ?_, ?_, ?_, ?_,
        ?_, ?_, ?_, ?_, ?_, ?_⟩
      · cases d <;> simp_all [Relay.loop, Relay.setLoop, Relay.log]
      · cases d <;> simp_all [Relay.loop, Relay.setLoop, Relay.log]
      · cases d <;> simpa [Relay.setLoop, Relay.log] using hmax
      · cases d <;> simp_all [Relay.loop, Relay.setLoop, Relay.log, finishedLoops] <;> omega
      · cases d <;> simp_all [Relay.loop, Relay.setLoop, Relay.log]
      · cases d <;> simp_all [Relay.loop, Relay.setLoop, Relay.log]
      · cases d <;> exact onlyAfter_snoc_ne _ _ _ _ (by simp) hcc
      · cases d <;> exact onlyAfter_snoc_ne _ _ _ _ (by simp) hcd
      · cases d <;> exact onlyAfter_snoc_ne _ _ _ _ (by simp) hret
      · cases d <;> simp_all [Relay.loop, Relay.setLoop, Relay.log]
      · cases d <;> simp_all [Relay.loop, Relay.setLoop, Relay.log]
      · cases d <;> simp_all [Relay.loop, Relay.setLoop, Relay.log]
    · exact ⟨⟨hs0, hs1⟩, hmax, hcount, hup, hdown, hcc, hcd, hret, hclc, hcld, hrt⟩
  | idle => exact h
  | reading => exact h
  | writing c e => exact h
  | finished => exact h

theorem sync_step (s : Relay) (c : Choice) (h : SyncInv s) : SyncInv (relayStep s c) := by
  cases c with
  | main => exact sync_main s h
  | read d n err => exact sync_read s d n err h
  | write d n err => exact sync_write s d n err h
  | signal d => exact sync_signal s d h

theorem sync_init (fromClient fromDst : List Byte) : SyncInv (relayInit fromClient fromDst) := by
  refine ⟨⟨fun _ => rfl, fun _ => rfl⟩, by simp [relayInit], by simp [relayInit, finishedLoops, receives],
    by simp [relayInit], by simp [relayInit], ?_, ?_, ?_, by simp [relayInit],
    by simp [relayInit], by simp [relayInit]⟩
  · intro pre post h
    simp [relayInit] at h
  · intro pre post h
    simp [relayInit] at h
  · intro pre post h
    simp [relayInit] at h

theorem sync_fold (sched : List Choice) (s : Relay) (h : SyncInv s) :
    SyncInv (sched.foldl relayStep s) := by
  induction sched generalizing s with
  | nil => exact h
  | cons c rest ih => exact ih _ (sync_step s c h)

theorem sync_run (fromClient fromDst : List Byte) (sched : List Choice) :
    SyncInv (relayRun fromClient fromDst sched) :=
  sync_fold sched _ (sync_init fromClient fromDst)

theorem conserved_step (d : Dir) (stream : List Byte) (s : Relay) (c : Choice)
    (hs : NotStarted s) (h : Conserved d stream s) : Conserved d stream (relayStep s c) := by
  cases c with
  | main => exact conserved_main d stream s hs h
  | read d' n err => exact conserved_read d d' stream s n err h
  | write d' n err => exact conserved_write d d' stream s n err h
  | signal d' => exact conserved_signal d d' stream s h

theorem conserved_fold (d : Dir) (stream : List Byte) (sched : List Choice) (s : Relay)
    (hs : SyncInv s) (h : Conserved d stream s) :
    Conserved d stream (sched.foldl relayStep s) := by
  induction sched generalizing s with
  | nil => exact h
  | cons c rest ih => exact ih _ (sync_step s c hs) (conserved_step d stream s c hs.started h)

theorem conserved_run (fromClient fromDst : List Byte) (sched : List Choice) :
    Conserved .up fromClient (relayRun fromClient fromDst sched) ∧
      Conserved .down fromDst (relayRun fromClient fromDst sched) := by
  constructor
  · exact conserved_fold .up fromClient sched _ (sync_init fromClient fromDst)
      (by simp [Conserved, relayInit, Relay.loop, Relay.source, delivered])
  · exact conserved_fold .down fromDst sched _ (sync_init fromClient fromDst)
      (by simp [Conserved, relayInit, Relay.loop, Relay.source, delivered])

theorem conserved_prefix (d : Dir) (stream : List Byte) (s : Relay)
    (h : Conserved d stream s) : ∃ rest, stream = delivered d s.trace ++ rest := by
  unfold Conserved at h
  cases hl : s.loop d with
  | idle => rw [hl] at h; exact ⟨_, h⟩
  | reading => rw [hl] at h; exact ⟨_, h⟩
  | writing c e =>
    rw [hl] at h
    exact ⟨c ++ s.source d, by simpa using h⟩
  | signalling =>
    rw [hl] at h
    obtain ⟨mid, hm⟩ := h
    exact ⟨mid ++ s.source d, by simpa using hm⟩
  | finished =>
    rw [hl] at h
    obtain ⟨mid, hm⟩ := h
    exact ⟨mid ++ s.source d, by simpa using hm⟩

/-- C17 (as stated, refuted): an accept that fails leaves no trace at all; in
particular `main` logs nothing for it. The only log call of a run with two
failing accepts is the start-up line `listening on ...`, exactly as in a run
without any accept. -/
theorem C17_counterexample :
    (mainRun true [none, none]).events = (mainRun true []).events ∧
    logCount (mainRun true [none, none]).events = logCount (mainRun true []).events ∧
    logCount (mainRun true [none, none]).events = 1 := by
  decide

/-- C17 (amended): once listening, the acceptor handles every result of
`ln.Accept()`: for an error it takes no action (no log call, no handler) and
goes on to the next accept; for a connection it starts exactly one handler with
a `go` statement and goes on without waiting for it. It is still running after
any sequence of accept results, and the handlers started are exactly the
accepted connections, in order. -/
theorem C17_accept_loop (accepts : List (Option Nat)) :
    (mainRun true accepts).running = true ∧
    (mainRun true accepts).events =
      [.log, .spawnStatus] ++ (accepts.filterMap id).map MainEvent.spawn ∧
    spawned (mainRun true accepts).events = accepts.filterMap id ∧
    logCount (mainRun true accepts).events = 1 ∧
    (mainRun true (accepts ++ [none])).events = (mainRun true accepts).events ∧
    (∀ conn : Nat, (mainRun true (accepts ++ [some conn])).events =
      (mainRun true accepts).events ++ [.spawn conn]) := by
  have hev : ∀ acc : List (Option Nat), (mainRun true acc).events =
      [.log, .spawnStatus] ++ (acc.filterMap id).map MainEvent.spawn := by
    intro acc
    unfold mainRun
    rw [if_pos rfl, acceptFold_events acc _ rfl]
  refine ⟨?_, hev accepts, ?_, ?_, ?_, ?_⟩
  · unfold mainRun
    rw [if_pos rfl]
    exact acceptFold_running accepts _ rfl
  · rw [hev, spawned_append, spawned_map]
    simp [spawned]
  · rw [hev, logCount_append, logCount_map]
    simp [logCount]
  · rw [hev, hev]
    simp
  · intro conn
    rw [hev, hev]
    simp

/-! ## Resources of a run -/

theorem quiet_nil : Quiet [] := by
  intro e he
  simp at he

theorem quiet_append (a b : List Event) (ha : Quiet a) (hb : Quiet b) : Quiet (a ++ b) := by
  intro e he
  rcases List.mem_append.mp he with h | h
  · exact ha e h
  · exact hb e h

theorem quiet_read (bs : List Byte) : Quiet [.read bs] := by
  intro e he
  simp at he
  subst he
  simp

theorem quiet_write (bs : List Byte) : Quiet [.write bs] := by
  intro e he
  simp at he
  subst he
  simp

theorem quiet_close : Quiet [.close] := by
  intro e he
  simp at he
  subst he
  simp

theorem quiet_dial (a : List Byte) (ok : Bool) : Quiet [.dial a ok] := by
  intro e he
  simp at he
  subst he
  simp

theorem shape_return (t df : List Event) (s : St)
    (hs : ∃ tl, Quiet tl ∧ s.trace = t ++ tl) (hd : s.defers = df) :
    ShapeFrom t df (doReturn (connClose s)) := by
  obtain ⟨tl, hq, htl⟩ := hs
  right
  refine ⟨by simp [doReturn], rfl, tl ++ [.close], quiet_append _ _ hq quiet_close, ?_⟩
  simp [doReturn, connClose, St.log, htl, hd]

theorem shape_panic (t df : List Event) (s : St)
    (hs : ∃ tl, Quiet tl ∧ s.trace = t ++ tl) (hd : s.defers = df) :
    ShapeFrom t df (doPanic s) := by
  obtain ⟨tl, hq, htl⟩ := hs
  right
  refine ⟨by simp [doPanic], rfl, tl, hq, ?_⟩
  simp [doPanic, htl, hd]

theorem shape_readThen (cfg : Config) (t df : List Event) (s : St) (n : Nat)
    (k : St → Result)
    (hk : ∀ s1 : St, (∃ tl, Quiet tl ∧ s1.trace = t ++ tl) → s1.defers = df →
      ShapeFrom t df (k s1))
    (hs : ∃ tl, Quiet tl ∧ s.trace = t ++ tl) (hd : s.defers = df) :
    ShapeFrom t df (readThen cfg s n k) := by
  obtain ⟨tl, hq, htl⟩ := hs
  unfold readThen readFull
  split_ifs
  · exact shape_panic t df s ⟨tl, hq, htl⟩ hd
  · exact hk _ ⟨tl ++ [.read (s.input.take n)], quiet_append _ _ hq (quiet_read _),
      by simp [htl]⟩ hd
  · exact shape_return t df _ ⟨tl ++ [.read s.input], quiet_append _ _ hq (quiet_read _),
      by simp [htl]⟩ hd

theorem shape_connect (cfg : Config) (env : Env) (t df : List Event) (s : St)
    (target : List Byte) (hs : ∃ tl, Quiet tl ∧ s.trace = t ++ tl) (hd : s.defers = df) :
    ShapeFrom t df (connect cfg env s target) := by
  rw [connect_eq]
  refine shape_readThen cfg t df s 2 _ ?_ hs hd
  intro s1 hs1 hd1
  obtain ⟨tl, hq, htl⟩ := hs1
  split_ifs
  · left
    refine ⟨rfl, by simp [doEstablished, St.defer, connWrite, St.log, hd1],
      tl ++ [.dial (joinHostPort target (decimal (portOf (s1.buf 0) (s1.buf 1)))) true],
      quiet_append _ _ hq (quiet_dial _ _), ?_⟩
    simp [doEstablished, St.defer, connWrite, St.log, htl]
  · right
    refine ⟨by simp [doReturn], rfl,
      tl ++ [.dial (joinHostPort target (decimal (portOf (s1.buf 0) (s1.buf 1)))) false,
        .write replyFailure, .close],
      quiet_append _ _ hq (quiet_append [_] [_, _] (quiet_dial _ _)
        (quiet_append [_] [_] (quiet_write _) quiet_close)), ?_⟩
    simp [doReturn, connClose, connWrite, St.log, htl, hd1]

theorem shape_request (cfg : Config) (env : Env) (t df : List Event) (s : St)
    (hs : ∃ tl, Quiet tl ∧ s.trace = t ++ tl) (hd : s.defers = df) :
    ShapeFrom t df (request cfg env s) := by
  rw [request_eq]
  refine shape_readThen cfg t df s 4 _ ?_ hs hd
  intro s1 hs1 hd1
  split_ifs
  · exact shape_return t df s1 hs1 hd1
  · exact shape_readThen cfg t df s1 4 _
      (fun s2 hs2 hd2 => shape_connect cfg env t df s2 _ hs2 hd2) hs1 hd1
  · exact shape_readThen cfg t df s1 1 _
      (fun s2 hs2 hd2 => shape_readThen cfg t df s2 _ _
        (fun s3 hs3 hd3 => shape_connect cfg env t df s3 _ hs3 hd3) hs2 hd2) hs1 hd1
  · exact shape_readThen cfg t df s1 16 _
      (fun s2 hs2 hd2 => shape_connect cfg env t df s2 _ hs2 hd2) hs1 hd1
  · exact shape_connect cfg env t df s1 _ hs1 hd1

theorem shape_write (t : List Event) (s : St) (bs : List Byte)
    (hs : ∃ tl, Quiet tl ∧ s.trace = t ++ tl) :
    ∃ tl, Quiet tl ∧ (connWrite s bs).trace = t ++ tl := by
  obtain ⟨tl, hq, htl⟩ := hs
  exact ⟨tl ++ [.write bs], quiet_append _ _ hq (quiet_write _),
    by simp [connWrite, St.log, htl]⟩

theorem shape_auth (cfg : Config) (env : Env) (t df : List Event) (s : St)
    (hs : ∃ tl, Quiet tl ∧ s.trace = t ++ tl) (hd : s.defers = df) :
    ShapeFrom t df (auth cfg env s) := by
  rw [auth_eq]
  refine shape_readThen cfg t df s 2 _ ?_ hs hd
  intro s1 hs1 hd1
  refine shape_readThen cfg t df s1 _ _ ?_ hs1 hd1
  intro s2 hs2 hd2
  refine shape_readThen cfg t df s2 1 _ ?_ hs2 hd2
  intro s3 hs3 hd3
  refine shape_readThen cfg t df s3 _ _ ?_ hs3 hd3
  intro s4 hs4 hd4
  split_ifs
  · exact shape_return t df _ (shape_write t s4 _ hs4) hd4
  · exact shape_request cfg env t df _ (shape_write t s4 _ hs4) hd4

theorem shape_greeting (cfg : Config) (env : Env) (t df : List Event) (s : St)
    (hs : ∃ tl, Quiet tl ∧ s.trace = t ++ tl) (hd : s.defers = df) :
    ShapeFrom t df (greeting cfg env s) := by
  rw [greeting_eq]
  refine shape_readThen cfg t df s 2 _ ?_ hs hd
  intro s1 hs1 hd1
  refine shape_readThen cfg t df s1 _ _ ?_ hs1 hd1
  intro s2 hs2 hd2
  exact shape_auth cfg env t df _ (shape_write t s2 _ hs2) hd2

/-- Every run of the handshake either panics while acquiring the first buffer
(negative buffer size), or acquires it and then has one of the two shapes. -/
theorem shape_handshake (cfg : Config) (env : Env) (input : List Byte) :
    (cfg.bufsize < 0 ∧
      handshake cfg env input =
        { outcome := .panicked, trace := [.counterAdd 1, .counterAdd (-1)], rest := input,
          pending := [] }) ∨
    (0 ≤ cfg.bufsize ∧
      ShapeFrom [.counterAdd 1, .poolGet 1, .setDeadline] [.poolPut 1, .counterAdd (-1)]
        (handshake cfg env input)) := by
  unfold handshake
  dsimp only
  split_ifs with hneg
  · left
    exact ⟨hneg, rfl⟩
  · right
    refine ⟨by omega, shape_greeting cfg env _ _ _ ⟨[], quiet_nil, ?_⟩ rfl⟩
    simp [St.log, St.defer]

theorem resources_append (a b : List (Event ⊕ RelayEvent)) :
    resources (a ++ b) = resources a ++ resources b := by
  induction a with
  | nil => rfl
  | cons x a ih =>
    cases x with
    | inl e => cases e <;> simp [resources, ih]
    | inr e => simp [resources, ih]

theorem resources_inr (l : List RelayEvent) : resources (l.map Sum.inr) = [] := by
  induction l with
  | nil => rfl
  | cons e l ih => simp [resources, ih]

theorem resources_quiet (tl : List Event) (h : Quiet tl) : resources (tl.map Sum.inl) = [] := by
  induction tl with
  | nil => rfl
  | cons e tl ih =>
    have he := h e (by simp)
    have ht : Quiet tl := fun x hx => h x (by simp [hx])
    cases e with
    | counterAdd d => exact absurd rfl (he.1 d)
    | poolGet k => exact absurd rfl (he.2.1 k)
    | poolPut k => exact absurd rfl (he.2.2 k)
    | setDeadline => simpa [resources] using ih ht
    | clearDeadline => simpa [resources] using ih ht
    | read bs => simpa [resources] using ih ht
    | write bs => simpa [resources] using ih ht
    | dial a ok => simpa [resources] using ih ht
    | close => simpa [resources] using ih ht

theorem handle_established (cfg : Config) (env : Env) (input fromDst : List Byte)
    (sched : List Choice) (h : (handshake cfg env input).outcome = .established) :
    handle cfg env input fromDst sched =
      { hs := handshake cfg env input,
        relay := some (relayRun (handshake cfg env input).rest fromDst sched) } := by
  unfold handle
  simp only [h]

theorem handle_other (cfg : Config) (env : Env) (input fromDst : List Byte)
    (sched : List Choice) (h : (handshake cfg env input).outcome ≠ .established) :
    handle cfg env input fromDst sched =
      { hs := handshake cfg env input, relay := none } := by
  unfold handle
  cases ho : (handshake cfg env input).outcome with
  | established => exact absurd ho h
  | returned => simp only [ho]
  | panicked => simp only [ho]

/-- The three kinds of run of `handle`. -/
theorem handle_cases (cfg : Config) (env : Env) (input fromDst : List Byte)
    (sched : List Choice) :
    (cfg.bufsize < 0 ∧ (handle cfg env input fromDst sched).relay = none ∧
      (handle cfg env input fromDst sched).hs.trace = [.counterAdd 1, .counterAdd (-1)]) ∨
    (0 ≤ cfg.bufsize ∧ (handle cfg env input fromDst sched).relay = none ∧
      ∃ tl, Quiet tl ∧ (handle cfg env input fromDst sched).hs.trace =
        [.counterAdd 1, .poolGet 1, .setDeadline] ++ tl ++ [.poolPut 1, .counterAdd (-1)]) ∨
    (0 ≤ cfg.bufsize ∧
      (handle cfg env input fromDst sched).relay =
        some (relayRun (handshake cfg env input).rest fromDst sched) ∧
      (handle cfg env input fromDst sched).hs.pending =
        [.poolPut 2, .poolPut 1, .counterAdd (-1)] ∧
      ∃ tl, Quiet tl ∧ (handle cfg env input fromDst sched).hs.trace =
        [.counterAdd 1, .poolGet 1, .setDeadline] ++ tl ++
          [.write replySuccess, .clearDeadline, .poolGet 2]) := by
  rcases shape_handshake cfg env input with ⟨hneg, hr⟩ | ⟨hpos, hsh⟩
  · left
    have ho : (handshake cfg env input).outcome ≠ .established := by
      rw [hr]
      simp
    rw [handle_other cfg env input fromDst sched ho]
    exact ⟨hneg, rfl, by rw [hr]⟩
  · rcases hsh with ⟨ho, hp, tl, hq, htr⟩ | ⟨ho, hp, tl, hq, htr⟩
    · right
      right
      rw [handle_established cfg env input fromDst sched ho]
      exact ⟨hpos, rfl, hp, tl, hq, htr⟩
    · right
      left
      rw [handle_other cfg env input fromDst sched ho]
      exact ⟨hpos, rfl, tl, hq, htr⟩

/-- The counter and pool events of every run of `handle`. -/
theorem handle_resources (cfg : Config) (env : Env) (input fromDst : List Byte)
    (sched : List Choice) :
    (cfg.bufsize < 0 ∧ (handle cfg env input fromDst sched).relay = none ∧
      resources (handle cfg env input fromDst sched).log =
        [.counterAdd 1, .counterAdd (-1)]) ∨
    (0 ≤ cfg.bufsize ∧ (handle cfg env input fromDst sched).relay = none ∧
      resources (handle cfg env input fromDst sched).log =
        [.counterAdd 1, .poolGet 1, .poolPut 1, .counterAdd (-1)]) ∨
    (0 ≤ cfg.bufsize ∧ (∃ st, (handle cfg env input fromDst sched).relay = some st ∧
        st.pc ≠ 7) ∧
      resources (handle cfg env input fromDst sched).log =
        [.counterAdd 1, .poolGet 1, .poolGet 2]) ∨
    (0 ≤ cfg.bufsize ∧ (∃ st, (handle cfg env input fromDst sched).relay = some st ∧
        st.pc = 7) ∧
      resources (handle cfg env input fromDst sched).log =
        [.counterAdd 1, .poolGet 1, .poolGet 2, .poolPut 2, .poolPut 1, .counterAdd (-1)]) := by
  rcases handle_cases cfg env input fromDst sched with
    ⟨hneg, hrel, htr⟩ | ⟨hpos, hrel, tl, hq, htr⟩ | ⟨hpos, hrel, hpend, tl, hq, htr⟩
  · left
    refine ⟨hneg, hrel, ?_⟩
    unfold Session.log
    rw [hrel]
    dsimp only
    rw [htr]
    rfl
  · right
    left
    refine ⟨hpos, hrel, ?_⟩
    unfold Session.log
    rw [hrel]
    dsimp only
    rw [htr]
    simp only [List.map_append, resources_append, resources_quiet tl hq]
    rfl
  · by_cases hpc : (relayRun (handshake cfg env input).rest fromDst sched).pc = 7
    · right
      right
      right
      refine ⟨hpos, ⟨_, hrel, hpc⟩, ?_⟩
      unfold Session.log
      rw [hrel]
      dsimp only
      rw [htr, hpend, if_pos hpc]
      simp only [List.map_append, resources_append, resources_quiet tl hq, resources_inr]
      rfl
    · right
      right
      left
      refine ⟨hpos, ⟨_, hrel, hpc⟩, ?_⟩
      unfold Session.log
      rw [hrel]
      dsimp only
      rw [htr, if_neg hpc]
      simp only [List.map_append, resources_append, resources_quiet tl hq, resources_inr]
      rfl

theorem handle_first (cfg : Config) (env : Env) (input fromDst : List Byte)
    (sched : List Choice) :
    ∃ tl, (handle cfg env input fromDst sched).log = Sum.inl (.counterAdd 1) :: tl := by
  rcases handle_cases cfg env input fromDst sched with
    ⟨hneg, hrel, htr⟩ | ⟨hpos, hrel, tl, hq, htr⟩ | ⟨hpos, hrel, hpend, tl, hq, htr⟩
  · unfold Session.log
    rw [hrel]
    dsimp only
    rw [htr]
    exact ⟨_, rfl⟩
  · unfold Session.log
    rw [hrel]
    dsimp only
    rw [htr]
    exact ⟨_, rfl⟩
  · unfold Session.log
    rw [hrel]
    dsimp only
    rw [htr]
    exact ⟨_, rfl⟩

theorem handle_last (cfg : Config) (env : Env) (input fromDst : List Byte)
    (sched : List Choice) (hex : (handle cfg env input fromDst sched).exited = true) :
    ∃ pre, (handle cfg env input fromDst sched).log =
      pre ++ [Sum.inl (.counterAdd (-1))] := by
  rcases handle_cases cfg env input fromDst sched with
    ⟨hneg, hrel, htr⟩ | ⟨hpos, hrel, tl, hq, htr⟩ | ⟨hpos, hrel, hpend, tl, hq, htr⟩
  · unfold Session.log
    rw [hrel]
    dsimp only
    rw [htr]
    exact ⟨[Sum.inl (.counterAdd 1)], rfl⟩
  · unfold Session.log
    rw [hrel]
    dsimp only
    rw [htr]
    exact ⟨([Event.counterAdd 1, Event.poolGet 1, Event.setDeadline] ++ tl ++
        [Event.poolPut 1]).map Sum.inl,
      by simp⟩
  · unfold Session.exited at hex
    rw [hrel] at hex
    have hpc : (relayRun (handshake cfg env input).rest fromDst sched).pc = 7 := by
      simpa using hex
    unfold Session.log
    rw [hrel]
    dsimp only
    rw [hpend, if_pos hpc]
    exact ⟨(handle cfg env input fromDst sched).hs.trace.map Sum.inl ++
        (relayRun (handshake cfg env input).rest fromDst sched).trace.map Sum.inr ++
        [Sum.inl (.poolPut 2), Sum.inl (.poolPut 1)], by simp⟩

theorem handle_relay (cfg : Config) (env : Env) (input fromDst : List Byte)
    (sched : List Choice) (st : Relay)
    (h : (handle cfg env input fromDst sched).relay = some st) :
    (handshake cfg env input).outcome = .established ∧
      st = relayRun (handshake cfg env input).rest fromDst sched ∧
      (handle cfg env input fromDst sched).hs = handshake cfg env input := by
  by_cases ho : (handshake cfg env input).outcome = .established
  · rw [handle_established cfg env input fromDst sched ho] at h ⊢
    simp only [Option.some.injEq] at h
    exact ⟨ho, h.symm, rfl⟩
  · rw [handle_other cfg env input fromDst sched ho] at h
    simp at h

theorem main_advance (s : Relay) (h : SyncInv s) (hsig : ∃ d, RelayEvent.signal d ∈ s.trace) :
    1 ≤ s.pc ∧ (s.pc < 5 → (mainStep s).pc = s.pc + 1) ∧ s.pc ≤ (mainStep s).pc ∧
      ∃ d, RelayEvent.signal d ∈ (mainStep s).trace := by
  obtain ⟨d, hd⟩ := hsig
  have hfin : 1 ≤ finishedLoops s := by
    unfold finishedLoops
    cases d
    · rw [if_pos (h.sigUp.mpr hd)]
      omega
    · rw [if_pos (h.sigDown.mpr hd)]
      omega
  have hpc1 : 1 ≤ s.pc := by
    by_contra hlt
    have h0 : s.pc = 0 := by omega
    have hu := h.started.1 h0
    have hdn := h.started.2 (by omega)
    simp [finishedLoops, hu, hdn] at hfin
  have hchan : s.pc ≤ 2 → 0 < s.chan := by
    intro hle
    have hc := h.count
    simp only [receives, if_pos hle] at hc
    omega
  refine ⟨hpc1, ?_, ?_, ?_⟩
  · intro hlt
    unfold mainStep
    split
    · next hpc => simp [hpc]
    · next hpc => simp [hpc]
    · next hpc => simp [hpc, hchan (by omega)]
    · next hpc => simp [hpc]
    · next hpc => simp [hpc]
    · next hpc => omega
    · next hpc => omega
    · next h0 h1 h2 h3 h4 h5 h6 =>
      have e0 : s.pc ≠ 0 := h0
      have e1 : s.pc ≠ 1 := h1
      have e2 : s.pc ≠ 2 := h2
      have e3 : s.pc ≠ 3 := h3
      have e4 : s.pc ≠ 4 := h4
      omega
  · unfold mainStep
    split
    · next hpc => simp [hpc]
    · next hpc => simp [hpc]
    · next hpc => split_ifs <;> simp [hpc]
    · next hpc => simp [hpc]
    · next hpc => simp [hpc]
    · next hpc => split_ifs <;> simp [hpc]
    · next hpc => simp [hpc]
    · exact le_refl _
  · refine ⟨d, ?_⟩
    unfold mainStep
    split
    · simp [Relay.log, hd]
    · simp [Relay.log, hd]
    · split_ifs
      · simp [Relay.log, hd]
      · exact hd
    · simp [Relay.log, hd]
    · simp [Relay.log, hd]
    · split_ifs
      · simp [Relay.log, hd]
      · exact hd
    · simp [Relay.log, hd]
    · exact hd

/-- Once a copy loop has signalled, four steps of the handler goroutine close
both transports. -/
theorem main_closes (s : Relay) (h : SyncInv s) (hsig : ∃ d, RelayEvent.signal d ∈ s.trace) :
    5 ≤ (mainStep (mainStep (mainStep (mainStep s)))).pc := by
  obtain ⟨h1, ha1, hm1, hs1⟩ := main_advance s h hsig
  have i1 := sync_main s h
  obtain ⟨_, ha2, hm2, hs2⟩ := main_advance _ i1 hs1
  have i2 := sync_main _ i1
  obtain ⟨_, ha3, hm3, hs3⟩ := main_advance _ i2 hs2
  have i3 := sync_main _ i2
  obtain ⟨_, ha4, hm4, _⟩ := main_advance _ i3 hs3
  by_cases c1 : s.pc < 5
  · have e1 := ha1 c1
    by_cases c2 : (mainStep s).pc < 5
    · have e2 := ha2 c2
      by_cases c3 : (mainStep (mainStep s)).pc < 5
      · have e3 := ha3 c3
        by_cases c4 : (mainStep (mainStep (mainStep s))).pc < 5
        · have e4 := ha4 c4
          omega
        · omega
      · omega
    · omega
  · omega

theorem run_connected (cfg : Config) (env : Env) (v n : Byte) (methods : List Byte)
    (av ul pl rv rsv atyp ph plo : Byte) (field payload : List Byte)
    (hcap : 255 ≤ cfg.bufsize) (hm : methods.length = n.val)
    (hu : cfg.username.length = ul.val) (hp : cfg.password.length = pl.val)
    (hwf : addrComplete atyp field = true)
    (hdial : env.dial (joinHostPort (targetOf atyp field) (decimal (portOf ph plo))) = true) :
    (handshake cfg env
        (greetingMsg v n methods ++ authMsg av ul cfg.username pl cfg.password ++
          requestMsg rv 0x01 rsv atyp field ph plo ++ payload)).outcome = .established ∧
    (handshake cfg env
        (greetingMsg v n methods ++ authMsg av ul cfg.username pl cfg.password ++
          requestMsg rv 0x01 rsv atyp field ph plo ++ payload)).rest = payload := by
  rw [run_complete cfg env v n methods av ul pl rv rsv atyp ph plo field payload
      hcap hm hu hp hwf, if_pos hdial]
  exact ⟨rfl, rfl⟩

theorem returned_signals (s : Relay) (h : SyncInv s) (hpc : s.pc = 7) :
    RelayEvent.ret ∈ s.trace ∧ RelayEvent.signal .up ∈ s.trace ∧
      RelayEvent.signal .down ∈ s.trace := by
  have hr := h.returned hpc
  obtain ⟨pre, post, hsplit⟩ := List.append_of_mem hr
  obtain ⟨hu, hd⟩ := h.ret pre post hsplit
  refine ⟨hr, ?_, ?_⟩
  · rw [hsplit]
    exact List.mem_append_left _ hu
  · rw [hsplit]
    exact List.mem_append_left _ hd

/-! ## The relay: what each copy loop delivers -/

theorem received_append (d : Dir) (t u : List RelayEvent) :
    received d (t ++ u) = received d t ++ received d u := by
  induction t with
  | nil => rfl
  | cons e t ih =>
    cases e with
    | read d' bs err => by_cases hd : d' = d <;> simp [received, hd, ih]
    | _ => simp [received, ih]

theorem copyObs_snoc (d : Dir) (tr : List RelayEvent) (e : RelayEvent) :
    copyObs d (tr ++ [e]) = obsStep d (copyObs d tr) e := by
  simp [copyObs, List.foldl_append]

theorem copied_congr (d : Dir) (stream : List Byte) (s s' : Relay)
    (hl : s'.loop d = s.loop d ∨ (s.loop d = .idle ∧ s'.loop d = .reading))
    (hsrc : s'.source d = s.source d) (hdel : delivered d s'.trace = delivered d s.trace)
    (hrec : received d s'.trace = received d s.trace)
    (hobs : copyObs d s'.trace = copyObs d s.trace)
    (h : Copied d stream s) : Copied d stream s' := by
  obtain ⟨h1, h2, h3, h4⟩ := h
  refine ⟨by rw [hdel, hobs, hsrc]; exact h1, by rw [hrec, hsrc]; exact h2, ?_, ?_⟩
  · intro hi
    rcases hl with hl | ⟨_, hr⟩
    · rw [hsrc]
      exact h3 (hl ▸ hi)
    · rw [hr] at hi
      cases hi
  · rcases hl with hl | ⟨hi, hr⟩
    · rw [hl, hobs]
      exact h4
    · rw [hi] at h4
      rw [hr, hobs]
      exact h4

theorem copied_main (d : Dir) (stream : List Byte) (s : Relay)
    (hs : NotStarted s) (h : Copied d stream s) : Copied d stream (mainStep s) := by
  obtain ⟨h0, h1⟩ := hs
  unfold mainStep
  split
  · next hpc =>
    apply copied_congr d stream s _ _ _ _ _ _ h
    · cases d
      · right
        exact ⟨h0 hpc, rfl⟩
      · left
        rfl
    · cases d <;> rfl
    · simp [Relay.log, delivered_append, delivered]
    · simp [Relay.log, received_append, received]
    · simp [Relay.log, copyObs_snoc, obsStep]
  · next hpc =>
    apply copied_congr d stream s _ _ _ _ _ _ h
    · cases d
      · left
        rfl
      · right
        exact ⟨h1 (by omega), rfl⟩
    · cases d <;> rfl
    · simp [Relay.log, delivered_append, delivered]
    · simp [Relay.log, received_append, received]
    · simp [Relay.log, copyObs_snoc, obsStep]
  · split_ifs
    · apply copied_congr d stream s _ (Or.inl _) _ _ _ _ h
      · cases d <;> rfl
      · cases d <;> rfl
      · simp [Relay.log, delivered_append, delivered]
      · simp [Relay.log, received_append, received]
      · simp [Relay.log, copyObs_snoc, obsStep]
    · exact h
  · apply copied_congr d stream s _ (Or.inl _) _ _ _ _ h
    · cases d <;> rfl
    · cases d <;> rfl
    · simp [Relay.log, delivered_append, delivered]
    · simp [Relay.log, received_append, received]
    · simp [Relay.log, copyObs_snoc, obsStep]
  · apply copied_congr d stream s _ (Or.inl _) _ _ _ _ h
    · cases d <;> rfl
    · cases d <;> rfl
    · simp [Relay.log, delivered_append, delivered]
    · simp [Relay.log, received_append, received]
    · simp [Relay.log, copyObs_snoc, obsStep]
  · split_ifs
    · apply copied_congr d stream s _ (Or.inl _) _ _ _ _ h
      · cases d <;> rfl
      · cases d <;> rfl
      · simp [Relay.log, delivered_append, delivered]
      · simp [Relay.log, received_append, received]
      · simp [Relay.log, copyObs_snoc, obsStep]
    · exact h
  · apply copied_congr d stream s _ (Or.inl _) _ _ _ _ h
    · cases d <;> rfl
    · cases d <;> rfl
    · simp [Relay.log, delivered_append, delivered]
    · simp [Relay.log, received_append, received]
    · simp [Relay.log, copyObs_snoc, obsStep]
  · exact h

theorem copied_signal (d d' : Dir) (stream : List Byte) (s : Relay)
    (h : Copied d stream s) : Copied d stream (signalStep s d') := by
  unfold signalStep
  cases hl : s.loop d' with
  | signalling =>
    dsimp only
    split_ifs
    · obtain ⟨h1, h2, h3, h4⟩ := h
      have hdel : delivered d ((s.setLoop d' .finished).log (.signal d')).trace =
          delivered d s.trace := by
        cases d' <;> simp [Relay.log, Relay.setLoop, delivered_append, delivered]
      have hrec : received d ((s.setLoop d' .finished).log (.signal d')).trace =
          received d s.trace := by
        cases d' <;> simp [Relay.log, Relay.setLoop, received_append, received]
      have hobs : copyObs d ((s.setLoop d' .finished).log (.signal d')).trace =
          copyObs d s.trace := by
        cases d' <;> simp [Relay.log, Relay.setLoop, copyObs_snoc, obsStep]
      have hsrc : ({ ((s.setLoop d' .finished).log (.signal d')) with
          chan := s.chan + 1 } : Relay).source d = s.source d := by
        cases d <;> cases d' <;> rfl
      refine ⟨?_, ?_, ?_, ?_⟩
      · show stream = delivered d ((s.setLoop d' .finished).log (.signal d')).trace ++
          (copyObs d ((s.setLoop d' .finished).log (.signal d')).trace).hand ++ _
        rw [hdel, hobs, hsrc]
        exact h1
      · show stream = received d ((s.setLoop d' .finished).log (.signal d')).trace ++ _
        rw [hrec, hsrc]
        exact h2
      · intro hi
        rw [hsrc]
        apply h3
        cases d <;> cases d' <;> simp_all [Relay.loop, Relay.setLoop, Relay.log]
      · show LoopObs _ (copyObs d ((s.setLoop d' .finished).log (.signal d')).trace)
        rw [hobs]
        cases d <;> cases d' <;> simp_all [Relay.loop, Relay.setLoop, Relay.log, LoopObs]
    · exact h
  | idle => exact h
  | reading => exact h
  | writing c e => exact h
  | finished => exact h

theorem loop_setLoop (s : Relay) (d : Dir) (l : Loop) (e : RelayEvent) :
    ((s.setLoop d l).log e).loop d = l := by
  cases d <;> rfl

theorem loop_setLoop_ne (s : Relay) (d d' : Dir) (l : Loop) (e : RelayEvent) (hd : d' ≠ d) :
    ((s.setLoop d' l).log e).loop d = s.loop d := by
  cases d <;> cases d' <;> first | rfl | exact absurd rfl hd

theorem source_setLoop (s : Relay) (d d' : Dir) (l : Loop) (e : RelayEvent) :
    ((s.setLoop d' l).log e).source d = s.source d := by
  cases d <;> cases d' <;> rfl

theorem trace_setLoop (s : Relay) (d : Dir) (l : Loop) (e : RelayEvent) :
    ((s.setLoop d l).log e).trace = s.trace ++ [e] := by
  cases d <;> rfl

theorem loop_setSource (s : Relay) (d : Dir) (bs : List Byte) (l : Loop) (e : RelayEvent) :
    (((s.setSource d bs).setLoop d l).log e).loop d = l := by
  cases d <;> rfl

theorem loop_setSource_ne (s : Relay) (d d' : Dir) (bs : List Byte) (l : Loop)
    (e : RelayEvent) (hd : d' ≠ d) :
    (((s.setSource d' bs).setLoop d' l).log e).loop d = s.loop d := by
  cases d <;> cases d' <;> first | rfl | exact absurd rfl hd

theorem source_setSource (s : Relay) (d : Dir) (bs : List Byte) (l : Loop) (e : RelayEvent) :
    (((s.setSource d bs).setLoop d l).log e).source d = bs := by
  cases d <;> rfl

theorem source_setSource_ne (s : Relay) (d d' : Dir) (bs : List Byte) (l : Loop)
    (e : RelayEvent) (hd : d' ≠ d) :
    (((s.setSource d' bs).setLoop d' l).log e).source d = s.source d := by
  cases d <;> cases d' <;> first | rfl | exact absurd rfl hd

theorem trace_setSource (s : Relay) (d : Dir) (bs : List Byte) (l : Loop) (e : RelayEvent) :
    (((s.setSource d bs).setLoop d l).log e).trace = s.trace ++ [e] := by
  cases d <;> rfl

theorem delivered_snoc_read (d d' : Dir) (tr : List RelayEvent) (bs : List Byte) (e : Bool) :
    delivered d (tr ++ [.read d' bs e]) = delivered d tr := by
  simp [delivered_append, delivered]

theorem delivered_snoc_write (d : Dir) (tr : List RelayEvent) (bs : List Byte) (e : Bool) :
    delivered d (tr ++ [.write d bs e]) = delivered d tr ++ bs := by
  simp [delivered_append, delivered]

theorem delivered_snoc_write_ne (d d' : Dir) (tr : List RelayEvent) (bs : List Byte)
    (e : Bool) (hd : d' ≠ d) : delivered d (tr ++ [.write d' bs e]) = delivered d tr := by
  simp [delivered_append, delivered, hd]

theorem received_snoc_write (d d' : Dir) (tr : List RelayEvent) (bs : List Byte) (e : Bool) :
    received d (tr ++ [.write d' bs e]) = received d tr := by
  simp [received_append, received]

theorem received_snoc_read (d : Dir) (tr : List RelayEvent) (bs : List Byte) (e : Bool) :
    received d (tr ++ [.read d bs e]) = received d tr ++ bs := by
  simp [received_append, received]

theorem received_snoc_read_ne (d d' : Dir) (tr : List RelayEvent) (bs : List Byte)
    (e : Bool) (hd : d' ≠ d) : received d (tr ++ [.read d' bs e]) = received d tr := by
  simp [received_append, received, hd]

theorem copyObs_snoc_read (d : Dir) (tr : List RelayEvent) (bs : List Byte) (e : Bool) :
    copyObs d (tr ++ [.read d bs e]) =
      { copyObs d tr with hand := bs, readErr := (copyObs d tr).readErr || e } := by
  simp [copyObs_snoc, obsStep]

theorem copyObs_snoc_read_ne (d d' : Dir) (tr : List RelayEvent) (bs : List Byte)
    (e : Bool) (hd : d' ≠ d) : copyObs d (tr ++ [.read d' bs e]) = copyObs d tr := by
  simp [copyObs_snoc, obsStep, hd]

theorem copyObs_snoc_write (d : Dir) (tr : List RelayEvent) (bs : List Byte) (e : Bool) :
    copyObs d (tr ++ [.write d bs e]) =
      { hand := (copyObs d tr).hand.drop bs.length, readErr := (copyObs d tr).readErr,
        writeErr := (copyObs d tr).writeErr || e,
        short := (copyObs d tr).short || decide (bs.length < (copyObs d tr).hand.length) } := by
  simp [copyObs_snoc, obsStep]

theorem copyObs_snoc_write_ne (d d' : Dir) (tr : List RelayEvent) (bs : List Byte)
    (e : Bool) (hd : d' ≠ d) : copyObs d (tr ++ [.write d' bs e]) = copyObs d tr := by
  simp [copyObs_snoc, obsStep, hd]

/-- A `Read` or `Write` of the other loop leaves the copy invariant alone. -/
theorem copied_read_ne (d d' : Dir) (stream : List Byte) (s : Relay) (n : Nat) (err : Bool)
    (hd : d' ≠ d) (h : Copied d stream s) : Copied d stream (readStep s d' n err) := by
  unfold readStep
  cases hl : s.loop d' with
  | reading =>
    dsimp only
    split_ifs with hc ht he
    · exact copied_congr d stream s _ (Or.inl (loop_setLoop_ne s d d' _ _ hd))
        (source_setLoop s d d' _ _)
        (by rw [trace_setLoop, delivered_snoc_read])
        (by rw [trace_setLoop, received_snoc_read_ne d d' _ _ _ hd])
        (by rw [trace_setLoop, copyObs_snoc_read_ne d d' _ _ _ hd]) h
    · exact copied_congr d stream s _ (Or.inl (loop_setLoop_ne s d d' _ _ hd))
        (source_setLoop s d d' _ _)
        (by rw [trace_setLoop, delivered_snoc_read])
        (by rw [trace_setLoop, received_snoc_read_ne d d' _ _ _ hd])
        (by rw [trace_setLoop, copyObs_snoc_read_ne d d' _ _ _ hd]) h
    · exact h
    · exact copied_congr d stream s _ (Or.inl (loop_setSource_ne s d d' _ _ _ hd))
        (source_setSource_ne s d d' _ _ _ hd)
        (by rw [trace_setSource, delivered_snoc_read])
        (by rw [trace_setSource, received_snoc_read_ne d d' _ _ _ hd])
        (by rw [trace_setSource, copyObs_snoc_read_ne d d' _ _ _ hd]) h
  | idle => exact h
  | writing c e => exact h
  | signalling => exact h
  | finished => exact h

theorem copied_write_ne (d d' : Dir) (stream : List Byte) (s : Relay) (n : Nat) (err : Bool)
    (hd : d' ≠ d) (h : Copied d stream s) : Copied d stream (writeStep s d' n err) := by
  unfold writeStep
  cases hl : s.loop d' with
  | writing chunk rerr =>
    dsimp only
    split_ifs with hc ht
    · exact copied_congr d stream s _ (Or.inl (loop_setLoop_ne s d d' _ _ hd))
        (source_setLoop s d d' _ _)
        (by rw [trace_setLoop, delivered_snoc_write_ne d d' _ _ _ hd])
        (by rw [trace_setLoop, received_snoc_write])
        (by rw [trace_setLoop, copyObs_snoc_write_ne d d' _ _ _ hd]) h
    · exact copied_congr d stream s _ (Or.inl (loop_setLoop_ne s d d' _ _ hd))
        (source_setLoop s d d' _ _)
        (by rw [trace_setLoop, delivered_snoc_write_ne d d' _ _ _ hd])
        (by rw [trace_setLoop, received_snoc_write])
        (by rw [trace_setLoop, copyObs_snoc_write_ne d d' _ _ _ hd]) h
    · exact copied_congr d stream s _ (Or.inl (loop_setLoop_ne s d d' _ _ hd))
        (source_setLoop s d d' _ _)
        (by rw [trace_setLoop, delivered_snoc_write_ne d d' _ _ _ hd])
        (by rw [trace_setLoop, received_snoc_write])
        (by rw [trace_setLoop, copyObs_snoc_write_ne d d' _ _ _ hd]) h
  | idle => exact h
  | reading => exact h
  | signalling => exact h
  | finished => exact h

/-- A `Read` of the loop itself keeps the copy invariant. -/
theorem copied_read_self (d : Dir) (stream : List Byte) (s : Relay) (n : Nat) (err : Bool)
    (h : Copied d stream s) : Copied d stream (readStep s d n err) := by
  unfold readStep
  cases hl : s.loop d with
  | reading =>
    dsimp only
    obtain ⟨h1, h2, h3, h4⟩ := h
    rw [hl] at h4
    simp only [LoopObs] at h4
    rw [h4] at h1
    split_ifs with hc ht he
    · refine ⟨?_, ?_, ?_, ?_⟩
      · rw [trace_setLoop, delivered_snoc_read, copyObs_snoc_read, source_setLoop]
        exact h1
      · rw [trace_setLoop, received_snoc_read, source_setLoop]
        simpa using h2
      · rw [loop_setLoop]
        intro hi
        cases hi
      · rw [loop_setLoop, trace_setLoop, copyObs_snoc_read, h4]
        simp [LoopObs, Stopped]
    · refine ⟨?_, ?_, ?_, ?_⟩
      · rw [trace_setLoop, delivered_snoc_read, copyObs_snoc_read, source_setLoop]
        exact h1
      · rw [trace_setLoop, received_snoc_read, source_setLoop]
        simpa using h2
      · rw [loop_setLoop]
        intro hi
        cases hi
      · rw [loop_setLoop, trace_setLoop, copyObs_snoc_read, h4]
        simp [LoopObs, Stopped]
    · refine ⟨?_, h2, h3, ?_⟩
      · rw [h4]
        exact h1
      · rw [hl]
        exact h4
    · refine ⟨?_, ?_, ?_, ?_⟩
      · rw [trace_setSource, delivered_snoc_read, copyObs_snoc_read, source_setSource]
        simp only [List.append_assoc, List.take_append_drop]
        simpa using h1
      · rw [trace_setSource, received_snoc_read, source_setSource]
        simp only [List.append_assoc, List.take_append_drop]
        exact h2
      · rw [loop_setSource]
        intro hi
        cases hi
      · rw [loop_setSource, trace_setSource, copyObs_snoc_read, h4]
        simp only [LoopObs, Bool.false_or]
        exact ⟨trivial, ht⟩
  | idle => exact h
  | writing c e => exact h
  | signalling => exact h
  | finished => exact h

/-- A `Write` of the loop itself keeps the copy invariant. -/
theorem copied_write_self (d : Dir) (stream : List Byte) (s : Relay) (n : Nat) (err : Bool)
    (h : Copied d stream s) : Copied d stream (writeStep s d n err) := by
  unfold writeStep
  cases hl : s.loop d with
  | writing chunk rerr =>
    dsimp only
    obtain ⟨h1, h2, h3, h4⟩ := h
    rw [hl] at h4
    simp only [LoopObs] at h4
    obtain ⟨h4, hne⟩ := h4
    rw [h4] at h1
    have hpos : 0 < chunk.length := List.length_pos.mpr hne
    split_ifs with hc ht
    · refine ⟨?_, ?_, ?_, ?_⟩
      · rw [trace_setLoop, delivered_snoc_write, copyObs_snoc_write, source_setLoop, h4]
        simpa using h1
      · rw [trace_setLoop, received_snoc_write, source_setLoop]
        exact h2
      · rw [loop_setLoop]
        intro hi
        cases hi
      · rw [loop_setLoop, trace_setLoop, copyObs_snoc_write, h4]
        simp [LoopObs, Stopped]
    · refine ⟨?_, ?_, ?_, ?_⟩
      · rw [trace_setLoop, delivered_snoc_write, copyObs_snoc_write, source_setLoop, h4]
        simp only [List.length_take, List.append_assoc]
        have hdrop : List.drop (min n chunk.length) chunk = List.drop n chunk := by
          rcases Nat.lt_or_ge n chunk.length with hlt | hge
          · rw [Nat.min_eq_left (Nat.le_of_lt hlt)]
          · rw [Nat.min_eq_right hge, List.drop_length, List.drop_eq_nil_of_le hge]
        rw [hdrop, ← List.append_assoc (List.take n chunk), List.take_append_drop]
        simpa using h1
      · rw [trace_setLoop, received_snoc_write, source_setLoop]
        exact h2
      · rw [loop_setLoop]
        intro hi
        cases hi
      · rw [loop_setLoop, trace_setLoop, copyObs_snoc_write, h4]
        simp only [LoopObs, Stopped, Bool.false_or, List.length_take]
        simp only [Bool.or_eq_true, decide_eq_true_eq] at ht
        constructor
        · rcases ht with (he | hlt) | hr
          · exact Or.inr (Or.inl he)
          · right
            right
            simp only [decide_eq_true_eq]
            omega
          · exact Or.inl hr
        · intro hhand
          by_cases hlt : n < chunk.length
          · right
            simp only [decide_eq_true_eq]
            omega
          · exfalso
            apply hhand
            apply List.drop_eq_nil_of_le
            omega
    · simp only [Bool.or_eq_true, decide_eq_true_eq, not_or, not_lt, Bool.not_eq_true] at ht
      obtain ⟨⟨he, hn⟩, hr⟩ := ht
      refine ⟨?_, ?_, ?_, ?_⟩
      · rw [trace_setLoop, delivered_snoc_write, copyObs_snoc_write, source_setLoop, h4]
        simpa using h1
      · rw [trace_setLoop, received_snoc_write, source_setLoop]
        exact h2
      · rw [loop_setLoop]
        intro hi
        cases hi
      · rw [loop_setLoop, trace_setLoop, copyObs_snoc_write, h4]
        simp [LoopObs, hr]
  | idle => exact h
  | reading => exact h
  | signalling => exact h
  | finished => exact h

theorem copied_step (d : Dir) (stream : List Byte) (s : Relay) (c : Choice)
    (hs : NotStarted s) (h : Copied d stream s) : Copied d stream (relayStep s c) := by
  cases c with
  | main => exact copied_main d stream s hs h
  | read d' n err =>
    by_cases hd : d' = d
    · subst hd
      exact copied_read_self d' stream s n err h
    · exact copied_read_ne d d' stream s n err hd h
  | write d' n err =>
    by_cases hd : d' = d
    · subst hd
      exact copied_write_self d' stream s n err h
    · exact copied_write_ne d d' stream s n err hd h
  | signal d' => exact copied_signal d d' stream s h

theorem copied_fold (d : Dir) (stream : List Byte) (sched : List Choice) (s : Relay)
    (hs : SyncInv s) (h : Copied d stream s) :
    Copied d stream (sched.foldl relayStep s) := by
  induction sched generalizing s with
  | nil => exact h
  | cons c rest ih => exact ih _ (sync_step s c hs) (copied_step d stream s c hs.started h)

theorem copied_run (fromClient fromDst : List Byte) (sched : List Choice) :
    Copied .up fromClient (relayRun fromClient fromDst sched) ∧
      Copied .down fromDst (relayRun fromClient fromDst sched) := by
  constructor
  · exact copied_fold .up fromClient sched _ (sync_init fromClient fromDst)
      (by simp [Copied, LoopObs, copyObs, relayInit, Relay.loop, Relay.source, delivered,
        received])
  · exact copied_fold .down fromDst sched _ (sync_init fromClient fromDst)
      (by simp [Copied, LoopObs, copyObs, relayInit, Relay.loop, Relay.source, delivered,
        received])

/-! ## The relay: closed transports -/

theorem closed_snoc (s s' : Relay) (x : RelayEvent) (htr : s'.trace = s.trace ++ [x])
    (hcc : s.clientClosed = true → s'.clientClosed = true)
    (hx1 : x = .closeClient → s'.clientClosed = true)
    (hcd : s.dstClosed = true → s'.dstClosed = true)
    (hx2 : x = .closeDst → s'.dstClosed = true)
    (hw : ∀ d bs e, x = .write d bs e → closeSink d ∈ s.trace → bs = [] ∧ e = true)
    (hr : ∀ d bs e, x = .read d bs e → closeSource d ∈ s.trace → bs = [] ∧ e = true)
    (h : ClosedInv s) : ClosedInv s' := by
  obtain ⟨h1, h2, h3, h4⟩ := h
  refine ⟨?_, ?_, ?_, ?_⟩
  · intro hm
    rw [htr, List.mem_append, List.mem_singleton] at hm
    rcases hm with hm | hm
    · exact hcc (h1 hm)
    · exact hx1 hm.symm
  · intro hm
    rw [htr, List.mem_append, List.mem_singleton] at hm
    rcases hm with hm | hm
    · exact hcd (h2 hm)
    · exact hx2 hm.symm
  · intro d bs e pre post hsplit hmem
    rw [htr] at hsplit
    rcases snoc_split s.trace pre post x _ hsplit with ⟨_, hpre, hx⟩ | ⟨post', _, ht⟩
    · rw [hpre] at hmem
      exact hw d bs e hx hmem
    · exact h3 d bs e pre post' ht hmem
  · intro d bs e pre post hsplit hmem
    rw [htr] at hsplit
    rcases snoc_split s.trace pre post x _ hsplit with ⟨_, hpre, hx⟩ | ⟨post', _, ht⟩
    · rw [hpre] at hmem
      exact hr d bs e hx hmem
    · exact h4 d bs e pre post' ht hmem

theorem closed_main (s : Relay) (h : ClosedInv s) : ClosedInv (mainStep s) := by
  unfold mainStep
  split
  · exact closed_snoc s _ (.spawn .up) rfl id (by simp) id (by simp) (by simp) (by simp) h
  · exact closed_snoc s _ (.spawn .down) rfl id (by simp) id (by simp) (by simp) (by simp) h
  · split_ifs
    · exact closed_snoc s _ .recv rfl id (by simp) id (by simp) (by simp) (by simp) h
    · exact h
  · exact closed_snoc s _ .closeClient rfl (fun _ => rfl) (fun _ => rfl) id (by simp)
      (by simp) (by simp) h
  · exact closed_snoc s _ .closeDst rfl id (by simp) (fun _ => rfl) (fun _ => rfl)
      (by simp) (by simp) h
  · split_ifs
    · exact closed_snoc s _ .recv rfl id (by simp) id (by simp) (by simp) (by simp) h
    · exact h
  · exact closed_snoc s _ .ret rfl id (by simp) id (by simp) (by simp) (by simp) h
  · exact h

theorem flags_setLoop (s : Relay) (d : Dir) (l : Loop) (e : RelayEvent) :
    ((s.setLoop d l).log e).clientClosed = s.clientClosed ∧
      ((s.setLoop d l).log e).dstClosed = s.dstClosed := by
  cases d <;> exact ⟨rfl, rfl⟩

theorem flags_setSource (s : Relay) (d : Dir) (bs : List Byte) (l : Loop) (e : RelayEvent) :
    (((s.setSource d bs).setLoop d l).log e).clientClosed = s.clientClosed ∧
      (((s.setSource d bs).setLoop d l).log e).dstClosed = s.dstClosed := by
  cases d <;> exact ⟨rfl, rfl⟩

theorem closeSource_not_mem (s : Relay) (d : Dir) (h : ClosedInv s)
    (hc : ¬ s.sourceClosed d = true) : closeSource d ∉ s.trace := by
  intro hm
  apply hc
  cases d
  · exact h.1 hm
  · exact h.2.1 hm

theorem closeSink_not_mem (s : Relay) (d : Dir) (h : ClosedInv s)
    (hc : ¬ s.sinkClosed d = true) : closeSink d ∉ s.trace := by
  intro hm
  apply hc
  cases d
  · exact h.2.1 hm
  · exact h.1 hm

theorem closed_read (s : Relay) (d : Dir) (n : Nat) (err : Bool) (h : ClosedInv s) :
    ClosedInv (readStep s d n err) := by
  unfold readStep
  cases hl : s.loop d with
  | reading =>
    dsimp only
    split_ifs with hc ht he
    · refine closed_snoc s _ (.read d [] true) (trace_setLoop s d _ _)
        (fun hh => by rw [(flags_setLoop s d _ _).1]; exact hh) (by simp)
        (fun hh => by rw [(flags_setLoop s d _ _).2]; exact hh) (by simp) (by simp) ?_ h
      intro d' bs e hx _
      injection hx with _ hbs he'
      exact ⟨hbs.symm, he'.symm⟩
    · refine closed_snoc s _ (.read d [] true) (trace_setLoop s d _ _)
        (fun hh => by rw [(flags_setLoop s d _ _).1]; exact hh) (by simp)
        (fun hh => by rw [(flags_setLoop s d _ _).2]; exact hh) (by simp) (by simp) ?_ h
      intro d' bs e hx _
      injection hx with _ hbs he'
      exact ⟨hbs.symm, he'.symm⟩
    · exact h
    · refine closed_snoc s _ (.read d ((s.source d).take n) err) (trace_setSource s d _ _ _)
        (fun hh => by rw [(flags_setSource s d _ _ _).1]; exact hh) (by simp)
        (fun hh => by rw [(flags_setSource s d _ _ _).2]; exact hh) (by simp) (by simp) ?_ h
      intro d' bs e hx hm
      injection hx with hd _ _
      rw [← hd] at hm
      exact absurd hm (closeSource_not_mem s d h hc)
  | idle => exact h
  | writing c e => exact h
  | signalling => exact h
  | finished => exact h

theorem closed_write (s : Relay) (d : Dir) (n : Nat) (err : Bool) (h : ClosedInv s) :
    ClosedInv (writeStep s d n err) := by
  unfold writeStep
  cases hl : s.loop d with
  | writing chunk rerr =>
    dsimp only
    split_ifs with hc ht
    · refine closed_snoc s _ (.write d [] true) (trace_setLoop s d _ _)
        (fun hh => by rw [(flags_setLoop s d _ _).1]; exact hh) (by simp)
        (fun hh => by rw [(flags_setLoop s d _ _).2]; exact hh) (by simp) ?_ (by simp) h
      intro d' bs e hx _
      injection hx with _ hbs he'
      exact ⟨hbs.symm, he'.symm⟩
    · refine closed_snoc s _ (.write d (chunk.take n) err) (trace_setLoop s d _ _)
        (fun hh => by rw [(flags_setLoop s d _ _).1]; exact hh) (by simp)
        (fun hh => by rw [(flags_setLoop s d _ _).2]; exact hh) (by simp) ?_ (by simp) h
      intro d' bs e hx hm
      injection hx with hd _ _
      rw [← hd] at hm
      exact absurd hm (closeSink_not_mem s d h hc)
    · refine closed_snoc s _ (.write d chunk false) (trace_setLoop s d _ _)
        (fun hh => by rw [(flags_setLoop s d _ _).1]; exact hh) (by simp)
        (fun hh => by rw [(flags_setLoop s d _ _).2]; exact hh) (by simp) ?_ (by simp) h
      intro d' bs e hx hm
      injection hx with hd _ _
      rw [← hd] at hm
      exact absurd hm (closeSink_not_mem s d h hc)
  | idle => exact h
  | reading => exact h
  | signalling => exact h
  | finished => exact h

theorem closed_signal (s : Relay) (d : Dir) (h : ClosedInv s) :
    ClosedInv (signalStep s d) := by
  unfold signalStep
  cases hl : s.loop d with
  | signalling =>
    dsimp only
    split_ifs
    · refine closed_snoc s _ (.signal d) ?_ ?_ (by simp) ?_ (by simp) (by simp) (by simp) h
      · show ((s.setLoop d .finished).log (.signal d)).trace = _
        exact trace_setLoop s d _ _
      · intro hh
        show ((s.setLoop d .finished).log (.signal d)).clientClosed = true
        rw [(flags_setLoop s d _ _).1]
        exact hh
      · intro hh
        show ((s.setLoop d .finished).log (.signal d)).dstClosed = true
        rw [(flags_setLoop s d _ _).2]
        exact hh
    · exact h
  | idle => exact h
  | reading => exact h
  | writing c e => exact h
  | finished => exact h

theorem closed_step (s : Relay) (c : Choice) (h : ClosedInv s) : ClosedInv (relayStep s c) := by
  cases c with
  | main => exact closed_main s h
  | read d n err => exact closed_read s d n err h
  | write d n err => exact closed_write s d n err h
  | signal d => exact closed_signal s d h

theorem closed_fold (sched : List Choice) (s : Relay) (h : ClosedInv s) :
    ClosedInv (sched.foldl relayStep s) := by
  induction sched generalizing s with
  | nil => exact h
  | cons c rest ih => exact ih _ (closed_step s c h)

theorem closed_run (fromClient fromDst : List Byte) (sched : List Choice) :
    ClosedInv (relayRun fromClient fromDst sched) := by
  apply closed_fold
  refine ⟨by simp [relayInit], by simp [relayInit], ?_, ?_⟩
  · intro d bs e pre post hsplit
    simp [relayInit] at hsplit
  · intro d bs e pre post hsplit
    simp [relayInit] at hsplit

/-! ## The relay: progress of a copy loop -/

theorem read_progress (s : Relay) (d : Dir) (k : Nat) (err : Bool)
    (hl : s.loop d = .reading) (hc : s.sourceClosed d = false)
    (ht : (s.source d).take k ≠ []) :
    (relayStep s (.read d k err)).loop d = .writing ((s.source d).take k) err ∧
      (relayStep s (.read d k err)).source d = (s.source d).drop k ∧
      (relayStep s (.read d k err)).trace =
        s.trace ++ [.read d ((s.source d).take k) err] := by
  simp only [relayStep, readStep, hl, hc, Bool.false_eq_true, if_false, ht]
  exact ⟨loop_setSource s d _ _ _, source_setSource s d _ _ _, trace_setSource s d _ _ _⟩

theorem write_progress (s : Relay) (d : Dir) (chunk : List Byte) (k : Nat)
    (hl : s.loop d = .writing chunk false) (hc : s.sinkClosed d = false)
    (hk : chunk.length ≤ k) :
    (relayStep s (.write d k false)).loop d = .reading ∧
      (relayStep s (.write d k false)).source d = s.source d ∧
      (relayStep s (.write d k false)).trace = s.trace ++ [.write d chunk false] := by
  have hdec : decide (k < chunk.length) = false := by
    simp only [decide_eq_false_iff_not, not_lt]
    exact hk
  simp only [relayStep, writeStep, hl, hc, hdec, Bool.false_eq_true, if_false, Bool.or_self]
  exact ⟨loop_setLoop s d _ _, source_setLoop s d d _ _, trace_setLoop s d _ _⟩

/-- One round of a copy loop that runs alone: a `Read` without error, then a
`Write` of the whole chunk. -/
theorem round_progress (s : Relay) (d : Dir) (k : Nat)
    (hl : s.loop d = .reading) (hsc : s.sourceClosed d = false) (hkc : s.sinkClosed d = false) :
    (relayStep (relayStep s (.read d k false)) (.write d k false)).loop d = .reading ∧
      (relayStep (relayStep s (.read d k false)) (.write d k false)).source d =
        (s.source d).drop k ∧
      delivered d (relayStep (relayStep s (.read d k false)) (.write d k false)).trace =
        delivered d s.trace ++ (s.source d).take k ∧
      (relayStep (relayStep s (.read d k false)) (.write d k false)).clientClosed =
        s.clientClosed ∧
      (relayStep (relayStep s (.read d k false)) (.write d k false)).dstClosed =
        s.dstClosed ∧
      ∀ d', d' ≠ d →
        (relayStep (relayStep s (.read d k false)) (.write d k false)).loop d' = s.loop d' ∧
        (relayStep (relayStep s (.read d k false)) (.write d k false)).source d' =
          s.source d' ∧
        delivered d' (relayStep (relayStep s (.read d k false)) (.write d k false)).trace =
          delivered d' s.trace := by
  by_cases ht : (s.source d).take k = []
  · have h1 : relayStep s (.read d k false) = s := by
      simp [relayStep, readStep, hl, hsc, ht]
    have h2 : relayStep s (.write d k false) = s := by
      simp [relayStep, writeStep, hl]
    rw [h1, h2]
    refine ⟨hl, ?_, ?_, rfl, rfl, fun d' _ => ⟨rfl, rfl, rfl⟩⟩
    · rcases List.take_eq_nil_iff.mp ht with hk | hs
      · rw [hk]
        rfl
      · rw [hs]
        simp
    · rw [ht]
      simp
  · have h1 : relayStep s (.read d k false) =
        ((s.setSource d ((s.source d).drop k)).setLoop d
          (.writing ((s.source d).take k) false)).log (.read d ((s.source d).take k) false) := by
      simp [relayStep, readStep, hl, hsc, ht]
    have hkc' : (((s.setSource d ((s.source d).drop k)).setLoop d
          (.writing ((s.source d).take k) false)).log
            (.read d ((s.source d).take k) false)).sinkClosed d = false := by
      rw [← hkc]
      cases d <;> rfl
    have hlen : ¬ k < ((s.source d).take k).length := by
      rw [List.length_take]
      omega
    have h2 : relayStep (relayStep s (.read d k false)) (.write d k false) =
        ((((s.setSource d ((s.source d).drop k)).setLoop d
          (.writing ((s.source d).take k) false)).log
            (.read d ((s.source d).take k) false)).setLoop d .reading).log
              (.write d ((s.source d).take k) false) := by
      rw [h1]
      simp only [relayStep, writeStep, loop_setSource, hkc', Bool.false_eq_true, if_false,
        Bool.false_or, Bool.or_false, decide_eq_true_eq, hlen]
    rw [h2]
    refine ⟨loop_setLoop _ d _ _, ?_, ?_, ?_, ?_, ?_⟩
    · rw [source_setLoop, source_setSource]
    · rw [trace_setLoop, trace_setSource, delivered_snoc_write, delivered_snoc_read]
    · rw [(flags_setLoop _ d _ _).1, (flags_setSource s d _ _ _).1]
    · rw [(flags_setLoop _ d _ _).2, (flags_setSource s d _ _ _).2]
    · intro d' hd
      refine ⟨?_, ?_, ?_⟩
      · rw [loop_setLoop_ne _ d' d _ _ (Ne.symm hd), loop_setSource_ne s d' d _ _ _ (Ne.symm hd)]
      · rw [source_setLoop, source_setSource_ne s d' d _ _ _ (Ne.symm hd)]
      · rw [trace_setLoop, trace_setSource,
          delivered_snoc_write_ne d' d _ _ _ (Ne.symm hd), delivered_snoc_read]

theorem pump_progress (d : Dir) (ns : List Nat) (s : Relay)
    (hl : s.loop d = .reading) (hsc : s.sourceClosed d = false) (hkc : s.sinkClosed d = false) :
    ((pump d ns).foldl relayStep s).loop d = .reading ∧
      ((pump d ns).foldl relayStep s).source d = (s.source d).drop ns.sum ∧
      delivered d ((pump d ns).foldl relayStep s).trace =
        delivered d s.trace ++ (s.source d).take ns.sum ∧
      ((pump d ns).foldl relayStep s).clientClosed = s.clientClosed ∧
      ((pump d ns).foldl relayStep s).dstClosed = s.dstClosed ∧
      ∀ d', d' ≠ d →
        ((pump d ns).foldl relayStep s).loop d' = s.loop d' ∧
        ((pump d ns).foldl relayStep s).source d' = s.source d' ∧
        delivered d' ((pump d ns).foldl relayStep s).trace = delivered d' s.trace := by
  induction ns generalizing s with
  | nil =>
    refine ⟨hl, ?_, ?_, rfl, rfl, fun d' _ => ⟨rfl, rfl, rfl⟩⟩
    · simp [pump]
    · simp [pump]
  | cons k ns ih =>
    obtain ⟨r1, r2, r3, r4, r5, r6⟩ := round_progress s d k hl hsc hkc
    have hsc' : (relayStep (relayStep s (.read d k false)) (.write d k false)).sourceClosed d =
        false := by
      have e : (relayStep (relayStep s (.read d k false)) (.write d k false)).sourceClosed d =
          s.sourceClosed d := by
        cases d
        · exact r4
        · exact r5
      exact e.trans hsc
    have hkc' : (relayStep (relayStep s (.read d k false)) (.write d k false)).sinkClosed d =
        false := by
      have e : (relayStep (relayStep s (.read d k false)) (.write d k false)).sinkClosed d =
          s.sinkClosed d := by
        cases d
        · exact r5
        · exact r4
      exact e.trans hkc
    obtain ⟨i1, i2, i3, i4, i5, i6⟩ := ih _ r1 hsc' hkc'
    simp only [pump, List.foldl_cons, List.sum_cons]
    refine ⟨i1, ?_, ?_, i4.trans r4, i5.trans r5, ?_⟩
    · rw [i2, r2, List.drop_drop, Nat.add_comm]
    · rw [i3, r3, r2, List.append_assoc, List.take_add]
    · intro d' hd
      obtain ⟨j1, j2, j3⟩ := i6 d' hd
      obtain ⟨q1, q2, q3⟩ := r6 d' hd
      exact ⟨j1.trans q1, j2.trans q2, j3.trans q3⟩

/-- With both loops started and nothing closed, pumping first one loop and then
the other delivers the pumped part of each stream. -/
theorem pump_run (fromClient fromDst : List Byte) (ns ms : List Nat) :
    delivered .up (relayRun fromClient fromDst
        ([.main, .main] ++ pump .up ns ++ pump .down ms)).trace = fromClient.take ns.sum ∧
      delivered .down (relayRun fromClient fromDst
        ([.main, .main] ++ pump .up ns ++ pump .down ms)).trace = fromDst.take ms.sum ∧
      (relayRun fromClient fromDst ([.main, .main] ++ pump .up ns ++ pump .down ms)).up =
        .reading ∧
      (relayRun fromClient fromDst ([.main, .main] ++ pump .up ns ++ pump .down ms)).down =
        .reading ∧
      (relayRun fromClient fromDst ([.main, .main] ++ pump .up ns ++ pump .down ms)).fromClient =
        fromClient.drop ns.sum ∧
      (relayRun fromClient fromDst ([.main, .main] ++ pump .up ns ++ pump .down ms)).fromDst =
        fromDst.drop ms.sum := by
  have h0 : [Choice.main, Choice.main].foldl relayStep (relayInit fromClient fromDst) =
      { pc := 2, chan := 0, clientClosed := false, dstClosed := false, up := .reading,
        down := .reading, fromClient := fromClient, fromDst := fromDst,
        trace := [.spawn .up, .spawn .down] } := rfl
  simp only [relayRun, List.foldl_append, h0]
  obtain ⟨a1, a2, a3, a4, a5, a6⟩ := pump_progress .up ns
    { pc := 2, chan := 0, clientClosed := false, dstClosed := false, up := .reading,
      down := .reading, fromClient := fromClient, fromDst := fromDst,
      trace := [.spawn .up, .spawn .down] } rfl rfl rfl
  obtain ⟨b1, b2, b3⟩ := a6 .down (by decide)
  obtain ⟨c1, c2, c3, c4, c5, c6⟩ := pump_progress .down ms _ b1 a5 a4
  obtain ⟨e1, e2, e3⟩ := c6 .up (by decide)
  refine ⟨?_, ?_, ?_, ?_, ?_, ?_⟩
  · rw [e3, a3]
    rfl
  · rw [c3, b3, b2]
    rfl
  · exact e1.trans a1
  · exact c1
  · exact e2.trans a2
  · exact c2.trans (by rw [b2]; rfl)

/-- C13: in an established session the relay forwards the bytes unmodified and
in order in both directions, whatever the schedule and the chunk sizes.
The handshake leaves exactly the bytes after the second port byte unread, and
they are the stream of the client-to-destination loop; the last bytes the
handshake writes to the client are the success reply.
Safety, for every schedule: what a loop has written is a prefix of its stream;
the stream is what was written, then what is in hand, then what has not been
read (`Copied`); between two iterations nothing is in hand; a loop is out of its
copy only after a `Read` or a `Write` reported an error or a `Write` was short,
and bytes stay in hand for good only after such a `Write`; no byte is read from
or written to a transport the handler has closed.
Progress, from the state any schedule has reached: a `Read` that finds data on
an open source hands exactly the next bytes to the loop; a `Write` on an open
sink that takes the whole chunk after a `Read` without error appends exactly
that chunk to what was delivered and leads back to `Read`; a loop left alone
delivers its stream chunk by chunk.
In particular the schedule that starts both loops and lets each run alone
delivers the first `ns.sum` bytes of the client's stream to the destination and
the first `ms.sum` bytes of the destination's stream to the client, for all
chunk sizes `ns` and `ms`.
The configured buffer size is at least 255, so that no slice expression of
the handshake is out of range. -/
theorem C13_relay (cfg : Config) (env : Env) (v n : Byte) (methods : List Byte)
    (av ul pl rv rsv atyp ph plo : Byte) (field payload fromDst input : List Byte)
    (sched : List Choice)
    (hcap : 255 ≤ cfg.bufsize) (hm : methods.length = n.val)
    (hu : cfg.username.length = ul.val) (hp : cfg.password.length = pl.val)
    (hwf : addrComplete atyp field = true)
    (hdial : env.dial (joinHostPort (targetOf atyp field) (decimal (portOf ph plo))) = true)
    (hin : input = greetingMsg v n methods ++ authMsg av ul cfg.username pl cfg.password ++
      requestMsg rv 0x01 rsv atyp field ph plo ++ payload) :
    ∃ st, (handle cfg env input fromDst sched).relay = some st ∧
      (handle cfg env input fromDst sched).hs.rest = payload ∧
      (∃ tl, (handle cfg env input fromDst sched).hs.trace =
        tl ++ [.write replySuccess, .clearDeadline, .poolGet 2]) ∧
      Conserved .up payload st ∧ Conserved .down fromDst st ∧
      (∃ rest, payload = delivered .up st.trace ++ rest) ∧
      (∃ rest, fromDst = delivered .down st.trace ++ rest) ∧
      (st.up = .reading → payload = delivered .up st.trace ++ st.fromClient) ∧
      (st.down = .reading → fromDst = delivered .down st.trace ++ st.fromDst) ∧
      (∀ d, Copied d (streamOf d payload fromDst) st) ∧
      ClosedInv st ∧
      (∀ more, (handle cfg env input fromDst (sched ++ more)).relay =
        some (more.foldl relayStep st)) ∧
      (∀ d k err, st.loop d = .reading → st.sourceClosed d = false →
        (st.source d).take k ≠ [] →
        (relayStep st (.read d k err)).loop d = .writing ((st.source d).take k) err ∧
        (relayStep st (.read d k err)).source d = (st.source d).drop k ∧
        (relayStep st (.read d k err)).trace =
          st.trace ++ [.read d ((st.source d).take k) err]) ∧
      (∀ d chunk k, st.loop d = .writing chunk false → st.sinkClosed d = false →
        chunk.length ≤ k →
        (relayStep st (.write d k false)).loop d = .reading ∧
        (relayStep st (.write d k false)).source d = st.source d ∧
        (relayStep st (.write d k false)).trace = st.trace ++ [.write d chunk false]) ∧
      (∀ d ns, st.loop d = .reading → st.sourceClosed d = false → st.sinkClosed d = false →
        ((pump d ns).foldl relayStep st).loop d = .reading ∧
        ((pump d ns).foldl relayStep st).source d = (st.source d).drop ns.sum ∧
        delivered d ((pump d ns).foldl relayStep st).trace =
          delivered d st.trace ++ (st.source d).take ns.sum) ∧
      (∀ ns ms, ∃ st',
        (handle cfg env input fromDst ([.main, .main] ++ pump .up ns ++ pump .down ms)).relay =
          some st' ∧
        delivered .up st'.trace = payload.take ns.sum ∧
        delivered .down st'.trace = fromDst.take ms.sum ∧
        st'.up = .reading ∧ st'.down = .reading ∧
        st'.fromClient = payload.drop ns.sum ∧ st'.fromDst = fromDst.drop ms.sum) := by
  subst hin
  obtain ⟨ho, hrest⟩ := run_connected cfg env v n methods av ul pl rv rsv atyp ph plo field
    payload hcap hm hu hp hwf hdial
  have hh : ∀ sch, handle cfg env
      (greetingMsg v n methods ++ authMsg av ul cfg.username pl cfg.password ++
        requestMsg rv 0x01 rsv atyp field ph plo ++ payload) fromDst sch =
      { hs := handshake cfg env
          (greetingMsg v n methods ++ authMsg av ul cfg.username pl cfg.password ++
            requestMsg rv 0x01 rsv atyp field ph plo ++ payload),
        relay := some (relayRun payload fromDst sch) } := by
    intro sch
    rw [handle_established cfg env _ fromDst sch ho, hrest]
  obtain ⟨hcu, hcd⟩ := conserved_run payload fromDst sched
  obtain ⟨hpu, hpd⟩ := copied_run payload fromDst sched
  have htr : ∃ tl, (handshake cfg env
      (greetingMsg v n methods ++ authMsg av ul cfg.username pl cfg.password ++
        requestMsg rv 0x01 rsv atyp field ph plo ++ payload)).trace =
      tl ++ [.write replySuccess, .clearDeadline, .poolGet 2] := by
    rw [run_complete cfg env v n methods av ul pl rv rsv atyp ph plo field payload
      hcap hm hu hp hwf, if_pos hdial]
    exact ⟨[.counterAdd 1, .poolGet 1, .setDeadline, .read [v, n], .read methods,
      .write [0x05, 0x02], .read [av, ul], .read cfg.username, .read [pl],
      .read cfg.password, .write [0x01, 0x00], .read [rv, 0x01, rsv, atyp]] ++
      addrReads atyp field ++
      [.read [ph, plo],
       .dial (joinHostPort (targetOf atyp field) (decimal (portOf ph plo))) true],
      by simp⟩
  refine ⟨relayRun payload fromDst sched, by rw [hh], by rw [hh]; exact hrest,
    by rw [hh]; exact htr, hcu, hcd,
    conserved_prefix _ _ _ hcu, conserved_prefix _ _ _ hcd, ?_, ?_, ?_,
    closed_run payload fromDst sched, ?_, ?_, ?_, ?_, ?_⟩
  · intro hr
    have h := hcu
    unfold Conserved at h
    simp only [Relay.loop, hr] at h
    exact h
  · intro hr
    have h := hcd
    unfold Conserved at h
    simp only [Relay.loop, hr] at h
    exact h
  · intro d
    cases d
    · exact hpu
    · exact hpd
  · intro more
    rw [hh]
    simp only [relayRun, List.foldl_append]
  · intro d k err hl hc ht
    exact read_progress _ d k err hl hc ht
  · intro d chunk k hl hc hk
    exact write_progress _ d chunk k hl hc hk
  · intro d ns hl hsc hkc
    obtain ⟨a1, a2, a3, _⟩ := pump_progress d ns _ hl hsc hkc
    exact ⟨a1, a2, a3⟩
  · intro ns ms
    rw [hh]
    exact ⟨_, rfl, pump_run payload fromDst ns ms⟩

/-- Witness for C13: the sample session. Under the sample schedule everything
the two peers sent has been delivered; with both loops started and the client's
loop left alone for chunks of 2 and 9 bytes the whole payload has reached the
destination. -/
theorem C13_relay_witness :
    (255 ≤ defaultCfg.bufsize ∧ [(0x00 : Byte)].length = (0x01 : Byte).val ∧
      defaultCfg.username.length = (0x05 : Byte).val ∧
      defaultCfg.password.length = (0x05 : Byte).val ∧
      addrComplete 0x01 [127, 0, 0, 1] = true ∧
      (envOf true).dial
        (joinHostPort (targetOf 0x01 [127, 0, 0, 1]) (decimal (portOf 0x1F 0x90))) = true ∧
      sampleInput = greetingMsg 0x05 0x01 [0x00] ++
        authMsg 0x01 0x05 defaultCfg.username 0x05 defaultCfg.password ++
        requestMsg 0x05 0x01 0x00 0x01 [127, 0, 0, 1] 0x1F 0x90 ++ [1, 2, 3]) ∧
    (∃ st, (handle defaultCfg (envOf true) sampleInput [9, 8] sampleSched).relay = some st ∧
      (handle defaultCfg (envOf true) sampleInput [9, 8] sampleSched).hs.rest = [1, 2, 3] ∧
      (∀ d, Copied d (streamOf d [1, 2, 3] [9, 8]) st) ∧ ClosedInv st) ∧
    (∃ st, (handle defaultCfg (envOf true) sampleInput [9, 8]
        ([.main, .main] ++ pump .up [2, 9] ++ pump .down [10])).relay = some st ∧
      delivered .up st.trace = [1, 2, 3] ∧ delivered .down st.trace = [9, 8]) ∧
    delivered .up (relayRun [1, 2, 3] [9, 8] sampleSched).trace = [1, 2, 3] ∧
    delivered .down (relayRun [1, 2, 3] [9, 8] sampleSched).trace = [9, 8] ∧
    copyObs .up (relayRun [1, 2, 3] [9, 8] sampleSched).trace =
      { hand := [], readErr := true, writeErr := false, short := false } ∧
    copyObs .down (relayRun [1, 2, 3] [9, 8] sampleSched).trace =
      { hand := [], readErr := true, writeErr := false, short := false } :=
  ⟨⟨by decide, by decide, by decide, by decide, by decide, rfl, rfl⟩,
   (C13_relay defaultCfg (envOf true) 0x05 0x01 [0x00] 0x01 0x05 0x05 0x05 0x00 0x01
     0x1F 0x90 [127, 0, 0, 1] [1, 2, 3] [9, 8] sampleInput sampleSched (by decide) (by decide)
     (by decide) (by decide) (by decide) rfl rfl).imp
     (fun _ h => ⟨h.1, h.2.1, h.2.2.2.2.2.2.2.2.2.1, h.2.2.2.2.2.2.2.2.2.2.1⟩),
   ((C13_relay defaultCfg (envOf true) 0x05 0x01 [0x00] 0x01 0x05 0x05 0x05 0x00 0x01
     0x1F 0x90 [127, 0, 0, 1] [1, 2, 3] [9, 8] sampleInput sampleSched (by decide) (by decide)
     (by decide) (by decide) (by decide) rfl rfl).elim
     (fun _ h => (h.2.2.2.2.2.2.2.2.2.2.2.2.2.2.2 [2, 9] [10]).imp
       (fun _ g => ⟨g.1, g.2.1, g.2.2.1⟩))),
   by decide, by decide, by decide, by decide⟩

/-- C14: every run of the session handler, on every exit path, adds 1 to the
connection counter as its first action and adds -1 exactly once, as its last
action, when it returns (or unwinds from a panic); while it is still relaying it
has added 1 only. Consequently, in every interleaving of session starts and ends
(shorter than `2^63` events, so that the `int64` counter cannot wrap), starting
from counter 0, the counter equals the number of sessions inside their handler,
is never negative, and is 0 once no session is inside. -/
theorem C14_counter :
    (∀ (cfg : Config) (env : Env) (input fromDst : List Byte) (sched : List Choice),
      (∃ tl, (handle cfg env input fromDst sched).log = Sum.inl (.counterAdd 1) :: tl) ∧
      ((handle cfg env input fromDst sched).exited = true →
        deltas (resources (handle cfg env input fromDst sched).log) = [1, -1] ∧
        ∃ pre, (handle cfg env input fromDst sched).log =
          pre ++ [Sum.inl (.counterAdd (-1))]) ∧
      ((handle cfg env input fromDst sched).exited = false →
        deltas (resources (handle cfg env input fromDst sched).log) = [1])) ∧
    (∀ evs : List SessEvent, evs.length < 9223372036854775808 →
      (serverRun evs).counter = ((serverRun evs).inside.length : Int) ∧
      0 ≤ (serverRun evs).counter ∧
      ((serverRun evs).inside = [] → (serverRun evs).counter = 0)) := by
  refine ⟨?_, counter_interleaving⟩
  intro cfg env input fromDst sched
  refine ⟨handle_first cfg env input fromDst sched, ?_, ?_⟩
  · intro hex
    refine ⟨?_, handle_last cfg env input fromDst sched hex⟩
    rcases handle_resources cfg env input fromDst sched with
      ⟨_, _, hr⟩ | ⟨_, _, hr⟩ | ⟨_, ⟨st, hrel, hpc⟩, hr⟩ | ⟨_, _, hr⟩
    · rw [hr]
      rfl
    · rw [hr]
      rfl
    · unfold Session.exited at hex
      rw [hrel] at hex
      simp at hex
      exact absurd hex hpc
    · rw [hr]
      rfl
  · intro hex
    rcases handle_resources cfg env input fromDst sched with
      ⟨_, hrel, hr⟩ | ⟨_, hrel, hr⟩ | ⟨_, _, hr⟩ | ⟨_, ⟨st, hrel, hpc⟩, hr⟩
    · unfold Session.exited at hex
      rw [hrel] at hex
      simp at hex
    · unfold Session.exited at hex
      rw [hrel] at hex
      simp at hex
    · rw [hr]
      rfl
    · unfold Session.exited at hex
      rw [hrel] at hex
      simp [hpc] at hex

/-- Witness for C14: the sample session run to its return, the same session
stopped while relaying, and three sessions of which one has ended. -/
theorem C14_counter_witness :
    ((handle defaultCfg (envOf true) sampleInput [9, 8] sampleSched).exited = true ∧
      (handle defaultCfg (envOf true) sampleInput [9, 8] [.main, .main]).exited = false ∧
      [SessEvent.start 1, .start 2, .finish 1, .start 3].length < 9223372036854775808) ∧
    deltas (resources (handle defaultCfg (envOf true) sampleInput [9, 8] sampleSched).log) =
      [1, -1] ∧
    deltas (resources (handle defaultCfg (envOf true) sampleInput [9, 8] [.main, .main]).log) =
      [1] ∧
    (serverRun [.start 1, .start 2, .finish 1, .start 3]).counter =
      ((serverRun [.start 1, .start 2, .finish 1, .start 3]).inside.length : Int) :=
  ⟨by decide,
   ((C14_counter.1 defaultCfg (envOf true) sampleInput [9, 8] sampleSched).2.1
     (by decide)).1,
   (C14_counter.1 defaultCfg (envOf true) sampleInput [9, 8] [.main, .main]).2.2 (by decide),
   (C14_counter.2 [.start 1, .start 2, .finish 1, .start 3] (by decide)).1⟩

/-- C15: in every run of the session handler each buffer acquired from the pool
is released exactly once and nothing else is released. A run that does not reach
the relay acquires the first buffer and releases it (with a negative configured
size the pool cannot produce a buffer: none is acquired, none released). A run
that reaches the relay acquires the second buffer right after the success reply
and the clearing of the deadline, holds both buffers while relaying, and
releases the second and then the first only after the relay has finished: after
the handler's `return`, which follows the completion signals of both loops. -/
theorem C15_buffers (cfg : Config) (env : Env) (input fromDst : List Byte)
    (sched : List Choice) :
    ((handle cfg env input fromDst sched).relay = none → 0 ≤ cfg.bufsize →
      pools (resources (handle cfg env input fromDst sched).log) =
        [.poolGet 1, .poolPut 1]) ∧
    ((handle cfg env input fromDst sched).relay = none → cfg.bufsize < 0 →
      pools (resources (handle cfg env input fromDst sched).log) = []) ∧
    (∀ st, (handle cfg env input fromDst sched).relay = some st →
      (∃ tl, Quiet tl ∧ (handle cfg env input fromDst sched).hs.trace =
        [.counterAdd 1, .poolGet 1, .setDeadline] ++ tl ++
          [.write replySuccess, .clearDeadline, .poolGet 2]) ∧
      (st.pc ≠ 7 →
        pools (resources (handle cfg env input fromDst sched).log) =
          [.poolGet 1, .poolGet 2]) ∧
      (st.pc = 7 →
        pools (resources (handle cfg env input fromDst sched).log) =
          [.poolGet 1, .poolGet 2, .poolPut 2, .poolPut 1] ∧
        (handle cfg env input fromDst sched).log =
          (handle cfg env input fromDst sched).hs.trace.map Sum.inl ++
            st.trace.map Sum.inr ++
            [Sum.inl (.poolPut 2), Sum.inl (.poolPut 1), Sum.inl (.counterAdd (-1))] ∧
        RelayEvent.ret ∈ st.trace ∧ RelayEvent.signal .up ∈ st.trace ∧
        RelayEvent.signal .down ∈ st.trace)) := by
  refine ⟨?_, ?_, ?_⟩
  · intro hnone hpos
    rcases handle_resources cfg env input fromDst sched with
      ⟨hneg, _, _⟩ | ⟨_, _, hr⟩ | ⟨_, ⟨st, hrel, _⟩, _⟩ | ⟨_, ⟨st, hrel, _⟩, _⟩
    · omega
    · rw [hr]
      rfl
    · rw [hnone] at hrel
      simp at hrel
    · rw [hnone] at hrel
      simp at hrel
  · intro hnone hneg
    rcases handle_resources cfg env input fromDst sched with
      ⟨_, _, hr⟩ | ⟨hpos, _, _⟩ | ⟨_, ⟨st, hrel, _⟩, _⟩ | ⟨_, ⟨st, hrel, _⟩, _⟩
    · rw [hr]
      rfl
    · omega
    · rw [hnone] at hrel
      simp at hrel
    · rw [hnone] at hrel
      simp at hrel
  · intro st hsome
    obtain ⟨ho, hst, hhs⟩ := handle_relay cfg env input fromDst sched st hsome
    have hinv : SyncInv st := by
      rw [hst]
      exact sync_run _ _ _
    have hshape : (∃ tl, Quiet tl ∧ (handle cfg env input fromDst sched).hs.trace =
          [.counterAdd 1, .poolGet 1, .setDeadline] ++ tl ++
            [.write replySuccess, .clearDeadline, .poolGet 2]) ∧
        (handle cfg env input fromDst sched).hs.pending =
          [.poolPut 2, .poolPut 1, .counterAdd (-1)] := by
      rcases handle_cases cfg env input fromDst sched with
        ⟨_, hrel, _⟩ | ⟨_, hrel, _⟩ | ⟨_, _, hpend, tl, hq, htr⟩
      · rw [hsome] at hrel
        simp at hrel
      · rw [hsome] at hrel
        simp at hrel
      · exact ⟨⟨tl, hq, htr⟩, hpend⟩
    refine ⟨hshape.1, ?_, ?_⟩
    · intro hpc
      rcases handle_resources cfg env input fromDst sched with
        ⟨_, hrel, _⟩ | ⟨_, hrel, _⟩ | ⟨_, _, hr⟩ | ⟨_, ⟨st', hrel, hpc'⟩, _⟩
      · rw [hsome] at hrel
        simp at hrel
      · rw [hsome] at hrel
        simp at hrel
      · rw [hr]
        rfl
      · rw [hsome] at hrel
        simp only [Option.some.injEq] at hrel
        rw [hrel] at hpc
        exact absurd hpc' hpc
    · intro hpc
      refine ⟨?_, ?_, returned_signals st hinv hpc⟩
      · rcases handle_resources cfg env input fromDst sched with
          ⟨_, hrel, _⟩ | ⟨_, hrel, _⟩ | ⟨_, ⟨st', hrel, hpc'⟩, _⟩ | ⟨_, _, hr⟩
        · rw [hsome] at hrel
          simp at hrel
        · rw [hsome] at hrel
          simp at hrel
        · rw [hsome] at hrel
          simp only [Option.some.injEq] at hrel
          rw [hrel] at hpc
          exact absurd hpc hpc'
        · rw [hr]
          rfl
      · unfold Session.log
        rw [hsome]
        dsimp only
        rw [if_pos hpc, hshape.2]
        rfl

/-- Witness for C15: the sample session run to its return. -/
theorem C15_buffers_witness :
    ((handle defaultCfg (envOf true) sampleInput [9, 8] sampleSched).relay =
        some (relayRun [1, 2, 3] [9, 8] sampleSched) ∧
      (relayRun [1, 2, 3] [9, 8] sampleSched).pc = 7) ∧
    pools (resources (handle defaultCfg (envOf true) sampleInput [9, 8] sampleSched).log) =
      [.poolGet 1, .poolGet 2, .poolPut 2, .poolPut 1] :=
  ⟨by decide,
   (((C15_buffers defaultCfg (envOf true) sampleInput [9, 8] sampleSched).2.2
     (relayRun [1, 2, 3] [9, 8] sampleSched) (by decide)).2.2 (by decide)).1⟩

/-- C16: in every established session and under every schedule, each of the
two close events of the handler comes after the completion signal of some copy
loop, and the handler returns, and so releases the two buffers, only after both
loops have signalled completion. Moreover, as soon as one loop has signalled,
nothing blocks the handler: its next four steps close both the client and the
destination transport. -/
theorem C16_shutdown (cfg : Config) (env : Env) (input fromDst : List Byte)
    (sched : List Choice) (st : Relay)
    (h : (handle cfg env input fromDst sched).relay = some st) :
    (∀ pre post, st.trace = pre ++ RelayEvent.closeClient :: post →
      ∃ d, RelayEvent.signal d ∈ pre) ∧
    (∀ pre post, st.trace = pre ++ RelayEvent.closeDst :: post →
      ∃ d, RelayEvent.signal d ∈ pre) ∧
    (∀ pre post, st.trace = pre ++ RelayEvent.ret :: post →
      RelayEvent.signal .up ∈ pre ∧ RelayEvent.signal .down ∈ pre) ∧
    (handle cfg env input fromDst sched).log =
      (handle cfg env input fromDst sched).hs.trace.map Sum.inl ++ st.trace.map Sum.inr ++
        (if st.pc = 7
         then [Sum.inl (.poolPut 2), Sum.inl (.poolPut 1), Sum.inl (.counterAdd (-1))]
         else []) ∧
    (st.pc = 7 → RelayEvent.ret ∈ st.trace ∧ RelayEvent.signal .up ∈ st.trace ∧
      RelayEvent.signal .down ∈ st.trace) ∧
    ((∃ d, RelayEvent.signal d ∈ st.trace) →
      ∃ st', (handle cfg env input fromDst
          (sched ++ [.main, .main, .main, .main])).relay = some st' ∧
        st'.clientClosed = true ∧ st'.dstClosed = true ∧
        RelayEvent.closeClient ∈ st'.trace ∧ RelayEvent.closeDst ∈ st'.trace) := by
  obtain ⟨ho, hst, hhs⟩ := handle_relay cfg env input fromDst sched st h
  have hinv : SyncInv st := by
    rw [hst]
    exact sync_run _ _ _
  refine ⟨hinv.closeClient, hinv.closeDst, hinv.ret, ?_, returned_signals st hinv, ?_⟩
  · have hpend : (handle cfg env input fromDst sched).hs.pending =
        [.poolPut 2, .poolPut 1, .counterAdd (-1)] := by
      rcases handle_cases cfg env input fromDst sched with
        ⟨_, hrel, _⟩ | ⟨_, hrel, _⟩ | ⟨_, _, hpend, _⟩
      · rw [h] at hrel
        simp at hrel
      · rw [h] at hrel
        simp at hrel
      · exact hpend
    unfold Session.log
    rw [h]
    dsimp only
    rw [hpend]
    rfl
  · intro hsig
    rw [handle_established cfg env input fromDst _ ho]
    refine ⟨_, rfl, ?_⟩
    have hrun : relayRun (handshake cfg env input).rest fromDst
        (sched ++ [.main, .main, .main, .main]) =
        mainStep (mainStep (mainStep (mainStep st))) := by
      rw [hst]
      unfold relayRun
      rw [List.foldl_append]
      rfl
    rw [hrun]
    have h5 := main_closes st hinv hsig
    have hinv4 : SyncInv (mainStep (mainStep (mainStep (mainStep st)))) :=
      sync_main _ (sync_main _ (sync_main _ (sync_main _ hinv)))
    have hc := hinv4.clientClosed (by omega)
    have hd := hinv4.dstClosed h5
    exact ⟨hc.1, hd.1, hc.2, hd.2⟩

/-- Witness for C16: the sample session stopped right after the destination
loop has signalled. -/
theorem C16_shutdown_witness :
    ((handle defaultCfg (envOf true) sampleInput [9, 8] (sampleSched.take 10)).relay =
        some (relayRun [1, 2, 3] [9, 8] (sampleSched.take 10)) ∧
      ∃ d, RelayEvent.signal d ∈ (relayRun [1, 2, 3] [9, 8] (sampleSched.take 10)).trace) ∧
    ∃ st', (handle defaultCfg (envOf true) sampleInput [9, 8]
        (sampleSched.take 10 ++ [.main, .main, .main, .main])).relay = some st' ∧
      st'.clientClosed = true ∧ st'.dstClosed = true ∧
      RelayEvent.closeClient ∈ st'.trace ∧ RelayEvent.closeDst ∈ st'.trace :=
  ⟨⟨by decide, ⟨.down, by decide⟩⟩,
   (C16_shutdown defaultCfg (envOf true) sampleInput [9, 8] (sampleSched.take 10)
     (relayRun [1, 2, 3] [9, 8] (sampleSched.take 10)) (by decide)).2.2.2.2.2
     ⟨.down, by decide⟩⟩

end S5
